import Mathlib

/-!
# Solution registration of ReaK planning queries

A shallow embedding of `ReaK/ctrl/path_planning/planning_queries.hpp`
(the `planning_query` base class, the eight `detail::register_*_solution_path_impl`
overloads and `path_planning_p2p_query`).

Modelling conventions.

* `double` costs live in an arbitrary linearly ordered additive commutative monoid
  with a top element (`⊤` is `std::numeric_limits<double>::infinity()`); rounding and
  NaN are outside the model.
* Vertex and edge descriptors are natural numbers; `equal_descriptors` is equality.
* `std::map<double, solution_record_ptr>` is a list of (key, record) pairs kept in
  increasing key order; a solution record is the list of its waypoints, and the null
  `solution_record_ptr` is `none`.
* The waypoint containers `point_to_point_path` and `discrete_point_path` are lists of points:
  `push_front` puts a point in front and `push_back` puts it at the end.
* Every `while` loop of the source is a recursive function with a fuel argument; running
  out of fuel (`none`) stands for a loop that does not terminate.
-/

namespace ReaK

variable {C P : Type}

/-! ## Data model -/

/-- The type-erased motion graph `graph::any_graph` together with the dynamic property
maps the registration code reads from it (`vertex_position`, `vertex_predecessor`,
`vertex_distance_accum`, `edge_steer_record`), its in-edge lists and `source`. -/
structure any_graph (C P : Type) where
  position : Nat → P
  predecessor : Nat → Nat
  distance_accum : Nat → C
  in_edges : Nat → List Nat
  source : Nat → Nat
  steer_record : Nat → List P

/-- The free space as seen by the registration code: whether `is_steerable_space` holds
for it, its `distance_metric`, and the steer record returned (as `.second`) by
`steer_position_toward(a, 1.0, b)`. -/
structure free_space (C P : Type) where
  is_steerable_space : Bool
  distance_metric : P → P → C
  steer_position_toward : P → P → List P

/-- The container `std::map<double, solution_record_ptr>`: entries in increasing key order. -/
abbrev solution_map (C P : Type) := List (C × List P)

/-- The representation invariant of `std::map`: keys strictly increasing. -/
def map_ordered [LT C] (m : solution_map C P) : Prop :=
  List.Pairwise (fun a b => a.1 < b.1) m

/-- The assignment `solutions[k] = v` of `std::map`: insert at the key's place in the order, or
overwrite the entry that already has this key. -/
def map_assign [LinearOrder C] (k : C) (v : List P) : solution_map C P → solution_map C P
  | [] => [(k, v)]
  | (k0, v0) :: rest =>
    if k < k0 then (k, v) :: (k0, v0) :: rest
    else if k0 < k then (k0, v0) :: map_assign k v rest
    else (k, v) :: rest

/-- The test `(solutions.empty()) || (d < solutions.begin()->first)`. -/
def improves_on_best [LinearOrder C] (d : C) : solution_map C P → Bool
  | [] => true
  | (k0, _) :: _ => decide (d < k0)

/-- The test `(!solutions.empty()) && (d >= solutions.begin()->first)`. -/
def no_better_than_best [LinearOrder C] (d : C) : solution_map C P → Bool
  | [] => false
  | (k0, _) :: _ => decide (d ≥ k0)

/-- What a registration call leaves behind: the returned `solution_record_ptr` (`none` is the
null pointer) and the solution map after the call. -/
structure registration (C P : Type) where
  result : Option (List P)
  solutions : solution_map C P

/-! ## Steer records

Modelled from the spec: `SteerRecordType` and its `point_fraction_iterator` are declared in
`steerable_space_concept.hpp`, which is not among the sources. A steer record is "an ordered,
restartable, finite sequence of fractional waypoints between the edge's endpoints"; it is a list
whose element 0 is at `begin_fraction_travel()` and whose last element is at
`end_fraction_travel()`, and `it -= 1.0` steps back by one element. -/

/-- Modelled from the spec: the position of `end_fraction_travel()` in a steer record, with
`begin_fraction_travel()` at position 0 (the two coincide on an empty record). -/
def end_fraction_travel (sr : List P) : Nat := sr.length - 1

/-- The loop `for(it = sr.end_fraction_travel(); it != sr.begin_fraction_travel(); it -= 1.0)
waypoints.push_front(point_type(*it));` with `it` the current position. -/
def push_front_steer_loop (sr : List P) : Nat → List P → List P
  | 0, waypoints => waypoints
  | it + 1, waypoints =>
    match sr[it + 1]? with
    | some p => push_front_steer_loop sr it (p :: waypoints)
    | none => push_front_steer_loop sr it waypoints

/-- The same loop with `waypoints.push_back(point_type(*it))`. -/
def push_back_steer_loop (sr : List P) : Nat → List P → List P
  | 0, waypoints => waypoints
  | it + 1, waypoints =>
    match sr[it + 1]? with
    | some p => push_back_steer_loop sr it (waypoints ++ [p])
    | none => push_back_steer_loop sr it waypoints

/-- Splice a whole steer record in front of the waypoints. -/
def push_front_steer_record (sr : List P) (waypoints : List P) : List P :=
  push_front_steer_loop sr (end_fraction_travel sr) waypoints

/-- Splice a whole steer record behind the waypoints. -/
def push_back_steer_record (sr : List P) (waypoints : List P) : List P :=
  push_back_steer_loop sr (end_fraction_travel sr) waypoints

section impl

variable [LinearOrderedAddCommMonoidWithTop C]

/-! ## Single-tree registration, basic motion graph (lines 307-405) -/

namespace steerable

/-- The loop of lines 344-353: follow the first in-edge of `goal_node` while it has one and is
not `start_node`, splicing each edge's steer record and then the source position in front. -/
def basic_walk (space : free_space C P) (g : any_graph C P) (start_node : Nat) :
    Nat → Nat → C → List P → Option (Nat × C × List P)
  | 0, _, _, _ => none
  | fuel + 1, goal_node, solutions_total_dist, waypoints =>
    match g.in_edges goal_node with
    | [] => some (goal_node, solutions_total_dist, waypoints)
    | e :: _ =>
      if goal_node = start_node then some (goal_node, solutions_total_dist, waypoints)
      else
        let u := g.source e
        basic_walk space g start_node fuel u
          (solutions_total_dist + space.distance_metric (g.position u) (g.position goal_node))
          (g.position u :: push_front_steer_record (g.steer_record e) waypoints)

/-- The waypoints pushed before the walk starts (lines 335-342). -/
def goal_waypoints (space : free_space C P) (g : any_graph C P) (goal_node : Nat) (goal_pos : P)
    (goal_distance : C) : List P :=
  g.position goal_node ::
    (if 0 < goal_distance then
      push_front_steer_record (space.steer_position_toward (g.position goal_node) goal_pos)
        [goal_pos]
    else [])

/-- The overload of `detail::register_basic_solution_path_impl` for a steerable space and one
graph (lines 307-361). -/
def register_basic_solution_path_impl (fuel : Nat) (space : free_space C P) (g : any_graph C P)
    (start_node goal_node : Nat) (goal_pos : P) (goal_distance : C)
    (solutions : solution_map C P) : Option (registration C P) :=
  match basic_walk space g start_node fuel goal_node goal_distance
      (goal_waypoints space g goal_node goal_pos goal_distance) with
  | none => none
  | some (goal_node, solutions_total_dist, waypoints) =>
    if goal_node = start_node ∧ improves_on_best solutions_total_dist solutions = true then
      some ⟨some waypoints, map_assign solutions_total_dist waypoints solutions⟩
    else some ⟨none, solutions⟩

end steerable

namespace non_steerable

/-- The loop of lines 392-397. -/
def basic_walk (space : free_space C P) (g : any_graph C P) (start_node : Nat) :
    Nat → Nat → C → List P → Option (Nat × C × List P)
  | 0, _, _, _ => none
  | fuel + 1, goal_node, solutions_total_dist, waypoints =>
    match g.in_edges goal_node with
    | [] => some (goal_node, solutions_total_dist, waypoints)
    | e :: _ =>
      if goal_node = start_node then some (goal_node, solutions_total_dist, waypoints)
      else
        let v := g.source e
        basic_walk space g start_node fuel v
          (solutions_total_dist + space.distance_metric (g.position v) (g.position goal_node))
          (g.position v :: waypoints)

/-- The waypoints pushed before the walk starts (lines 387-390 and 505-508). -/
def goal_waypoints (g : any_graph C P) (goal_node : Nat) (goal_pos : P) (goal_distance : C) :
    List P :=
  g.position goal_node :: (if 0 < goal_distance then [goal_pos] else [])

/-- The overload of `detail::register_basic_solution_path_impl` for a space that is not
steerable and one graph (lines 363-405). -/
def register_basic_solution_path_impl (fuel : Nat) (space : free_space C P) (g : any_graph C P)
    (start_node goal_node : Nat) (goal_pos : P) (goal_distance : C)
    (solutions : solution_map C P) : Option (registration C P) :=
  match basic_walk space g start_node fuel goal_node goal_distance
      (goal_waypoints g goal_node goal_pos goal_distance) with
  | none => none
  | some (goal_node, solutions_total_dist, waypoints) =>
    if goal_node = start_node ∧ improves_on_best solutions_total_dist solutions = true then
      some ⟨some waypoints, map_assign solutions_total_dist waypoints solutions⟩
    else some ⟨none, solutions⟩

end non_steerable

/-! ## Single-tree registration, optimal motion graph (lines 409-521) -/

namespace steerable

/-- The loop of lines 452-463: step to the recorded predecessor, look among the in-edges of the
vertex just left for the first one whose source is that predecessor, and `break` when there is
none (the current vertex has then already been replaced by the predecessor). -/
def optimal_walk (g : any_graph C P) (start_node : Nat) :
    Nat → Nat → List P → Option (Nat × List P)
  | 0, _, _ => none
  | fuel + 1, goal_node, waypoints =>
    if goal_node = start_node then some (goal_node, waypoints)
    else
      let er := g.in_edges goal_node
      let goal_node := g.predecessor goal_node
      match er.find? (fun e => decide (g.source e = goal_node)) with
      | none => some (goal_node, waypoints)
      | some e =>
        optimal_walk g start_node fuel goal_node
          (g.position goal_node :: push_front_steer_record (g.steer_record e) waypoints)

/-- The overload of `detail::register_optimal_solution_path_impl` for a steerable space and
one graph (lines 409-471). -/
def register_optimal_solution_path_impl (fuel : Nat) (space : free_space C P)
    (g : any_graph C P) (start_node goal_node : Nat) (goal_pos : P) (goal_distance : C)
    (solutions : solution_map C P) : Option (registration C P) :=
  let solutions_total_dist := g.distance_accum goal_node + goal_distance
  if ¬ (solutions_total_dist < ⊤) ∨ no_better_than_best solutions_total_dist solutions = true then
    some ⟨none, solutions⟩
  else
    match optimal_walk g start_node fuel goal_node
        (goal_waypoints space g goal_node goal_pos goal_distance) with
    | none => none
    | some (goal_node, waypoints) =>
      if goal_node = start_node then
        some ⟨some waypoints, map_assign solutions_total_dist waypoints solutions⟩
      else some ⟨none, solutions⟩

end steerable

namespace non_steerable

/-- The loop of lines 510-513: replace the vertex by its recorded predecessor until it is
`start_node`. -/
def optimal_walk (g : any_graph C P) (start_node : Nat) :
    Nat → Nat → List P → Option (Nat × List P)
  | 0, _, _ => none
  | fuel + 1, goal_node, waypoints =>
    if goal_node = start_node then some (goal_node, waypoints)
    else
      let goal_node := g.predecessor goal_node
      optimal_walk g start_node fuel goal_node (g.position goal_node :: waypoints)

/-- The overload of `detail::register_optimal_solution_path_impl` for a space that is not
steerable and one graph (lines 475-521). -/
def register_optimal_solution_path_impl (fuel : Nat) (g : any_graph C P)
    (start_node goal_node : Nat) (goal_pos : P) (goal_distance : C)
    (solutions : solution_map C P) : Option (registration C P) :=
  let solutions_total_dist := g.distance_accum goal_node + goal_distance
  if ¬ (solutions_total_dist < ⊤) ∨ no_better_than_best solutions_total_dist solutions = true then
    some ⟨none, solutions⟩
  else
    match optimal_walk g start_node fuel goal_node
        (goal_waypoints g goal_node goal_pos goal_distance) with
    | none => none
    | some (goal_node, waypoints) =>
      if goal_node = start_node then
        some ⟨some waypoints, map_assign solutions_total_dist waypoints solutions⟩
      else some ⟨none, solutions⟩

end non_steerable

/-! ## Joining-point registration, basic motion graphs (lines 529-657) -/

namespace steerable

/-- The loop of lines 582-591: the walk up the second tree, pushing at the back. -/
def basic_walk_back (space : free_space C P) (g2 : any_graph C P) (goal_node : Nat) :
    Nat → Nat → C → List P → Option (Nat × C × List P)
  | 0, _, _, _ => none
  | fuel + 1, join2_node, solutions_total_dist, waypoints =>
    match g2.in_edges join2_node with
    | [] => some (join2_node, solutions_total_dist, waypoints)
    | e :: _ =>
      if join2_node = goal_node then some (join2_node, solutions_total_dist, waypoints)
      else
        let u := g2.source e
        basic_walk_back space g2 goal_node fuel u
          (solutions_total_dist + space.distance_metric (g2.position u) (g2.position join2_node))
          (push_back_steer_record (g2.steer_record e) waypoints ++ [g2.position u])

/-- The waypoints pushed before the first walk starts (lines 561-567 and 701-707). -/
def join_waypoints (space : free_space C P) (g1 g2 : any_graph C P) (join1_node join2_node : Nat)
    (joining_distance : C) : List P :=
  g1.position join1_node ::
    (if 0 < joining_distance then
      push_front_steer_record
        (space.steer_position_toward (g1.position join1_node) (g2.position join2_node)) []
    else [])

/-- The overload of `detail::register_basic_solution_path_impl` for a steerable space and two
graphs (lines 529-602). -/
def register_basic_solution_path_impl2 (fuel : Nat) (space : free_space C P)
    (g1 g2 : any_graph C P) (start_node goal_node join1_node join2_node : Nat)
    (joining_distance : C) (solutions : solution_map C P) : Option (registration C P) :=
  match basic_walk space g1 start_node fuel join1_node joining_distance
      (join_waypoints space g1 g2 join1_node join2_node joining_distance) with
  | none => none
  | some (join1_node, solutions_total_dist, waypoints) =>
    match basic_walk_back space g2 goal_node fuel join2_node solutions_total_dist
        (waypoints ++ [g2.position join2_node]) with
    | none => none
    | some (join2_node, solutions_total_dist, waypoints) =>
      if join1_node = start_node ∧ join2_node = goal_node ∧
          improves_on_best solutions_total_dist solutions = true then
        some ⟨some waypoints, map_assign solutions_total_dist waypoints solutions⟩
      else some ⟨none, solutions⟩

end steerable

namespace non_steerable

/-- The loop of lines 642-647: the walk up the second tree, pushing at the back. -/
def basic_walk_back (space : free_space C P) (g2 : any_graph C P) (goal_node : Nat) :
    Nat → Nat → C → List P → Option (Nat × C × List P)
  | 0, _, _, _ => none
  | fuel + 1, join2_node, solutions_total_dist, waypoints =>
    match g2.in_edges join2_node with
    | [] => some (join2_node, solutions_total_dist, waypoints)
    | e :: _ =>
      if join2_node = goal_node then some (join2_node, solutions_total_dist, waypoints)
      else
        let v := g2.source e
        basic_walk_back space g2 goal_node fuel v
          (solutions_total_dist + space.distance_metric (g2.position join2_node) (g2.position v))
          (waypoints ++ [g2.position v])

/-- The overload of `detail::register_basic_solution_path_impl` for a space that is not
steerable and two graphs (lines 604-657). -/
def register_basic_solution_path_impl2 (fuel : Nat) (space : free_space C P)
    (g1 g2 : any_graph C P) (start_node goal_node join1_node join2_node : Nat)
    (joining_distance : C) (solutions : solution_map C P) : Option (registration C P) :=
  match basic_walk space g1 start_node fuel join1_node joining_distance
      [g1.position join1_node] with
  | none => none
  | some (join1_node, solutions_total_dist, waypoints) =>
    match basic_walk_back space g2 goal_node fuel join2_node solutions_total_dist
        (waypoints ++ [g2.position join2_node]) with
    | none => none
    | some (join2_node, solutions_total_dist, waypoints) =>
      if join1_node = start_node ∧ join2_node = goal_node ∧
          improves_on_best solutions_total_dist solutions = true then
        some ⟨some waypoints, map_assign solutions_total_dist waypoints solutions⟩
      else some ⟨none, solutions⟩

end non_steerable

/-! ## Joining-point registration, optimal motion graphs (lines 661-803) -/

namespace steerable

/-- The loop of lines 724-735: the predecessor walk up the second tree, pushing at the back. -/
def optimal_walk_back (g2 : any_graph C P) (goal_node : Nat) :
    Nat → Nat → List P → Option (Nat × List P)
  | 0, _, _ => none
  | fuel + 1, join2_node, waypoints =>
    if join2_node = goal_node then some (join2_node, waypoints)
    else
      let er := g2.in_edges join2_node
      let join2_node := g2.predecessor join2_node
      match er.find? (fun e => decide (g2.source e = join2_node)) with
      | none => some (join2_node, waypoints)
      | some e =>
        optimal_walk_back g2 goal_node fuel join2_node
          (push_back_steer_record (g2.steer_record e) waypoints ++ [g2.position join2_node])

/-- The overload of `detail::register_optimal_solution_path_impl` for a steerable space and
two graphs (lines 661-744). -/
def register_optimal_solution_path_impl2 (fuel : Nat) (space : free_space C P)
    (g1 g2 : any_graph C P) (start_node goal_node join1_node join2_node : Nat)
    (joining_distance : C) (solutions : solution_map C P) : Option (registration C P) :=
  let solutions_total_dist :=
    g1.distance_accum join1_node + g2.distance_accum join2_node + joining_distance
  if ¬ (solutions_total_dist < ⊤) ∨ no_better_than_best solutions_total_dist solutions = true then
    some ⟨none, solutions⟩
  else
    match optimal_walk g1 start_node fuel join1_node
        (join_waypoints space g1 g2 join1_node join2_node joining_distance) with
    | none => none
    | some (join1_node, waypoints) =>
      match optimal_walk_back g2 goal_node fuel join2_node
          (waypoints ++ [g2.position join2_node]) with
      | none => none
      | some (join2_node, waypoints) =>
        if join1_node = start_node ∧ join2_node = goal_node then
          some ⟨some waypoints, map_assign solutions_total_dist waypoints solutions⟩
        else some ⟨none, solutions⟩

end steerable

namespace non_steerable

/-- The loop of lines 792-795: the predecessor walk up the second tree, pushing at the back. -/
def optimal_walk_back (g2 : any_graph C P) (goal_node : Nat) :
    Nat → Nat → List P → Option (Nat × List P)
  | 0, _, _ => none
  | fuel + 1, join2_node, waypoints =>
    if join2_node = goal_node then some (join2_node, waypoints)
    else
      let join2_node := g2.predecessor join2_node
      optimal_walk_back g2 goal_node fuel join2_node (waypoints ++ [g2.position join2_node])

/-- The overload of `detail::register_optimal_solution_path_impl` for a space that is not
steerable and two graphs (lines 748-803). -/
def register_optimal_solution_path_impl2 (fuel : Nat) (g1 g2 : any_graph C P)
    (start_node goal_node join1_node join2_node : Nat) (joining_distance : C)
    (solutions : solution_map C P) : Option (registration C P) :=
  let solutions_total_dist :=
    g1.distance_accum join1_node + g2.distance_accum join2_node + joining_distance
  if ¬ (solutions_total_dist < ⊤) ∨ no_better_than_best solutions_total_dist solutions = true then
    some ⟨none, solutions⟩
  else
    match optimal_walk g1 start_node fuel join1_node [g1.position join1_node] with
    | none => none
    | some (join1_node, waypoints) =>
      match optimal_walk_back g2 goal_node fuel join2_node
          (waypoints ++ [g2.position join2_node]) with
      | none => none
      | some (join2_node, waypoints) =>
        if join1_node = start_node ∧ join2_node = goal_node then
          some ⟨some waypoints, map_assign solutions_total_dist waypoints solutions⟩
        else some ⟨none, solutions⟩

end non_steerable

/-! ## The queries (lines 70-295 and 820-957) -/

/-- The base class `planning_query`: it only holds the space. -/
structure planning_query (C P : Type) where
  space : free_space C P

/-- The base `planning_query::get_best_solution_distance` (lines 96-98). -/
def planning_query.get_best_solution_distance (_q : planning_query C P) : C := ⊤

/-- The base `planning_query::keep_going` (line 104). -/
def planning_query.keep_going (_q : planning_query C P) : Bool := true

/-- The class `path_planning_p2p_query`: the base part, the two end positions, the wanted number
of results and the solutions found so far. -/
structure path_planning_p2p_query (C P : Type) extends planning_query C P where
  start_pos : P
  goal_pos : P
  max_num_results : Nat
  solutions : solution_map C P

namespace path_planning_p2p_query

/-- The constructor (lines 927-932): no solution yet. -/
def mk_query (aWorld : free_space C P) (aStartPos aGoalPos : P) (aMaxNumResults : Nat) :
    path_planning_p2p_query C P :=
  { space := aWorld, start_pos := aStartPos, goal_pos := aGoalPos,
    max_num_results := aMaxNumResults, solutions := [] }

/-- The override `path_planning_p2p_query::get_best_solution_distance` (lines 846-851). -/
def get_best_solution_distance (q : path_planning_p2p_query C P) : C :=
  if q.solutions.length = 0 then ⊤
  else
    match q.solutions with
    | [] => ⊤
    | (k0, _) :: _ => k0

/-- The override `path_planning_p2p_query::keep_going` (lines 857-859). -/
def keep_going (q : path_planning_p2p_query C P) : Bool :=
  decide (q.max_num_results > q.solutions.length)

/-- The override `path_planning_p2p_query::reset_solution_records` (lines 864-866). -/
def reset_solution_records (q : path_planning_p2p_query C P) : path_planning_p2p_query C P :=
  { q with solutions := [] }

/-- The accessor `get_start_position` (line 868). -/
def get_start_position (q : path_planning_p2p_query C P) : P := q.start_pos

/-- Store the map a registration left behind back into the query, next to what it returned. -/
def commit (q : path_planning_p2p_query C P) (r : Option (registration C P)) :
    Option (Option (List P) × path_planning_p2p_query C P) :=
  r.map fun out => (out.result, { q with solutions := out.solutions })

/-- The override `register_solution_from_optimal_mg` (lines 880-886); the overload of the
implementation is the one `is_steerable_space` selects. -/
def register_solution_from_optimal_mg (fuel : Nat) (q : path_planning_p2p_query C P)
    (start_node goal_node : Nat) (goal_distance : C) (g : any_graph C P) :
    Option (Option (List P) × path_planning_p2p_query C P) :=
  q.commit <|
    if q.space.is_steerable_space = true then
      steerable.register_optimal_solution_path_impl fuel q.space g start_node goal_node
        q.goal_pos goal_distance q.solutions
    else
      non_steerable.register_optimal_solution_path_impl fuel g start_node goal_node
        q.goal_pos goal_distance q.solutions

/-- The override `register_solution_from_basic_mg` (lines 888-894). -/
def register_solution_from_basic_mg (fuel : Nat) (q : path_planning_p2p_query C P)
    (start_node goal_node : Nat) (goal_distance : C) (g : any_graph C P) :
    Option (Option (List P) × path_planning_p2p_query C P) :=
  q.commit <|
    if q.space.is_steerable_space = true then
      steerable.register_basic_solution_path_impl fuel q.space g start_node goal_node
        q.goal_pos goal_distance q.solutions
    else
      non_steerable.register_basic_solution_path_impl fuel q.space g start_node goal_node
        q.goal_pos goal_distance q.solutions

/-- The override `register_joining_point_from_optimal_mg` (lines 896-905). -/
def register_joining_point_from_optimal_mg (fuel : Nat) (q : path_planning_p2p_query C P)
    (start_node goal_node join1_node join2_node : Nat) (joining_distance : C)
    (g1 g2 : any_graph C P) : Option (Option (List P) × path_planning_p2p_query C P) :=
  q.commit <|
    if q.space.is_steerable_space = true then
      steerable.register_optimal_solution_path_impl2 fuel q.space g1 g2 start_node goal_node
        join1_node join2_node joining_distance q.solutions
    else
      non_steerable.register_optimal_solution_path_impl2 fuel g1 g2 start_node goal_node
        join1_node join2_node joining_distance q.solutions

/-- The override `register_joining_point_from_basic_mg` (lines 907-916). -/
def register_joining_point_from_basic_mg (fuel : Nat) (q : path_planning_p2p_query C P)
    (start_node goal_node join1_node join2_node : Nat) (joining_distance : C)
    (g1 g2 : any_graph C P) : Option (Option (List P) × path_planning_p2p_query C P) :=
  q.commit <|
    if q.space.is_steerable_space = true then
      steerable.register_basic_solution_path_impl2 fuel q.space g1 g2 start_node goal_node
        join1_node join2_node joining_distance q.solutions
    else
      non_steerable.register_basic_solution_path_impl2 fuel q.space g1 g2 start_node goal_node
        join1_node join2_node joining_distance q.solutions

end path_planning_p2p_query

/-- A call of one of the four public registration entry points `register_solution` (optimal
or basic graph, lines 173-206) and `register_joining_point` (optimal or basic graph, lines
219-264), with its arguments. -/
inductive registration_call (C P : Type) where
  | solution_optimal (start_node goal_node : Nat) (goal_distance : C) (g : any_graph C P)
  | solution_basic (start_node goal_node : Nat) (goal_distance : C) (g : any_graph C P)
  | joining_point_optimal (start_node goal_node join1_node join2_node : Nat)
      (joining_distance : C) (g1 g2 : any_graph C P)
  | joining_point_basic (start_node goal_node join1_node join2_node : Nat)
      (joining_distance : C) (g1 g2 : any_graph C P)

/-- Run a registration call on a query: the entry point forwards to the virtual hook of the
same kind. `none` is a call whose walk has not ended within the fuel. -/
def registration_call.run (fuel : Nat) (q : path_planning_p2p_query C P) :
    registration_call C P → Option (Option (List P) × path_planning_p2p_query C P)
  | .solution_optimal s t d g => q.register_solution_from_optimal_mg fuel s t d g
  | .solution_basic s t d g => q.register_solution_from_basic_mg fuel s t d g
  | .joining_point_optimal s t j1 j2 d g1 g2 =>
    q.register_joining_point_from_optimal_mg fuel s t j1 j2 d g1 g2
  | .joining_point_basic s t j1 j2 d g1 g2 =>
    q.register_joining_point_from_basic_mg fuel s t j1 j2 d g1 g2

/-- Run a sequence of registration calls one after the other, dropping the returned records. -/
def run_calls (fuel : Nat) :
    path_planning_p2p_query C P → List (registration_call C P) →
      Option (path_planning_p2p_query C P)
  | q, [] => some q
  | q, c :: cs =>
    match c.run fuel q with
    | none => none
    | some (_, q1) => run_calls fuel q1 cs

/-- The value of the local variable `solutions_total_dist` with which a registration call
reaches its final acceptance test: for the optimal graphs it is read off the accumulated
distances (lines 434, 496, 692, 774), for the basic graphs it is summed up along the walks. -/
def registration_call.total_dist (fuel : Nat) (q : path_planning_p2p_query C P) :
    registration_call C P → Option C
  | .solution_optimal _ t d g => some (g.distance_accum t + d)
  | .solution_basic s t d g =>
    if q.space.is_steerable_space = true then
      (steerable.basic_walk q.space g s fuel t d
        (steerable.goal_waypoints q.space g t q.goal_pos d)).map fun r => r.2.1
    else
      (non_steerable.basic_walk q.space g s fuel t d
        (non_steerable.goal_waypoints g t q.goal_pos d)).map fun r => r.2.1
  | .joining_point_optimal _ _ j1 j2 d g1 g2 =>
    some (g1.distance_accum j1 + g2.distance_accum j2 + d)
  | .joining_point_basic s t j1 j2 d g1 g2 =>
    if q.space.is_steerable_space = true then
      (steerable.basic_walk q.space g1 s fuel j1 d
        (steerable.join_waypoints q.space g1 g2 j1 j2 d)).bind fun r1 =>
          (steerable.basic_walk_back q.space g2 t fuel j2 r1.2.1
            (r1.2.2 ++ [g2.position j2])).map fun r2 => r2.2.1
    else
      (non_steerable.basic_walk q.space g1 s fuel j1 d [g1.position j1]).bind fun r1 =>
        (non_steerable.basic_walk_back q.space g2 t fuel j2 r1.2.1
          (r1.2.2 ++ [g2.position j2])).map fun r2 => r2.2.1

/-- Run a sequence of registration calls in which a call is issued only while `keep_going()`
answers true: the first time it answers false the remaining calls are not made. -/
def run_calls_while_keep_going (fuel : Nat) :
    path_planning_p2p_query C P → List (registration_call C P) →
      Option (path_planning_p2p_query C P)
  | q, [] => some q
  | q, c :: cs =>
    if q.keep_going = true then
      match c.run fuel q with
      | none => none
      | some (_, q1) => run_calls_while_keep_going fuel q1 cs
    else some q

end impl

/-! ## Notions used to state the properties -/

/-- The list `vs = [v0, ..., vk]` is the predecessor chain of `node` in `g`: it starts at
`start_node`, ends at `node`, each vertex is the recorded predecessor of the next, and
`start_node` occurs in it only as `v0`. -/
def is_predecessor_chain (g : any_graph C P) (start_node node : Nat) (vs : List Nat) : Prop :=
  vs.head? = some start_node ∧ vs.getLast? = some node ∧
    List.Chain' (fun u v => g.predecessor v = u ∧ v ≠ start_node) vs

/-- The same chain in a basic motion graph, where the vertex before `v` is the source of the
first in-edge of `v`. -/
def is_in_edge_chain (g : any_graph C P) (start_node node : Nat) (vs : List Nat) : Prop :=
  vs.head? = some start_node ∧ vs.getLast? = some node ∧
    List.Chain' (fun u v => (g.in_edges v).head?.map g.source = some u ∧ v ≠ start_node) vs

namespace steerable

/-- The tree edges the walk of lines 452-463 goes over before it stops, each as (source,
edge, target), in the order of the walk. -/
def optimal_traversed (g : any_graph C P) (start_node : Nat) :
    Nat → Nat → List (Nat × Nat × Nat)
  | 0, _ => []
  | fuel + 1, goal_node =>
    if goal_node = start_node then []
    else
      match (g.in_edges goal_node).find?
          (fun e => decide (g.source e = g.predecessor goal_node)) with
      | none => []
      | some e =>
        (g.predecessor goal_node, e, goal_node) ::
          optimal_traversed g start_node fuel (g.predecessor goal_node)

/-- The tree edges the walk of lines 344-353 goes over before it stops. -/
def basic_traversed (g : any_graph C P) (start_node : Nat) :
    Nat → Nat → List (Nat × Nat × Nat)
  | 0, _ => []
  | fuel + 1, goal_node =>
    match g.in_edges goal_node with
    | [] => []
    | e :: _ =>
      if goal_node = start_node then []
      else (g.source e, e, goal_node) :: basic_traversed g start_node fuel (g.source e)

end steerable

/-- An edge's record is in the waypoints `w`, right between the edge's end points. -/
def spliced_between (g : any_graph C P) (w : List P) (x : Nat × Nat × Nat) : Prop :=
  ∃ front back, w = front ++ g.position x.1 :: (g.steer_record x.2.1).tail
    ++ g.position x.2.2 :: back

/-- The solution map `new` is `old` plus exactly one entry, under a key `old` did not have: the
key `k` with the record `w`. -/
def gained_entry (old new : solution_map C P) (k : C) (w : List P) : Prop :=
  (∀ e ∈ old, e.1 ≠ k) ∧ new.length = old.length + 1 ∧ ∀ e, e ∈ new ↔ e = (k, w) ∨ e ∈ old

/-! ## Example data

A three-vertex chain `0 → 1 → 2` with costs in `WithTop ℕ` and positions in `ℕ`, used to
evaluate the definitions. -/

/-- A path graph: vertex `v` sits at position `10 * v`, its predecessor is `v - 1` (vertex 0
is its own predecessor), its single in-edge `v - 1` comes from `v - 1`, its accumulated distance
is `2 * v`, and the steer record of edge `e` runs from `10 * e` to `10 * e + 10`. -/
def chain_graph : any_graph (WithTop ℕ) ℕ where
  position := fun v => 10 * v
  predecessor := fun v => v - 1
  distance_accum := fun v => ((2 * v : ℕ) : WithTop ℕ)
  in_edges := fun v => if v = 0 then [] else [v - 1]
  source := fun e => e
  steer_record := fun e => [10 * e, 10 * e + 3, 10 * e + 6, 10 * e + 10]

/-- A space on `ℕ` with the usual distance, whose steer record is start, midpoint, end. -/
def line_space (steerable : Bool) : free_space (WithTop ℕ) ℕ where
  is_steerable_space := steerable
  distance_metric := fun a b => (((b - a) + (a - b) : ℕ) : WithTop ℕ)
  steer_position_toward := fun a b => [a, (a + b) / 2, b]

/-- A fresh query from position 0 to position 25 asking for `k` results. -/
def line_query (steerable : Bool) (k : Nat) : path_planning_p2p_query (WithTop ℕ) ℕ :=
  path_planning_p2p_query.mk_query (line_space steerable) 0 25 k

/-- A query for one result on the space that is not steerable, already holding a solution of
cost 9. -/
def query_with_solution : path_planning_p2p_query (WithTop ℕ) ℕ :=
  { line_query false 1 with solutions := [(9, [0, 10, 20, 25])] }

/-- The query `query_with_solution` after a second solution, of cost 3, was stored. -/
def query_with_two_solutions : path_planning_p2p_query (WithTop ℕ) ℕ :=
  { line_query false 1 with solutions := [(3, [0, 10, 25]), (9, [0, 10, 20, 25])] }

/-- The fresh query after the basic registration of the chain `0 → 1 → 2` with goal distance 5. -/
def query_with_basic_solution : path_planning_p2p_query (WithTop ℕ) ℕ :=
  { line_query false 1 with solutions := [(25, [0, 10, 20, 25])] }

/-- The fresh query after the optimal joining registration of the chains to 2 and to 1. -/
def query_after_joining : path_planning_p2p_query (WithTop ℕ) ℕ :=
  { line_query false 1 with solutions := [(13, [0, 10, 20, 10, 0])] }

/-- The fresh query after the basic joining registration of the chains to 2 and to 1. -/
def query_after_basic_joining : path_planning_p2p_query (WithTop ℕ) ℕ :=
  { line_query false 1 with solutions := [(37, [0, 10, 20, 10, 0])] }

/-- The waypoints of the chain `0 → 1 → 2` with the steer records of its edges and of the goal
connection spliced in. -/
def steered_waypoints : List ℕ := [0, 3, 6, 10, 10, 13, 16, 20, 20, 22, 25, 25]

/-- The fresh steerable query after the optimal registration of the chain `0 → 1 → 2`. -/
def query_after_steering : path_planning_p2p_query (WithTop ℕ) ℕ :=
  { line_query true 1 with solutions := [(9, steered_waypoints)] }

/-- The fresh steerable query after the basic registration of the chain `0 → 1 → 2`. -/
def query_after_basic_steering : path_planning_p2p_query (WithTop ℕ) ℕ :=
  { line_query true 1 with solutions := [(25, steered_waypoints)] }

/-! ## Walks that end elsewhere, and a second example graph -/

/-- The in-edge walk from `node` that stops at `stop` runs down the list `vs = [e0, ..., node]`
and ends at `e0`: each vertex of the list is the source of the first in-edge of the next, no
vertex after `e0` is `stop`, and `e0` is `stop` or a root (a vertex without in-edges). -/
def in_edge_walk_ends (g : any_graph C P) (stop node e0 : Nat) (vs : List Nat) : Prop :=
  vs.head? = some e0 ∧ vs.getLast? = some node ∧
    List.Chain' (fun u v => (g.in_edges v).head?.map g.source = some u ∧ v ≠ stop) vs ∧
    (e0 = stop ∨ g.in_edges e0 = [])

/-- Two trees in one graph: `0 → 1 → 2` with root 0 and `3 → 4 → 5` with root 3. A root is
its own predecessor and has no in-edge; any other vertex `v` has the single in-edge `v - 1`
coming from `v - 1`. -/
def forest_graph : any_graph (WithTop ℕ) ℕ where
  position := fun v => 10 * v
  predecessor := fun v => if v = 0 ∨ v = 3 then v else v - 1
  distance_accum := fun v => ((2 * (v % 3) : ℕ) : WithTop ℕ)
  in_edges := fun v => if v = 0 ∨ v = 3 then [] else [v - 1]
  source := fun e => e
  steer_record := fun e => [10 * e, 10 * e + 5, 10 * e + 10]

/-! ## The public entry points (lines 164-264) -/

section entry_points
variable [LinearOrderedAddCommMonoidWithTop C]

namespace path_planning_p2p_query

/-- The public entry point `register_solution` for an optimal motion graph (lines 173-184).
The graph comes in by reference `Graph&`, is wrapped in its type-erased view and handed to the
hook, which passes it on as `const graph::any_graph&`; what the caller holds after the call is
returned next to the record and the query. -/
def register_solution_optimal (fuel : Nat) (q : path_planning_p2p_query C P)
    (start_node goal_node : Nat) (goal_distance : C) (g : any_graph C P) :
    Option (Option (List P) × path_planning_p2p_query C P × any_graph C P) :=
  let te_g := g
  (q.register_solution_from_optimal_mg fuel start_node goal_node goal_distance te_g).map
    fun r => (r.1, r.2, g)

/-- The public entry point `register_solution` for a basic motion graph (lines 195-206). -/
def register_solution_basic (fuel : Nat) (q : path_planning_p2p_query C P)
    (start_node goal_node : Nat) (goal_distance : C) (g : any_graph C P) :
    Option (Option (List P) × path_planning_p2p_query C P × any_graph C P) :=
  let te_g := g
  (q.register_solution_from_basic_mg fuel start_node goal_node goal_distance te_g).map
    fun r => (r.1, r.2, g)

/-- The public entry point `register_joining_point` for optimal motion graphs (lines
219-236). -/
def register_joining_point_optimal (fuel : Nat) (q : path_planning_p2p_query C P)
    (start_node goal_node join1_node join2_node : Nat) (joining_distance : C)
    (g1 g2 : any_graph C P) :
    Option (Option (List P) × path_planning_p2p_query C P × any_graph C P × any_graph C P) :=
  let te_g1 := g1
  let te_g2 := g2
  (q.register_joining_point_from_optimal_mg fuel start_node goal_node join1_node join2_node
    joining_distance te_g1 te_g2).map fun r => (r.1, r.2, g1, g2)

/-- The public entry point `register_joining_point` for basic motion graphs (lines 247-264). -/
def register_joining_point_basic (fuel : Nat) (q : path_planning_p2p_query C P)
    (start_node goal_node join1_node join2_node : Nat) (joining_distance : C)
    (g1 g2 : any_graph C P) :
    Option (Option (List P) × path_planning_p2p_query C P × any_graph C P × any_graph C P) :=
  let te_g1 := g1
  let te_g2 := g2
  (q.register_joining_point_from_basic_mg fuel start_node goal_node join1_node join2_node
    joining_distance te_g1 te_g2).map fun r => (r.1, r.2, g1, g2)

end path_planning_p2p_query

/-- The two queries agree on everything but the solution map. -/
def same_but_solutions (q q1 : path_planning_p2p_query C P) : Prop :=
  q1.space = q.space ∧ q1.start_pos = q.start_pos ∧ q1.goal_pos = q.goal_pos ∧
    q1.max_num_results = q.max_num_results

end entry_points

/-! ## The RRT* planner front end (`rrtstar_path_planner.tpp`) -/

/-- The constants of `path_planner_options.hpp` and the two build switches that the planner's
code refers to. The header is not among the sources, so they are parameters. -/
structure option_constants where
  MOTION_GRAPH_STORAGE_MASK : Nat
  ADJ_LIST_MOTION_GRAPH : Nat
  DVP_ADJ_LIST_MOTION_GRAPH : Nat
  KNN_METHOD_MASK : Nat
  LINEAR_SEARCH_KNN : Nat
  DVP_BF2_TREE_KNN : Nat
  DVP_BF4_TREE_KNN : Nat
  DVP_COB2_TREE_KNN : Nat
  DVP_COB4_TREE_KNN : Nat
  PLANNING_DIRECTIONALITY_MASK : Nat
  UNIDIRECTIONAL_PLANNING : Nat
  USE_BRANCH_AND_BOUND_PRUNING_FLAG : Nat
  RK_PLANNERS_ENABLE_VEBL_TREE : Bool
  RK_PLANNERS_ENABLE_DVP_ADJ_LIST_LAYOUT : Bool

/-- A `planning_query` as the planner sees it through the virtual interface: the start
position, the heuristic to the goal, and what `castTo` answers for the point-to-point query
type (`none` is the null pointer). -/
structure any_planning_query (C P : Type) where
  get_start_position : P
  get_heuristic_to_goal : P → C
  castTo_p2p : Option (path_planning_p2p_query C P)

/-- The base `planning_query::get_heuristic_to_goal` (line 128). -/
def planning_query.get_heuristic_to_goal [Top C] (_q : planning_query C P) (_pos : P) : C := ⊤

/-- The override `path_planning_p2p_query::get_heuristic_to_goal` (lines 874-876): the
distance in the super-space from the position to the goal position. -/
def path_planning_p2p_query.get_heuristic_to_goal (q : path_planning_p2p_query C P) (pos : P) :
    C :=
  q.space.distance_metric pos q.goal_pos

/-- A point-to-point query seen through the virtual interface. -/
def path_planning_p2p_query.as_planning_query (q : path_planning_p2p_query C P) :
    any_planning_query C P :=
  { get_start_position := q.get_start_position
    get_heuristic_to_goal := q.get_heuristic_to_goal
    castTo_p2p := some q }

/-- The part of `planning_visitor` the front end writes: the start and goal nodes (`none` is
the empty `boost::any`), whether `m_nn_synchro` has been set, and the vertices handed to
`initialize_vertex`, in order. -/
structure planning_visitor where
  m_start_node : Option Nat
  m_goal_node : Option Nat
  m_nn_synchro : Bool
  initialized : List Nat

/-- The visitor as constructed by `VisitorType vis(this, &aQuery)` (line 353). -/
def planning_visitor.fresh : planning_visitor :=
  { m_start_node := none, m_goal_node := none, m_nn_synchro := false, initialized := [] }

/-- The function `rrtstar_bundle_factory::init_motion_graph` (lines 187-203). The motion
graph is the list of the positions of its vertices (the other vertex properties keep their
default values) and `add_vertex` returns the index of the vertex it appends. -/
def init_motion_graph (motion_graph : List P) (vis : planning_visitor)
    (query : any_planning_query C P) : List P × planning_visitor :=
  let start_node := motion_graph.length
  let motion_graph := motion_graph ++ [query.get_start_position]
  let vis := { vis with m_start_node := some start_node }
  match query.castTo_p2p with
  | some p2p_query_ptr =>
    let goal_node := motion_graph.length
    let motion_graph := motion_graph ++ [p2p_query_ptr.goal_pos]
    let vis := { vis with m_goal_node := some goal_node }
    let vis := { vis with initialized := vis.initialized ++ [goal_node] }
    (motion_graph, { vis with initialized := vis.initialized ++ [start_node] })
  | none => (motion_graph, { vis with initialized := vis.initialized ++ [start_node] })

/-- The four planner generators of `graph_alg/rrt_star.hpp` the front end can call. -/
inductive planner_generator where
  | generate_rrt_star
  | generate_bnb_rrt_star
  | generate_rrt_star_bidir
  | generate_bnb_rrt_star_bidir
  deriving DecidableEq

/-- Whether the generator is one of the two bidirectional ones. -/
def planner_generator.is_bidirectional : planner_generator → Bool
  | .generate_rrt_star_bidir => true
  | .generate_bnb_rrt_star_bidir => true
  | _ => false

/-- Whether the generator is one of the two branch-and-bound (pruning) ones. -/
def planner_generator.is_branch_and_bound : planner_generator → Bool
  | .generate_bnb_rrt_star => true
  | .generate_bnb_rrt_star_bidir => true
  | _ => false

/-- The motion-graph factories of `rrtstar_bundle_factory` (lines 101-183); for the tree
layouts the arity and whether the storage is the `vebl_d_ary_tree_storage`. -/
inductive motion_graph_factory where
  | ls_motion_graph
  | dvp_motion_graph (arity : Nat) (vebl : Bool)
  | alt_motion_graph (arity : Nat) (vebl : Bool)
  deriving DecidableEq

/-- One call of a planner generator, with what it is given: the bundle made by `make_bundle`
(motion graph, start node, goal node or the null vertex, visitor) and the two numbers the
neighborhood selector `star_neighborhood` was constructed with. -/
structure planner_invocation (C P : Type) where
  generator : planner_generator
  factory : motion_graph_factory
  motion_graph : List P
  start_node : Option Nat
  goal_node : Option Nat
  vis : planning_visitor
  space_dim : Nat
  max_radius : C

/-- The planner object: its space with the traits `is_reversible_space` and the
dimensionality answered by `get_space_dimensionality()`, and the two flag words. -/
structure rrtstar_planner (C P : Type) where
  m_space : free_space C P
  is_reversible_space : Bool
  space_dimensionality : Nat
  m_data_structure_flags : Nat
  m_planning_method_flags : Nat

/-- The two overloads of `dispatched_make_call_to_planner` (lines 257-283): which generator
is called. -/
def dispatched_make_call_to_planner (K : option_constants) (CallBidir : Bool)
    (method_flags : Nat) : planner_generator :=
  if CallBidir = true then
    if method_flags &&& K.USE_BRANCH_AND_BOUND_PRUNING_FLAG ≠ 0 then
      planner_generator.generate_bnb_rrt_star_bidir
    else planner_generator.generate_rrt_star_bidir
  else
    if method_flags &&& K.USE_BRANCH_AND_BOUND_PRUNING_FLAG ≠ 0 then
      planner_generator.generate_bnb_rrt_star
    else planner_generator.generate_rrt_star

section front_end
variable [LinearOrderedAddCommMonoidWithTop C]

/-- The call `make_call_to_planner` (lines 285-290) after one of the two set-up blocks of
`solve_planning_query_impl` (lines 310-347): the graph of the factory starts empty, is
initialised by `init_motion_graph`, the selector gets `space_dim` and `3.0 * space_Lc`, and
`is_bidir` is `IsBidirPlanner` and `is_reversible_space`. In the set-up for `alt_motion_graph`
the visitor gets `m_nn_synchro` before the graph is initialised, in the other one after. -/
def make_call_to_planner (K : option_constants) (planner : rrtstar_planner C P)
    (IsBidirPlanner : Bool) (factory : motion_graph_factory) (space_dim : Nat) (space_Lc : C)
    (aQuery : any_planning_query C P) : planner_invocation C P :=
  let vis := planning_visitor.fresh
  let init :=
    match factory with
    | .alt_motion_graph _ _ =>
      init_motion_graph [] { vis with m_nn_synchro := true } aQuery
    | _ =>
      let r := init_motion_graph [] vis aQuery
      (r.1, { r.2 with m_nn_synchro := true })
  let is_bidir := IsBidirPlanner && planner.is_reversible_space
  { generator := dispatched_make_call_to_planner K is_bidir planner.m_planning_method_flags
    factory := factory
    motion_graph := init.1
    start_node := init.2.m_start_node
    goal_node := init.2.m_goal_node
    vis := init.2
    space_dim := space_dim
    max_radius := 3 • space_Lc }

/-- The function `rrtstar_planner::solve_planning_query_impl` (lines 296-452), as the list of
the generator calls it makes. `IsBidirPlanner` is the second argument of the factory it is
instantiated with. The call `reset_internal_state()` and the construction of the space
partition and of the nearest-neighbor finder leave no trace in that list. -/
def rrtstar_planner.solve_planning_query_impl (K : option_constants)
    (planner : rrtstar_planner C P) (IsBidirPlanner : Bool) (aQuery : any_planning_query C P) :
    List (planner_invocation C P) :=
  let space_dim := planner.space_dimensionality
  let space_Lc := aQuery.get_heuristic_to_goal aQuery.get_start_position
  let storage := planner.m_data_structure_flags &&& K.MOTION_GRAPH_STORAGE_MASK
  let knn := planner.m_data_structure_flags &&& K.KNN_METHOD_MASK
  let call := fun factory =>
    [make_call_to_planner K planner IsBidirPlanner factory space_dim space_Lc aQuery]
  if storage = K.ADJ_LIST_MOTION_GRAPH then
    if knn = K.LINEAR_SEARCH_KNN then call .ls_motion_graph
    else if knn = K.DVP_BF2_TREE_KNN then call (.dvp_motion_graph 2 false)
    else if knn = K.DVP_BF4_TREE_KNN then call (.dvp_motion_graph 4 false)
    else if K.RK_PLANNERS_ENABLE_VEBL_TREE = true ∧ knn = K.DVP_COB2_TREE_KNN then
      call (.dvp_motion_graph 2 true)
    else if K.RK_PLANNERS_ENABLE_VEBL_TREE = true ∧ knn = K.DVP_COB4_TREE_KNN then
      call (.dvp_motion_graph 4 true)
    else []
  else if K.RK_PLANNERS_ENABLE_DVP_ADJ_LIST_LAYOUT = true ∧
      storage = K.DVP_ADJ_LIST_MOTION_GRAPH then
    if knn = K.DVP_BF2_TREE_KNN then call (.alt_motion_graph 2 false)
    else if knn = K.DVP_BF4_TREE_KNN then call (.alt_motion_graph 4 false)
    else if K.RK_PLANNERS_ENABLE_VEBL_TREE = true ∧ knn = K.DVP_COB2_TREE_KNN then
      call (.alt_motion_graph 2 true)
    else if K.RK_PLANNERS_ENABLE_VEBL_TREE = true ∧ knn = K.DVP_COB4_TREE_KNN then
      call (.alt_motion_graph 4 true)
    else []
  else []

/-- The function `rrtstar_planner::solve_planning_query` (lines 456-469), as the list of the
generator calls it makes. -/
def rrtstar_planner.solve_planning_query (K : option_constants) (planner : rrtstar_planner C P)
    (aQuery : any_planning_query C P) : List (planner_invocation C P) :=
  if planner.m_planning_method_flags &&& K.PLANNING_DIRECTIONALITY_MASK
      = K.UNIDIRECTIONAL_PLANNING then
    planner.solve_planning_query_impl K false aQuery
  else planner.solve_planning_query_impl K true aQuery

/-- The data-structure flags select a combination of storage and nearest-neighbor method for
which `solve_planning_query_impl` has a branch. -/
def supported_combination (K : option_constants) (flags : Nat) : Prop :=
  let storage := flags &&& K.MOTION_GRAPH_STORAGE_MASK
  let knn := flags &&& K.KNN_METHOD_MASK
  let tree := knn = K.DVP_BF2_TREE_KNN ∨ knn = K.DVP_BF4_TREE_KNN ∨
    (K.RK_PLANNERS_ENABLE_VEBL_TREE = true ∧
      (knn = K.DVP_COB2_TREE_KNN ∨ knn = K.DVP_COB4_TREE_KNN))
  (storage = K.ADJ_LIST_MOTION_GRAPH ∧ (knn = K.LINEAR_SEARCH_KNN ∨ tree)) ∨
  (storage ≠ K.ADJ_LIST_MOTION_GRAPH ∧ K.RK_PLANNERS_ENABLE_DVP_ADJ_LIST_LAYOUT = true ∧
    storage = K.DVP_ADJ_LIST_MOTION_GRAPH ∧ tree)

end front_end

/-- Sample values for the option constants, with both build switches on: two bits of storage
strategy, four bits of nearest-neighbor method above them, and single bits for the direction
and for pruning. -/
def sample_constants : option_constants where
  MOTION_GRAPH_STORAGE_MASK := 3
  ADJ_LIST_MOTION_GRAPH := 0
  DVP_ADJ_LIST_MOTION_GRAPH := 1
  KNN_METHOD_MASK := 60
  LINEAR_SEARCH_KNN := 0
  DVP_BF2_TREE_KNN := 4
  DVP_BF4_TREE_KNN := 8
  DVP_COB2_TREE_KNN := 12
  DVP_COB4_TREE_KNN := 16
  PLANNING_DIRECTIONALITY_MASK := 1
  UNIDIRECTIONAL_PLANNING := 0
  USE_BRANCH_AND_BOUND_PRUNING_FLAG := 2
  RK_PLANNERS_ENABLE_VEBL_TREE := true
  RK_PLANNERS_ENABLE_DVP_ADJ_LIST_LAYOUT := true

/-- A planner on the line with the given flag words, in a reversible space of dimension 1. -/
def line_planner (data_structure_flags planning_method_flags : Nat) :
    rrtstar_planner (WithTop ℕ) ℕ :=
  { m_space := line_space false, is_reversible_space := true, space_dimensionality := 1,
    m_data_structure_flags := data_structure_flags,
    m_planning_method_flags := planning_method_flags }

/-- A query that is not a point-to-point query, starting at position 0. -/
def other_query : any_planning_query (WithTop ℕ) ℕ :=
  { get_start_position := 0, get_heuristic_to_goal := fun _ => ⊤, castTo_p2p := none }

/-! ## Cubic Hermite interpolation (`cubic_hermite_interp.hpp`)

The scalars (`double`) are the elements of a linearly ordered field `K`; rounding is outside
the model. The topology is once differentiable, the case the function is documented for: a
point holds a position and a velocity, and the higher-order step
`cubic_hermite_interpolate_HOT_impl` does nothing (lines 61-72). -/

/-- A point of the temporal space: its time and its position and velocity (`pt`). -/
structure temporal_point (K P0 P1 : Type) where
  time : K
  pt : P0 × P1

/-- The operations of the once-differentiable space topology that the interpolation uses
(`get_space<0>`, `get_space<1>`, `lift_to_space<1>` and `descend_to_space<0>`); their
declarations are not among the sources, so they are parameters. `D0` and `D1` are the types of
the point differences of order 0 and 1. -/
structure differentiable_space (K P0 P1 D0 D1 : Type) where
  difference0 : P0 → P0 → D0
  adjust0 : P0 → D0 → P0
  difference1 : P1 → P1 → D1
  adjust1 : P1 → D1 → P1
  lift_to_space1 : D0 → K → P1
  descend_to_space0 : P1 → K → D0

/-- The exception thrown at line 206. -/
inductive interpolation_error where
  | singularity_error
  deriving DecidableEq

/-- The constant `std::numeric_limits<double>::epsilon()`, two to the power -52. -/
def numeric_limits_epsilon (K : Type) [LinearOrderedField K] : K := 1 / 2 ^ 52

section interpolation
variable {K P0 P1 D0 D1 : Type} [LinearOrderedField K]
variable [AddCommGroup D0] [Module K D0] [AddCommGroup D1] [Module K D1]

namespace detail

/-- The function `detail::cubic_hermite_interpolate_impl` (lines 118-161), for a space of
order 1. -/
def cubic_hermite_interpolate_impl (a b : P0 × P1) (space : differentiable_space K P0 P1 D0 D1)
    (t_factor t_normal : K) : P0 × P1 :=
  let dp1p0 := space.difference0 b.1 a.1
  let dv1v0 := space.difference1 b.2 a.2
  let d_ldp1p0_v0 := space.difference1 (space.lift_to_space1 dp1p0 t_factor) a.2
  let t2 := t_normal * t_normal
  let t3 := t_normal * t2
  (space.adjust0 a.1
      ((3 * t2 - 2 * t3) • dp1p0
        + (t_normal - t2 * 2 + t3) • space.descend_to_space0 a.2 t_factor
        + (t3 - t2) • space.descend_to_space0 b.2 t_factor),
    space.adjust1 a.2
      (((t_normal - t2) * 6) • d_ldp1p0_v0 - (2 * t_normal - 3 * t2) • dv1v0))

end detail

/-- The function `cubic_hermite_interpolate` (lines 198-214). -/
def cubic_hermite_interpolate (a b : temporal_point K P0 P1) (t : K)
    (space : differentiable_space K P0 P1 D0 D1) :
    Except interpolation_error (temporal_point K P0 P1) :=
  let t_factor := b.time - a.time
  if |t_factor| < numeric_limits_epsilon K then
    Except.error interpolation_error.singularity_error
  else
    let t_normal := (t - a.time) / (b.time - a.time)
    Except.ok
      { time := t, pt := detail.cubic_hermite_interpolate_impl a.pt b.pt space t_factor t_normal }

/-- The vector-space topology: positions, velocities and their differences are vectors,
`difference` is subtraction, `adjust` is addition, `lift_to_space<1>` divides by the time span
and `descend_to_space<0>` multiplies by it. -/
def vector_space_topology (K V : Type) [LinearOrderedField K] [AddCommGroup V] [Module K V] :
    differentiable_space K V V V V where
  difference0 := fun a b => a - b
  adjust0 := fun p d => p + d
  difference1 := fun a b => a - b
  adjust1 := fun p d => p + d
  lift_to_space1 := fun dp t_factor => t_factor⁻¹ • dp
  descend_to_space0 := fun v t_factor => t_factor • v

end interpolation

/-- A point on the rational line at time 0, position 1, velocity 2. -/
def sample_point_a : temporal_point ℚ ℚ ℚ := { time := 0, pt := (1, 2) }

/-- A point on the rational line at time 2, position 5, velocity -1. -/
def sample_point_b : temporal_point ℚ ℚ ℚ := { time := 2, pt := (5, -1) }

/-! ## Notions for the history of a solution set -/

section registration_notions

variable [LinearOrderedAddCommMonoidWithTop C]

/-- The totals of the accepted calls of a sequence of registration calls, in the order in which
they were stored. -/
def accepted_costs (fuel : Nat) :
    path_planning_p2p_query C P → List (registration_call C P) → Option (List C)
  | _, [] => some []
  | q, c :: cs =>
    match c.run fuel q with
    | none => none
    | some (none, q1) => accepted_costs fuel q1 cs
    | some (some _, q1) =>
      match c.total_dist fuel q, accepted_costs fuel q1 cs with
      | some k, some l => some (k :: l)
      | _, _ => none

/-- The list `vs = [v0, ..., vk]` is a chain of a cost-consistent tree from its root
`start_node` to `node`: the root has cost zero, each vertex of the chain has the vertex before
it as recorded predecessor and as source of its first in-edge, and its accumulated distance is
that of its predecessor plus the metric distance from the predecessor to it. -/
def is_cost_consistent_chain (space : free_space C P) (g : any_graph C P)
    (start_node node : Nat) (vs : List Nat) : Prop :=
  vs.head? = some start_node ∧ vs.getLast? = some node ∧ g.distance_accum start_node = 0 ∧
    List.Chain' (fun u v => g.predecessor v = u ∧
      (g.in_edges v).head?.map g.source = some u ∧ v ≠ start_node ∧
      g.distance_accum v
        = g.distance_accum u + space.distance_metric (g.position u) (g.position v)) vs

end registration_notions

/-- A space on `ℕ` whose distance counts only the way up: going from `a` to `b` costs `b - a`
when `b` is above `a`, and nothing otherwise. -/
def directed_space (steerable : Bool) : free_space (WithTop ℕ) ℕ where
  is_steerable_space := steerable
  distance_metric := fun a b => ((b - a : ℕ) : WithTop ℕ)
  steer_position_toward := fun a b => [a, (a + b) / 2, b]

/-- A fresh query on `directed_space` from position 0 to position 0 asking for `k` results. -/
def directed_query (steerable : Bool) (k : Nat) : path_planning_p2p_query (WithTop ℕ) ℕ :=
  path_planning_p2p_query.mk_query (directed_space steerable) 0 0 k

/-- The path graph `chain_graph` with accumulated distances that agree with the distance of
`line_space`: vertex `v` has cost `10 * v`. -/
def metric_chain_graph : any_graph (WithTop ℕ) ℕ :=
  { chain_graph with distance_accum := fun v => ((10 * v : ℕ) : WithTop ℕ) }

/-! ## End-effector averaging of the free-floating platform (`free_floating_platform.cpp`) -/

section free_floater
variable {K R : Type}

/-- The members of `frame_2D<double>` the averaging goes over: the vectors are pairs of
coordinates, the rotation is of a type `R` of its own. -/
structure frame_2D (K R : Type) where
  Position : K × K
  Rotation : R
  Velocity : K × K
  AngVelocity : K
  Acceleration : K × K
  AngAcceleration : K

/-- The operations of `rot_mat_2D<double>` the averaging calls: the product, `invert`,
`getAngle` and the constructor from an angle. -/
structure rot_mat_2D_ops (K R : Type) where
  mul : R → R → R
  invert : R → R
  getAngle : R → K
  of_angle : K → R

variable [LinearOrderedField K]

/-- The body of the averaging loop of `free_floater_2D_kinematics::doInverseMotion` (lines
112-125 of `free_floating_platform.cpp`) for the loop index `i` and the output
`EE_outputs[i]`. -/
def average_step (ops : rot_mat_2D_ops K R) (i : Nat) (EE_fr out : frame_2D K R) :
    frame_2D K R :=
  { Position := (((i + 1 : Nat) : K))⁻¹ • ((i : K) • EE_fr.Position + out.Position)
    Rotation := ops.mul EE_fr.Rotation
      (ops.of_angle (ops.getAngle (ops.mul (ops.invert EE_fr.Rotation) out.Rotation)
        / ((i + 1 : Nat) : K)))
    Velocity := (((i + 1 : Nat) : K))⁻¹ • ((i : K) • EE_fr.Velocity + out.Velocity)
    AngVelocity := (EE_fr.AngVelocity * (i : K) + out.AngVelocity) / ((i + 1 : Nat) : K)
    Acceleration := (((i + 1 : Nat) : K))⁻¹ • ((i : K) • EE_fr.Acceleration + out.Acceleration)
    AngAcceleration :=
      (EE_fr.AngAcceleration * (i : K) + out.AngAcceleration) / ((i + 1 : Nat) : K) }

/-- The averaging loop (lines 111-126) from the index `i` on, over the outputs not yet
visited. -/
def average_loop (ops : rot_mat_2D_ops K R) : Nat → frame_2D K R → List (frame_2D K R) →
    frame_2D K R
  | _, EE_fr, [] => EE_fr
  | i, EE_fr, out :: rest => average_loop ops (i + 1) (average_step ops i EE_fr out) rest

/-- The averaging of `free_floater_2D_kinematics::doInverseMotion` (lines 99-126) as a function
of the vector `EE_outputs`: nothing is computed when there is no end-effector, otherwise the
frame `EE_fr` starts as `EE_outputs[0]` and the loop runs over the other outputs. -/
def free_floater_2D_kinematics.doInverseMotion (ops : rot_mat_2D_ops K R) :
    List (frame_2D K R) → Option (frame_2D K R)
  | [] => none
  | out0 :: rest => some (average_loop ops 1 out0 rest)

/-- The arithmetic mean of a member over a list of frames. -/
def mean_of {V : Type} [AddCommMonoid V] [Module K V] (f : frame_2D K R → V)
    (outs : List (frame_2D K R)) : V :=
  ((outs.length : K))⁻¹ • (outs.map f).sum

end free_floater

/-! ## Reading the position off an interpolation result -/

section interpolation_result
variable {K P0 P1 : Type}

/-- The position component of the result of an interpolation, `d` when it raised an error. -/
def position_or (d : P0) : Except interpolation_error (temporal_point K P0 P1) → P0
  | Except.ok r => r.pt.1
  | Except.error _ => d

end interpolation_result

/-! ## Addresses of the UDP recorder and extractor (`udp_recorder.cpp`) -/

/-- The value `std::string::npos`, the largest `std::size_t` (64 bits). -/
def npos : Nat := 2 ^ 64 - 1

/-- The search `std::string::find(char)`: the index of the first occurrence, `npos` when there
is none. -/
def string_find (s : List Char) (c : Char) : Nat :=
  if s.indexOf c < s.length then s.indexOf c else npos

/-- The call `std::string::substr(pos, count)` for `pos` within the string: the characters from
`pos` on, at most `count` of them. -/
def string_substr (s : List Char) (pos count : Nat) : List Char :=
  (s.drop pos).take count

/-- The test `std::isspace` in the classic locale. -/
def is_space (c : Char) : Bool :=
  c.toNat = 32 || (9 ≤ c.toNat && c.toNat ≤ 13)

/-- The extraction `ss >> portnum` of a `std::size_t` from a fresh string stream (C++11): white
space is skipped, a sign is accepted, then decimal digits are read as far as they go. Without a
digit the extraction fails and stores zero; a value that does not fit stores the largest value;
a minus sign negates modulo `2 ^ 64`. -/
def extract_size_t (s : List Char) : Nat :=
  let s := s.dropWhile is_space
  let signed : Bool × List Char :=
    match s with
    | '+' :: r => (false, r)
    | '-' :: r => (true, r)
    | _ => (false, s)
  let digits := signed.2.takeWhile Char.isDigit
  if digits = [] then 0
  else
    let n := digits.foldl (fun a c => 10 * a + (c.toNat - 48)) 0
    if npos < n then npos
    else if signed.1 = true then (2 ^ 64 - n) % 2 ^ 64
    else n

/-- The lines shared by the three places that take an address apart (lines 138-144, 152-158
and 231-237 of `udp_recorder.cpp`): the arguments with which the socket implementation is
constructed. The increment `++i` is that of a 64-bit `std::size_t`. -/
def split_address (aFileName : List Char) : List Char × Nat :=
  let i := string_find aFileName ':'
  let ip4addr := string_substr aFileName 0 i
  let portnum := 17000
  let i := (i + 1) % 2 ^ 64
  let portnum :=
    if i < aFileName.length then
      extract_size_t (string_substr aFileName i (aFileName.length - i))
    else portnum
  (ip4addr, portnum)

/-- The function `udp_recorder::setFileName` (lines 132-161): the address and the port given to
`udp_server_impl`. Closing the stream, the lock and the writing of the names are left out. -/
def udp_recorder.setFileName (colCount : Nat) (aFileName : String) : String × Nat :=
  if colCount ≠ 0 then
    ((String.mk (split_address aFileName.data).1), (split_address aFileName.data).2)
  else
    ((String.mk (split_address aFileName.data).1), (split_address aFileName.data).2)

/-- The function `udp_extractor::setFileName` (lines 226-240): the address and the port given to
`udp_client_impl`. -/
def udp_extractor.setFileName (aFileName : String) : String × Nat :=
  ((String.mk (split_address aFileName.data).1), (split_address aFileName.data).2)


/-! ## The invariant Kalman filter (`invariant_kalman_filter.hpp`) -/

section kalman
variable {T X U Z M Vc : Type}

/-- The operations of the matrix library the filter calls, over one type `M` of matrices and one
type `Vc` of vectors: the product, the sum, the difference, `transpose_view`, the identity of the
size of a given matrix, `linsolve_Cholesky(S, CP)` (the `CP` it leaves behind) and the product
of a matrix with a vector. -/
structure mat_ops (M Vc : Type) where
  mul : M → M → M
  add : M → M → M
  sub : M → M → M
  transpose_view : M → M
  identity : M → M
  linsolve_Cholesky : M → M → M
  mul_vec : M → Vc → Vc

/-- The members of an `InvariantDiscreteSystemConcept` model the filter calls, with the state
space they are all given left out. The two block getters return the pair they fill in. -/
structure invariant_system (T X U Z M Vc : Type) where
  get_time_step : T
  get_next_state : X → U → T → X
  get_state_transition_blocks : T → T → X → X → U → U → M × M
  get_invariant_prior_frame : X → X → U → T → M
  get_output_function_blocks : T → X → U → M × M
  get_invariant_error : X → U → Z → T → Vc
  apply_correction : X → Vc → U → T → X
  get_invariant_posterior_frame : X → X → U → T → M

/-- A Gaussian belief state: the mean and the matrix of the covariance. -/
structure belief_state (X M : Type) where
  mean_state : X
  covariance : M

variable [Add T]

/-- The function `invariant_kalman_predict` for an invariant system (lines 87-128 of
`invariant_kalman_filter.hpp`): the belief `b_x` it leaves behind. -/
def invariant_kalman_predict (ops : mat_ops M Vc) (sys : invariant_system T X U Z M Vc)
    (b_x : belief_state X M) (b_u : belief_state U M) (t : T) : belief_state X M :=
  let x := b_x.mean_state
  let P := b_x.covariance
  let x_prior := sys.get_next_state x b_u.mean_state t
  let AB := sys.get_state_transition_blocks t (t + sys.get_time_step) x x_prior
    b_u.mean_state b_u.mean_state
  let A := AB.1
  let B := AB.2
  let W := sys.get_invariant_prior_frame x x_prior b_u.mean_state (t + sys.get_time_step)
  let P := ops.mul (ops.mul W
    (ops.add (ops.mul (ops.mul A P) (ops.transpose_view A))
      (ops.mul (ops.mul B b_u.covariance) (ops.transpose_view B)))) (ops.transpose_view W)
  { mean_state := x_prior, covariance := P }

/-- The function `invariant_kalman_update` for an invariant system (lines 169-221): the belief
`b_x` it leaves behind. -/
def invariant_kalman_update (ops : mat_ops M Vc) (sys : invariant_system T X U Z M Vc)
    (b_x : belief_state X M) (b_u : belief_state U M) (b_z : belief_state Z M) (t : T) :
    belief_state X M :=
  let x := b_x.mean_state
  let P := b_x.covariance
  let C := (sys.get_output_function_blocks t x b_u.mean_state).1
  let e := sys.get_invariant_error x b_u.mean_state b_z.mean_state (t + sys.get_time_step)
  let CP := ops.mul C P
  let S := ops.add (ops.mul CP (ops.transpose_view C)) b_z.covariance
  let CP := ops.linsolve_Cholesky S CP
  let K := ops.transpose_view CP
  let mean := sys.apply_correction x (ops.mul_vec K e) b_u.mean_state (t + sys.get_time_step)
  let W := sys.get_invariant_posterior_frame x mean b_u.mean_state (t + sys.get_time_step)
  { mean_state := mean,
    covariance := ops.mul (ops.mul W (ops.mul (ops.sub (ops.identity K) (ops.mul K C)) P))
      (ops.transpose_view W) }

/-- The function `invariant_kalman_filter_step` for an invariant system (lines 242-324): the
belief `b_x` it leaves behind. -/
def invariant_kalman_filter_step (ops : mat_ops M Vc) (sys : invariant_system T X U Z M Vc)
    (b_x : belief_state X M) (b_u : belief_state U M) (b_z : belief_state Z M) (t : T) :
    belief_state X M :=
  let x := b_x.mean_state
  let P := b_x.covariance
  let x_prior := sys.get_next_state x b_u.mean_state t
  let AB := sys.get_state_transition_blocks t (t + sys.get_time_step) x x_prior
    b_u.mean_state b_u.mean_state
  let A := AB.1
  let B := AB.2
  let W := sys.get_invariant_prior_frame x x_prior b_u.mean_state (t + sys.get_time_step)
  let P := ops.mul (ops.mul W
    (ops.add (ops.mul (ops.mul A P) (ops.transpose_view A))
      (ops.mul (ops.mul B b_u.covariance) (ops.transpose_view B)))) (ops.transpose_view W)
  let C := (sys.get_output_function_blocks (t + sys.get_time_step) x_prior b_u.mean_state).1
  let e := sys.get_invariant_error x_prior b_u.mean_state b_z.mean_state
    (t + sys.get_time_step)
  let CP := ops.mul C P
  let S := ops.add (ops.mul CP (ops.transpose_view C)) b_z.covariance
  let CP := ops.linsolve_Cholesky S CP
  let K := ops.transpose_view CP
  let mean := sys.apply_correction x_prior (ops.mul_vec K e) b_u.mean_state
    (t + sys.get_time_step)
  let W := sys.get_invariant_posterior_frame x_prior mean b_u.mean_state
    (t + sys.get_time_step)
  { mean_state := mean,
    covariance := ops.mul (ops.mul W (ops.mul (ops.sub (ops.identity K) (ops.mul K C)) P))
      (ops.transpose_view W) }

end kalman

/-- The matrix operations on matrices and vectors of size one over `ℚ`. -/
def scalar_mat_ops : mat_ops ℚ ℚ where
  mul := fun a b => a * b
  add := fun a b => a + b
  sub := fun a b => a - b
  transpose_view := fun a => a
  identity := fun _ => 1
  linsolve_Cholesky := fun S CP => CP / S
  mul_vec := fun a v => a * v

/-- A system with a state of size one, time step 1 and an output gain that grows with time:
the next state is `x + u`, the output at time `t` is `t * x`. -/
def ramp_system : invariant_system ℚ ℚ ℚ ℚ ℚ ℚ where
  get_time_step := 1
  get_next_state := fun x u _ => x + u
  get_state_transition_blocks := fun _ _ _ _ _ _ => (1, 1)
  get_invariant_prior_frame := fun _ _ _ _ => 1
  get_output_function_blocks := fun t _ _ => (t, 0)
  get_invariant_error := fun x _ z t => z - t * x
  apply_correction := fun x c _ _ => x + c
  get_invariant_posterior_frame := fun _ _ _ _ => 1

/-! ## The tree of the growth loop -/

section growth
variable {W : Type}

/-- Modelled from the spec: the tree the growth loop works on. Vertices are `0, ...,
num_vertices - 1`, vertex 0 is the root; each vertex has a predecessor reference (none for the
root), the weight of the edge from its predecessor, and its accumulated cost-to-come. -/
structure rrt_tree (W : Type) where
  num_vertices : Nat
  predecessor : Nat → Option Nat
  weight : Nat → W
  distance_accum : Nat → W

namespace rrt_tree

/-- Modelled from the spec: the tree the planner starts from, the root alone with cost 0. -/
def root_only [Zero W] : rrt_tree W :=
  { num_vertices := 1, predecessor := fun _ => none, weight := fun _ => 0,
    distance_accum := fun _ => 0 }

/-- Modelled from the spec: INSERT adds a vertex and its incoming edge from the chosen parent
`p`; the cost-to-come of the new vertex is that of `p` plus the edge weight. -/
def insert_vertex [Add W] (t : rrt_tree W) (p : Nat) (w : W) : rrt_tree W :=
  { num_vertices := t.num_vertices + 1
    predecessor := fun v => if v = t.num_vertices then some p else t.predecessor v
    weight := fun v => if v = t.num_vertices then w else t.weight v
    distance_accum := fun v =>
      if v = t.num_vertices then t.distance_accum p + w else t.distance_accum v }

/-- Modelled from the spec: `v` is in the subtree of `q`, that is, `q` is met within `fuel`
steps on the predecessor chain that starts at `v`. -/
def in_subtree (t : rrt_tree W) (q : Nat) : Nat → Nat → Bool
  | 0, v => decide (v = q)
  | fuel + 1, v =>
    decide (v = q) ||
      match t.predecessor v with
      | none => false
      | some u => in_subtree t q fuel u

/-- Modelled from the spec: REWIRE of the candidate `q` through the new vertex `nw` over an edge
of weight `w`: if cost-to-come(new) + weight(new→q) < cost-to-come(q), re-parent `q` to the new
vertex, update its cost-to-come and propagate the cost delta to its entire descendant subtree;
otherwise nothing changes. -/
def rewire [LinearOrderedAddCommGroup W] (t : rrt_tree W) (q nw : Nat) (w : W) : rrt_tree W :=
  if t.distance_accum nw + w < t.distance_accum q then
    let delta := t.distance_accum q - (t.distance_accum nw + w)
    { t with
      predecessor := fun v => if v = q then some nw else t.predecessor v
      weight := fun v => if v = q then w else t.weight v
      distance_accum := fun v =>
        if t.in_subtree q t.num_vertices v = true then t.distance_accum v - delta
        else t.distance_accum v }
  else t

/-- The predecessor chain from `v` reaches the root in exactly `n` steps. -/
def reaches_root (t : rrt_tree W) : Nat → Nat → Bool
  | 0, v => decide (v = 0)
  | n + 1, v =>
    match t.predecessor v with
    | none => false
    | some u => reaches_root t n u

/-- The vertex `k` steps up the predecessor chain of `v`, if the chain is that long. -/
def ancestor (t : rrt_tree W) : Nat → Nat → Option Nat
  | 0, v => some v
  | k + 1, v => (t.predecessor v).bind (ancestor t k)

end rrt_tree

/-- Modelled from the spec: an operation of the growth loop on the tree, INSERT with the chosen
parent and the edge weight, or REWIRE of a candidate through a vertex over an edge of a given
weight. -/
inductive growth_op (W : Type) where
  | insert (p : Nat) (w : W)
  | rewire (q nw : Nat) (w : W)

variable [LinearOrderedAddCommGroup W]

/-- Modelled from the spec: what the growth loop hands to the tree: parents and candidates are
vertices of the tree and edge weights are not negative. -/
def growth_op.admissible (t : rrt_tree W) : growth_op W → Bool
  | .insert p w => decide (p < t.num_vertices) && decide (0 ≤ w)
  | .rewire q nw w =>
    decide (q < t.num_vertices) && decide (nw < t.num_vertices) && decide (0 ≤ w)

/-- Modelled from the spec: the effect of an operation of the growth loop. -/
def growth_op.apply (t : rrt_tree W) : growth_op W → rrt_tree W
  | .insert p w => t.insert_vertex p w
  | .rewire q nw w => t.rewire q nw w

/-- The tree after a sequence of operations. -/
def run_growth : rrt_tree W → List (growth_op W) → rrt_tree W
  | t, [] => t
  | t, o :: os => run_growth (o.apply t) os

/-- Every operation of the sequence is admissible on the tree it is applied to. -/
def growth_admissible : rrt_tree W → List (growth_op W) → Bool
  | _, [] => true
  | t, o :: os => o.admissible t && growth_admissible (o.apply t) os

/-- The invariant of the tree: the root has no predecessor and cost 0, every vertex reaches
the root, predecessors are vertices, weights are not negative and the cost-to-come of a vertex
is that of its predecessor plus the weight of the edge between them. -/
def rrt_tree.invariant (t : rrt_tree W) : Prop :=
  0 < t.num_vertices ∧ t.predecessor 0 = none ∧ t.distance_accum 0 = 0 ∧
  (∀ v, v < t.num_vertices → ∃ n, t.reaches_root n v = true) ∧
  (∀ v u, v < t.num_vertices → t.predecessor v = some u →
    u < t.num_vertices ∧ 0 ≤ t.weight v ∧
      t.distance_accum v = t.distance_accum u + t.weight v)

end growth

/-- Three insertions and a rewiring over integer weights: vertex 1 under the root (weight 5),
vertex 2 under vertex 1 (weight 5), vertex 3 under the root (weight 3), then vertex 1 is
re-parented to vertex 3 over an edge of weight 1. -/
def sample_growth : List (growth_op ℤ) :=
  [growth_op.insert 0 5, growth_op.insert 1 5, growth_op.insert 0 3, growth_op.rewire 1 3 1]

section theorems

/-- A committed registration comes from a registration that returned. -/
theorem commit_eq_some (q q1 : path_planning_p2p_query C P) (o : Option (registration C P))
    (r : Option (List P)) (h : q.commit o = some (r, q1)) :
    ∃ out, o = some out ∧ r = out.result ∧ q1 = { q with solutions := out.solutions } := by
  cases o with
  | none => simp [path_planning_p2p_query.commit] at h
  | some out =>
    simp only [path_planning_p2p_query.commit, Option.map_some', Option.some.injEq,
      Prod.mk.injEq] at h
    exact ⟨out, rfl, h.1.symm, h.2.symm⟩

/-! ## The walks -/

theorem optimal_walk_along_chain (g : any_graph C P) (s : Nat) (rs : List Nat) :
    ∀ (t : Nat) (rest : List P) (fuel : Nat), rs.head? = some t → rs.getLast? = some s →
      List.Chain' (fun v u => g.predecessor v = u ∧ v ≠ s) rs →
      non_steerable.optimal_walk g s fuel t (g.position t :: rest) =
        if rs.length ≤ fuel then some (s, rs.reverse.map g.position ++ rest) else none := by
  induction rs with
  | nil => intro t rest fuel h; cases h
  | cons t0 rs1 ih =>
    intro t rest fuel hh hl hc
    simp only [List.head?_cons, Option.some.injEq] at hh
    subst hh
    cases rs1 with
    | nil =>
      simp only [List.getLast?_singleton, Option.some.injEq] at hl
      subst hl
      cases fuel with
      | zero => simp [non_steerable.optimal_walk]
      | succ n => simp [non_steerable.optimal_walk]
    | cons u rs2 =>
      obtain ⟨⟨hp, hne⟩, hc1⟩ := List.chain'_cons.mp hc
      cases fuel with
      | zero => simp [non_steerable.optimal_walk]
      | succ n =>
        have hl1 : (u :: rs2).getLast? = some s := by
          rw [List.getLast?_cons_cons] at hl; exact hl
        have := ih u (g.position t0 :: rest) n rfl hl1 hc1
        simp only [non_steerable.optimal_walk, hne, if_false, hp, this]
        simp [Nat.succ_le_succ_iff]

theorem optimal_walk_back_along_chain (g : any_graph C P) (s : Nat) (rs : List Nat) :
    ∀ (t : Nat) (front : List P) (fuel : Nat), rs.head? = some t → rs.getLast? = some s →
      List.Chain' (fun v u => g.predecessor v = u ∧ v ≠ s) rs →
      non_steerable.optimal_walk_back g s fuel t (front ++ [g.position t]) =
        if rs.length ≤ fuel then some (s, front ++ rs.map g.position) else none := by
  induction rs with
  | nil => intro t rest fuel h; cases h
  | cons t0 rs1 ih =>
    intro t front fuel hh hl hc
    simp only [List.head?_cons, Option.some.injEq] at hh
    subst hh
    cases rs1 with
    | nil =>
      simp only [List.getLast?_singleton, Option.some.injEq] at hl
      subst hl
      cases fuel with
      | zero => simp [non_steerable.optimal_walk_back]
      | succ n => simp [non_steerable.optimal_walk_back]
    | cons u rs2 =>
      obtain ⟨⟨hp, hne⟩, hc1⟩ := List.chain'_cons.mp hc
      cases fuel with
      | zero => simp [non_steerable.optimal_walk_back]
      | succ n =>
        have hl1 : (u :: rs2).getLast? = some s := by
          rw [List.getLast?_cons_cons] at hl; exact hl
        have := ih u (front ++ [g.position t0]) n rfl hl1 hc1
        simp only [non_steerable.optimal_walk_back, hne, if_false, hp, this]
        simp [Nat.succ_le_succ_iff]

theorem push_front_steer_loop_eq (sr : List P) :
    ∀ (it : Nat) (waypoints : List P),
      push_front_steer_loop sr it waypoints = (sr.tail.take it) ++ waypoints := by
  intro it
  induction it with
  | zero => intro w; simp [push_front_steer_loop]
  | succ n ih =>
    intro w
    have hget : sr.tail[n]? = sr[n + 1]? := by simp [List.getElem?_tail]
    rw [List.take_succ, hget]
    cases h : sr[n + 1]? with
    | none => simp [push_front_steer_loop, h, ih]
    | some p => simp [push_front_steer_loop, h, ih]

theorem push_front_steer_record_eq (sr waypoints : List P) :
    push_front_steer_record sr waypoints = sr.tail ++ waypoints := by
  rw [push_front_steer_record, push_front_steer_loop_eq, end_fraction_travel]
  congr 1
  apply List.take_of_length_le
  simp

theorem optimal_walk_splices (g : any_graph C P) (s : Nat) :
    ∀ (fuel v : Nat) (rest : List P) (n : Nat) (w : List P),
      steerable.optimal_walk g s fuel v (g.position v :: rest) = some (n, w) →
      (∃ front, w = front ++ g.position v :: rest) ∧
        ∀ x ∈ steerable.optimal_traversed g s fuel v, spliced_between g w x := by
  intro fuel
  induction fuel with
  | zero => intro v rest n w h; simp [steerable.optimal_walk] at h
  | succ m ih =>
    intro v rest n w h
    simp only [steerable.optimal_walk] at h
    simp only [steerable.optimal_traversed]
    split at h
    · simp only [Option.some.injEq, Prod.mk.injEq] at h
      rename_i hv
      simp only [hv, if_true]
      exact ⟨⟨[], by simp [← h.2, hv]⟩, fun x hx => by cases hx⟩
    · rename_i hv
      simp only [hv, if_false]
      split at h
      · rename_i hf
        simp only [Option.some.injEq, Prod.mk.injEq] at h
        try rw [hf]
        exact ⟨⟨[], by simp [← h.2]⟩, fun x hx => by cases hx⟩
      · rename_i e hf
        try rw [hf]
        rw [push_front_steer_record_eq] at h
        obtain ⟨⟨front, hfront⟩, hrest⟩ := ih _ _ _ _ h
        refine ⟨⟨front ++ g.position (g.predecessor v) :: (g.steer_record e).tail, ?_⟩, ?_⟩
        · rw [hfront]; simp
        · intro x hx
          rcases List.mem_cons.mp hx with rfl | hx
          · exact ⟨front, rest, by rw [hfront]; simp⟩
          · exact hrest x hx

theorem chain_reverse_data (R : Nat → Nat → Prop) (s t : Nat) (vs : List Nat)
    (hh : vs.head? = some s) (hl : vs.getLast? = some t) (hc : List.Chain' R vs) :
    vs.reverse.head? = some t ∧ vs.reverse.getLast? = some s ∧
      List.Chain' (fun v u => R u v) vs.reverse := by
  refine ⟨by rw [List.head?_reverse, hl], by rw [List.getLast?_reverse, hh], ?_⟩
  rw [List.chain'_reverse]
  exact hc

theorem head_map_append (f : Nat → P) (s : Nat) (vs : List Nat) (rest : List P)
    (hh : vs.head? = some s) : (vs.map f ++ rest).head? = some (f s) := by
  cases vs with
  | nil => cases hh
  | cons v vs1 =>
    simp only [List.head?_cons, Option.some.injEq] at hh
    simp [hh]

variable [LinearOrderedAddCommMonoidWithTop C]

/-! ## The solution map -/

/-- Assigning under a key below the first key puts the entry in front. -/
theorem map_assign_of_improves (k : C) (w : List P) (m : solution_map C P)
    (h : improves_on_best k m = true) : map_assign k w m = (k, w) :: m := by
  cases m with
  | nil => rfl
  | cons e rest =>
    obtain ⟨k0, v0⟩ := e
    simp only [improves_on_best, decide_eq_true_eq] at h
    simp [map_assign, h]

/-- The two tests on the best key are complementary. -/
theorem improves_of_not_no_better (k : C) (m : solution_map C P)
    (h : ¬ no_better_than_best k m = true) : improves_on_best k m = true := by
  cases m with
  | nil => rfl
  | cons e rest =>
    obtain ⟨k0, v0⟩ := e
    simpa [improves_on_best, no_better_than_best] using h

/-- Passing the early-return test of the optimal overloads. -/
theorem optimal_accept (k : C) (m : solution_map C P)
    (h : ¬ (¬ (k < ⊤) ∨ no_better_than_best k m = true)) :
    k < ⊤ ∧ improves_on_best k m = true := by
  push_neg at h
  exact ⟨h.1, improves_of_not_no_better k m h.2⟩

/-! ## What each overload returns -/

/-- The basic single-tree overload (steerable): the walk ended, and either nothing changes or it
ended at `start_node` with a sum below the best key and its waypoints are stored in front. -/
theorem basic_cases_st (fuel : Nat) (space : free_space C P) (g : any_graph C P)
    (s t : Nat) (gp : P) (d : C) (sols : solution_map C P) (out : registration C P)
    (h : steerable.register_basic_solution_path_impl fuel space g s t gp d sols = some out) :
    ∃ n k w, steerable.basic_walk space g s fuel t d (steerable.goal_waypoints space g t gp d) = some (n, k, w) ∧
      (out = ⟨none, sols⟩ ∨
        (n = s ∧ improves_on_best k sols = true ∧ out = ⟨some w, (k, w) :: sols⟩)) := by
  unfold steerable.register_basic_solution_path_impl at h
  split at h
  · exact absurd h (by simp)
  · rename_i n k w hw
    refine ⟨n, k, w, hw, ?_⟩
    split at h
    · rename_i hn
      rw [map_assign_of_improves _ _ _ hn.2] at h
      exact Or.inr ⟨hn.1, hn.2, (Option.some.inj h).symm⟩
    · exact Or.inl (Option.some.inj h).symm

/-- The basic single-tree overload (non_steerable): the walk ended, and either nothing changes or it
ended at `start_node` with a sum below the best key and its waypoints are stored in front. -/
theorem basic_cases_ns (fuel : Nat) (space : free_space C P) (g : any_graph C P)
    (s t : Nat) (gp : P) (d : C) (sols : solution_map C P) (out : registration C P)
    (h : non_steerable.register_basic_solution_path_impl fuel space g s t gp d sols = some out) :
    ∃ n k w, non_steerable.basic_walk space g s fuel t d (non_steerable.goal_waypoints g t gp d) = some (n, k, w) ∧
      (out = ⟨none, sols⟩ ∨
        (n = s ∧ improves_on_best k sols = true ∧ out = ⟨some w, (k, w) :: sols⟩)) := by
  unfold non_steerable.register_basic_solution_path_impl at h
  split at h
  · exact absurd h (by simp)
  · rename_i n k w hw
    refine ⟨n, k, w, hw, ?_⟩
    split at h
    · rename_i hn
      rw [map_assign_of_improves _ _ _ hn.2] at h
      exact Or.inr ⟨hn.1, hn.2, (Option.some.inj h).symm⟩
    · exact Or.inl (Option.some.inj h).symm

/-- The optimal single-tree overload (steerable): either nothing changes, or the walk ended at
`start_node` and its waypoints are stored in front under the accumulated cost. -/
theorem optimal_cases_st (fuel : Nat) (space : free_space C P) (g : any_graph C P)
    (s t : Nat) (gp : P) (d : C) (sols : solution_map C P) (out : registration C P)
    (h : steerable.register_optimal_solution_path_impl fuel space g s t gp d sols = some out) :
    out = ⟨none, sols⟩ ∨
    ∃ w, steerable.optimal_walk g s fuel t (steerable.goal_waypoints space g t gp d) = some (s, w) ∧
      g.distance_accum t + d < ⊤ ∧ improves_on_best (g.distance_accum t + d) sols = true ∧
      out = ⟨some w, (g.distance_accum t + d, w) :: sols⟩ := by
  unfold steerable.register_optimal_solution_path_impl at h
  simp only at h
  split at h
  · exact Or.inl (Option.some.inj h).symm
  · rename_i hc
    obtain ⟨h1, h2⟩ := optimal_accept _ _ hc
    split at h
    · exact absurd h (by simp)
    · rename_i n w hw
      split at h
      · rename_i hn
        subst hn
        rw [map_assign_of_improves _ _ _ h2] at h
        exact Or.inr ⟨w, hw, h1, h2, (Option.some.inj h).symm⟩
      · exact Or.inl (Option.some.inj h).symm

/-- The optimal single-tree overload (non_steerable): either nothing changes, or the walk ended at
`start_node` and its waypoints are stored in front under the accumulated cost. -/
theorem optimal_cases_ns (fuel : Nat) (g : any_graph C P)
    (s t : Nat) (gp : P) (d : C) (sols : solution_map C P) (out : registration C P)
    (h : non_steerable.register_optimal_solution_path_impl fuel g s t gp d sols = some out) :
    out = ⟨none, sols⟩ ∨
    ∃ w, non_steerable.optimal_walk g s fuel t (non_steerable.goal_waypoints g t gp d) = some (s, w) ∧
      g.distance_accum t + d < ⊤ ∧ improves_on_best (g.distance_accum t + d) sols = true ∧
      out = ⟨some w, (g.distance_accum t + d, w) :: sols⟩ := by
  unfold non_steerable.register_optimal_solution_path_impl at h
  simp only at h
  split at h
  · exact Or.inl (Option.some.inj h).symm
  · rename_i hc
    obtain ⟨h1, h2⟩ := optimal_accept _ _ hc
    split at h
    · exact absurd h (by simp)
    · rename_i n w hw
      split at h
      · rename_i hn
        subst hn
        rw [map_assign_of_improves _ _ _ h2] at h
        exact Or.inr ⟨w, hw, h1, h2, (Option.some.inj h).symm⟩
      · exact Or.inl (Option.some.inj h).symm

/-- The basic joining overload (steerable): both walks ended, and either nothing changes or they
ended at their roots with a sum below the best key and the waypoints are stored in front. -/
theorem basic2_cases_st (fuel : Nat) (space : free_space C P) (g1 g2 : any_graph C P)
    (s t j1 j2 : Nat) (d : C) (sols : solution_map C P) (out : registration C P)
    (h : steerable.register_basic_solution_path_impl2 fuel space g1 g2 s t j1 j2 d sols
      = some out) :
    ∃ n1 k1 w1 n2 k w,
      steerable.basic_walk space g1 s fuel j1 d (steerable.join_waypoints space g1 g2 j1 j2 d) = some (n1, k1, w1) ∧
      steerable.basic_walk_back space g2 t fuel j2 k1 (w1 ++ [g2.position j2])
        = some (n2, k, w) ∧
      (out = ⟨none, sols⟩ ∨
        (n1 = s ∧ n2 = t ∧ improves_on_best k sols = true ∧
          out = ⟨some w, (k, w) :: sols⟩)) := by
  unfold steerable.register_basic_solution_path_impl2 at h
  split at h
  · exact absurd h (by simp)
  · rename_i n1 k1 w1 hw1
    split at h
    · exact absurd h (by simp)
    · rename_i n2 k w hw2
      refine ⟨n1, k1, w1, n2, k, w, hw1, hw2, ?_⟩
      split at h
      · rename_i hn
        rw [map_assign_of_improves _ _ _ hn.2.2] at h
        exact Or.inr ⟨hn.1, hn.2.1, hn.2.2, (Option.some.inj h).symm⟩
      · exact Or.inl (Option.some.inj h).symm

/-- The basic joining overload (non_steerable): both walks ended, and either nothing changes or they
ended at their roots with a sum below the best key and the waypoints are stored in front. -/
theorem basic2_cases_ns (fuel : Nat) (space : free_space C P) (g1 g2 : any_graph C P)
    (s t j1 j2 : Nat) (d : C) (sols : solution_map C P) (out : registration C P)
    (h : non_steerable.register_basic_solution_path_impl2 fuel space g1 g2 s t j1 j2 d sols
      = some out) :
    ∃ n1 k1 w1 n2 k w,
      non_steerable.basic_walk space g1 s fuel j1 d ([g1.position j1]) = some (n1, k1, w1) ∧
      non_steerable.basic_walk_back space g2 t fuel j2 k1 (w1 ++ [g2.position j2])
        = some (n2, k, w) ∧
      (out = ⟨none, sols⟩ ∨
        (n1 = s ∧ n2 = t ∧ improves_on_best k sols = true ∧
          out = ⟨some w, (k, w) :: sols⟩)) := by
  unfold non_steerable.register_basic_solution_path_impl2 at h
  split at h
  · exact absurd h (by simp)
  · rename_i n1 k1 w1 hw1
    split at h
    · exact absurd h (by simp)
    · rename_i n2 k w hw2
      refine ⟨n1, k1, w1, n2, k, w, hw1, hw2, ?_⟩
      split at h
      · rename_i hn
        rw [map_assign_of_improves _ _ _ hn.2.2] at h
        exact Or.inr ⟨hn.1, hn.2.1, hn.2.2, (Option.some.inj h).symm⟩
      · exact Or.inl (Option.some.inj h).symm

/-- The optimal joining overload (steerable): either nothing changes, or both walks ended at
their roots and the waypoints are stored in front under the accumulated cost. -/
theorem optimal2_cases_st (fuel : Nat) (space : free_space C P) (g1 g2 : any_graph C P)
    (s t j1 j2 : Nat) (d : C) (sols : solution_map C P) (out : registration C P)
    (h : steerable.register_optimal_solution_path_impl2 fuel space g1 g2 s t j1 j2 d sols
      = some out) :
    out = ⟨none, sols⟩ ∨
    ∃ w1 w, steerable.optimal_walk g1 s fuel j1 (steerable.join_waypoints space g1 g2 j1 j2 d) = some (s, w1) ∧
      steerable.optimal_walk_back g2 t fuel j2 (w1 ++ [g2.position j2]) = some (t, w) ∧
      g1.distance_accum j1 + g2.distance_accum j2 + d < ⊤ ∧
      improves_on_best (g1.distance_accum j1 + g2.distance_accum j2 + d) sols = true ∧
      out = ⟨some w, (g1.distance_accum j1 + g2.distance_accum j2 + d, w) :: sols⟩ := by
  unfold steerable.register_optimal_solution_path_impl2 at h
  simp only at h
  split at h
  · exact Or.inl (Option.some.inj h).symm
  · rename_i hc
    obtain ⟨h1, h2⟩ := optimal_accept _ _ hc
    split at h
    · exact absurd h (by simp)
    · rename_i n1 w1 hw1
      split at h
      · exact absurd h (by simp)
      · rename_i n2 w hw2
        split at h
        · rename_i hn
          obtain ⟨hn1, hn2⟩ := hn
          subst hn1
          subst hn2
          rw [map_assign_of_improves _ _ _ h2] at h
          exact Or.inr ⟨w1, w, hw1, hw2, h1, h2, (Option.some.inj h).symm⟩
        · exact Or.inl (Option.some.inj h).symm

/-- The optimal joining overload (non_steerable): either nothing changes, or both walks ended at
their roots and the waypoints are stored in front under the accumulated cost. -/
theorem optimal2_cases_ns (fuel : Nat) (g1 g2 : any_graph C P)
    (s t j1 j2 : Nat) (d : C) (sols : solution_map C P) (out : registration C P)
    (h : non_steerable.register_optimal_solution_path_impl2 fuel g1 g2 s t j1 j2 d sols
      = some out) :
    out = ⟨none, sols⟩ ∨
    ∃ w1 w, non_steerable.optimal_walk g1 s fuel j1 ([g1.position j1]) = some (s, w1) ∧
      non_steerable.optimal_walk_back g2 t fuel j2 (w1 ++ [g2.position j2]) = some (t, w) ∧
      g1.distance_accum j1 + g2.distance_accum j2 + d < ⊤ ∧
      improves_on_best (g1.distance_accum j1 + g2.distance_accum j2 + d) sols = true ∧
      out = ⟨some w, (g1.distance_accum j1 + g2.distance_accum j2 + d, w) :: sols⟩ := by
  unfold non_steerable.register_optimal_solution_path_impl2 at h
  simp only at h
  split at h
  · exact Or.inl (Option.some.inj h).symm
  · rename_i hc
    obtain ⟨h1, h2⟩ := optimal_accept _ _ hc
    split at h
    · exact absurd h (by simp)
    · rename_i n1 w1 hw1
      split at h
      · exact absurd h (by simp)
      · rename_i n2 w hw2
        split at h
        · rename_i hn
          obtain ⟨hn1, hn2⟩ := hn
          subst hn1
          subst hn2
          rw [map_assign_of_improves _ _ _ h2] at h
          exact Or.inr ⟨w1, w, hw1, hw2, h1, h2, (Option.some.inj h).symm⟩
        · exact Or.inl (Option.some.inj h).symm

/-! ## What a call does to a query -/

/-- What a registration call can do to a query. -/
theorem run_cases (fuel : Nat) (q q1 : path_planning_p2p_query C P) (c : registration_call C P)
    (r : Option (List P)) (h : c.run fuel q = some (r, q1)) :
    (r = none ∧ q1 = q) ∨
    ∃ k w, c.total_dist fuel q = some k ∧ improves_on_best k q.solutions = true ∧
      r = some w ∧ q1 = { q with solutions := (k, w) :: q.solutions } := by
  cases c with
  | solution_optimal s t d g =>
    obtain ⟨out, ho, hr, hq⟩ := commit_eq_some q q1 _ r h
    simp only [registration_call.total_dist]
    split at ho
    · rcases optimal_cases_st fuel q.space g s t q.goal_pos d q.solutions out ho with
        rfl | ⟨w, -, -, h2, rfl⟩
      · exact Or.inl ⟨hr, hq⟩
      · exact Or.inr ⟨_, w, rfl, h2, hr, hq⟩
    · rcases optimal_cases_ns fuel g s t q.goal_pos d q.solutions out ho with
        rfl | ⟨w, -, -, h2, rfl⟩
      · exact Or.inl ⟨hr, hq⟩
      · exact Or.inr ⟨_, w, rfl, h2, hr, hq⟩
  | solution_basic s t d g =>
    obtain ⟨out, ho, hr, hq⟩ := commit_eq_some q q1 _ r h
    simp only [registration_call.total_dist]
    split at ho
    · rename_i hs
      obtain ⟨n, k, w, hw, hcase⟩ := basic_cases_st fuel q.space g s t q.goal_pos d q.solutions out ho
      rcases hcase with rfl | ⟨-, h2, rfl⟩
      · exact Or.inl ⟨hr, hq⟩
      · exact Or.inr ⟨k, w, by simp [hs, hw], h2, hr, hq⟩
    · rename_i hs
      obtain ⟨n, k, w, hw, hcase⟩ := basic_cases_ns fuel q.space g s t q.goal_pos d q.solutions out ho
      rcases hcase with rfl | ⟨-, h2, rfl⟩
      · exact Or.inl ⟨hr, hq⟩
      · exact Or.inr ⟨k, w, by simp [hs, hw], h2, hr, hq⟩
  | joining_point_optimal s t j1 j2 d g1 g2 =>
    obtain ⟨out, ho, hr, hq⟩ := commit_eq_some q q1 _ r h
    simp only [registration_call.total_dist]
    split at ho
    · rcases optimal2_cases_st fuel q.space g1 g2 s t j1 j2 d q.solutions out ho with
        rfl | ⟨w1, w, -, -, -, h2, rfl⟩
      · exact Or.inl ⟨hr, hq⟩
      · exact Or.inr ⟨_, w, rfl, h2, hr, hq⟩
    · rcases optimal2_cases_ns fuel g1 g2 s t j1 j2 d q.solutions out ho with
        rfl | ⟨w1, w, -, -, -, h2, rfl⟩
      · exact Or.inl ⟨hr, hq⟩
      · exact Or.inr ⟨_, w, rfl, h2, hr, hq⟩
  | joining_point_basic s t j1 j2 d g1 g2 =>
    obtain ⟨out, ho, hr, hq⟩ := commit_eq_some q q1 _ r h
    simp only [registration_call.total_dist]
    split at ho
    · rename_i hs
      obtain ⟨n1, k1, w1, n2, k, w, hw1, hw2, hcase⟩ :=
        basic2_cases_st fuel q.space g1 g2 s t j1 j2 d q.solutions out ho
      rcases hcase with rfl | ⟨-, -, h2, rfl⟩
      · exact Or.inl ⟨hr, hq⟩
      · exact Or.inr ⟨k, w, by simp [hs, hw1, hw2], h2, hr, hq⟩
    · rename_i hs
      obtain ⟨n1, k1, w1, n2, k, w, hw1, hw2, hcase⟩ :=
        basic2_cases_ns fuel q.space g1 g2 s t j1 j2 d q.solutions out ho
      rcases hcase with rfl | ⟨-, -, h2, rfl⟩
      · exact Or.inl ⟨hr, hq⟩
      · exact Or.inr ⟨k, w, by simp [hs, hw1, hw2], h2, hr, hq⟩

theorem basic_walk_along_chain (space : free_space C P) (g : any_graph C P) (s : Nat)
    (rs : List Nat) :
    ∀ (t : Nat) (k : C) (rest : List P) (fuel : Nat), rs.head? = some t → rs.getLast? = some s →
      List.Chain' (fun v u => (g.in_edges v).head?.map g.source = some u ∧ v ≠ s) rs →
      ∃ k1, non_steerable.basic_walk space g s fuel t k (g.position t :: rest) =
        if rs.length ≤ fuel then some (s, k1, rs.reverse.map g.position ++ rest) else none := by
  induction rs with
  | nil => intro t k rest fuel h; cases h
  | cons t0 rs1 ih =>
    intro t k rest fuel hh hl hc
    simp only [List.head?_cons, Option.some.injEq] at hh
    subst hh
    cases rs1 with
    | nil =>
      simp only [List.getLast?_singleton, Option.some.injEq] at hl
      subst hl
      refine ⟨k, ?_⟩
      cases fuel with
      | zero => simp [non_steerable.basic_walk]
      | succ n =>
        simp only [non_steerable.basic_walk]
        split <;> simp
    | cons u rs2 =>
      obtain ⟨⟨hp, hne⟩, hc1⟩ := List.chain'_cons.mp hc
      cases fuel with
      | zero => exact ⟨k, by simp [non_steerable.basic_walk]⟩
      | succ n =>
        have hl1 : (u :: rs2).getLast? = some s := by
          rw [List.getLast?_cons_cons] at hl; exact hl
        cases hi : g.in_edges t0 with
        | nil => simp [hi] at hp
        | cons e es =>
          simp only [hi, List.head?_cons, Option.map_some', Option.some.injEq] at hp
          obtain ⟨k1, hk1⟩ := ih u
            (k + space.distance_metric (g.position u) (g.position t0))
            (g.position t0 :: rest) n rfl hl1 hc1
          refine ⟨k1, ?_⟩
          simp only [non_steerable.basic_walk, hi, hne, if_false, hp, hk1]
          simp [Nat.succ_le_succ_iff]

theorem basic_walk_back_along_chain (space : free_space C P) (g : any_graph C P) (s : Nat)
    (rs : List Nat) :
    ∀ (t : Nat) (k : C) (front : List P) (fuel : Nat), rs.head? = some t →
      rs.getLast? = some s →
      List.Chain' (fun v u => (g.in_edges v).head?.map g.source = some u ∧ v ≠ s) rs →
      ∃ k1, non_steerable.basic_walk_back space g s fuel t k (front ++ [g.position t]) =
        if rs.length ≤ fuel then some (s, k1, front ++ rs.map g.position) else none := by
  induction rs with
  | nil => intro t k rest fuel h; cases h
  | cons t0 rs1 ih =>
    intro t k front fuel hh hl hc
    simp only [List.head?_cons, Option.some.injEq] at hh
    subst hh
    cases rs1 with
    | nil =>
      simp only [List.getLast?_singleton, Option.some.injEq] at hl
      subst hl
      refine ⟨k, ?_⟩
      cases fuel with
      | zero => simp [non_steerable.basic_walk_back]
      | succ n =>
        simp only [non_steerable.basic_walk_back]
        split <;> simp
    | cons u rs2 =>
      obtain ⟨⟨hp, hne⟩, hc1⟩ := List.chain'_cons.mp hc
      cases fuel with
      | zero => exact ⟨k, by simp [non_steerable.basic_walk_back]⟩
      | succ n =>
        have hl1 : (u :: rs2).getLast? = some s := by
          rw [List.getLast?_cons_cons] at hl; exact hl
        cases hi : g.in_edges t0 with
        | nil => simp [hi] at hp
        | cons e es =>
          simp only [hi, List.head?_cons, Option.map_some', Option.some.injEq] at hp
          obtain ⟨k1, hk1⟩ := ih u
            (k + space.distance_metric (g.position t0) (g.position u))
            (front ++ [g.position t0]) n rfl hl1 hc1
          refine ⟨k1, ?_⟩
          simp only [non_steerable.basic_walk_back, hi, hne, if_false, hp, hk1]
          simp [Nat.succ_le_succ_iff]

theorem basic_walk_splices (space : free_space C P) (g : any_graph C P) (s : Nat) :
    ∀ (fuel v : Nat) (k : C) (rest : List P) (n : Nat) (k1 : C) (w : List P),
      steerable.basic_walk space g s fuel v k (g.position v :: rest) = some (n, k1, w) →
      (∃ front, w = front ++ g.position v :: rest) ∧
        ∀ x ∈ steerable.basic_traversed g s fuel v, spliced_between g w x := by
  intro fuel
  induction fuel with
  | zero => intro v k rest n k1 w h; simp [steerable.basic_walk] at h
  | succ m ih =>
    intro v k rest n k1 w h
    simp only [steerable.basic_walk] at h
    simp only [steerable.basic_traversed]
    split at h
    · rename_i hi
      simp only [Option.some.injEq, Prod.mk.injEq] at h
      try rw [hi]
      exact ⟨⟨[], by simp [← h.2.2]⟩, fun x hx => by cases hx⟩
    · rename_i e es hi
      try rw [hi]
      split at h
      · rename_i hv
        simp only [Option.some.injEq, Prod.mk.injEq] at h
        simp only [hv, if_true]
        exact ⟨⟨[], by simp [← h.2.2, hv]⟩, fun x hx => by cases hx⟩
      · rename_i hv
        simp only [hv, if_false]
        rw [push_front_steer_record_eq] at h
        obtain ⟨⟨front, hfront⟩, hrest⟩ := ih _ _ _ _ _ _ h
        refine ⟨⟨front ++ g.position (g.source e) :: (g.steer_record e).tail, ?_⟩, ?_⟩
        · rw [hfront]; simp
        · intro x hx
          rcases List.mem_cons.mp hx with rfl | hx
          · exact ⟨front, rest, by rw [hfront]; simp⟩
          · exact hrest x hx

/-! ## Facts about the example data and the solution map -/

/-- A key that improves on the best key of an ordered map is below every key of the map. -/
theorem lt_all_of_improves (k : C) (m : solution_map C P) (hord : map_ordered m)
    (h : improves_on_best k m = true) : ∀ e ∈ m, k < e.1 := by
  cases m with
  | nil => intro e he; cases he
  | cons e0 rest =>
    obtain ⟨k0, v0⟩ := e0
    simp only [improves_on_best, decide_eq_true_eq] at h
    intro e he
    rcases List.mem_cons.mp he with rfl | he
    · exact h
    · exact lt_trans h ((List.pairwise_cons.mp hord).1 e he)

/-- A call keeps `max_num_results` and adds at most one entry to the solution map. -/
theorem run_keeps_max_and_adds_at_most_one (fuel : Nat) (q q1 : path_planning_p2p_query C P)
    (c : registration_call C P) (r : Option (List P)) (h : c.run fuel q = some (r, q1)) :
    q1.max_num_results = q.max_num_results ∧ q1.solutions.length ≤ q.solutions.length + 1 := by
  rcases run_cases fuel q q1 c r h with ⟨-, rfl⟩ | ⟨k, w, -, -, -, rfl⟩
  · exact ⟨rfl, Nat.le_succ _⟩
  · exact ⟨rfl, by simp⟩

/-- The keys of the map after an assignment are the new key and the old keys. -/
theorem mem_map_assign (k : C) (v : List P) (m : solution_map C P) (e : C × List P)
    (he : e ∈ map_assign k v m) : e = (k, v) ∨ e ∈ m := by
  induction m with
  | nil =>
    simp only [map_assign, List.mem_singleton] at he
    exact Or.inl he
  | cons e0 rest ih =>
    obtain ⟨k0, v0⟩ := e0
    simp only [map_assign] at he
    split at he
    · rcases List.mem_cons.mp he with h | h
      · exact Or.inl h
      · exact Or.inr h
    · split at he
      · rcases List.mem_cons.mp he with h | h
        · exact Or.inr (h ▸ List.mem_cons_self _ _)
        · rcases ih h with h1 | h1
          · exact Or.inl h1
          · exact Or.inr (List.mem_cons_of_mem _ h1)
      · rcases List.mem_cons.mp he with h | h
        · exact Or.inl h
        · exact Or.inr (List.mem_cons_of_mem _ h)

/-- The assignment `solutions[k] = v` keeps the keys strictly increasing. -/
theorem map_ordered_assign (k : C) (v : List P) (m : solution_map C P)
    (hord : map_ordered m) : map_ordered (map_assign k v m) := by
  induction m with
  | nil => simp [map_assign, map_ordered]
  | cons e0 rest ih =>
    obtain ⟨k0, v0⟩ := e0
    obtain ⟨h0, hrest⟩ := List.pairwise_cons.mp hord
    simp only [map_assign]
    split
    · rename_i hk
      refine List.pairwise_cons.mpr ⟨?_, hord⟩
      intro e he
      rcases List.mem_cons.mp he with rfl | he
      · exact hk
      · exact lt_trans hk (h0 e he)
    · rename_i hk
      split
      · rename_i hk0
        refine List.pairwise_cons.mpr ⟨?_, ih hrest⟩
        intro e he
        rcases mem_map_assign k v rest e he with rfl | he
        · exact hk0
        · exact h0 e he
      · rename_i hk0
        have hkk : k = k0 := le_antisymm (not_lt.mp hk0) (not_lt.mp hk)
        refine List.pairwise_cons.mpr ⟨?_, hrest⟩
        intro e he
        rw [hkk]
        exact h0 e he

/-- A registration call keeps the keys of the solution map strictly increasing. -/
theorem run_keeps_ordered (fuel : Nat) (q q1 : path_planning_p2p_query C P)
    (c : registration_call C P) (r : Option (List P)) (hord : map_ordered q.solutions)
    (h : c.run fuel q = some (r, q1)) : map_ordered q1.solutions := by
  rcases run_cases fuel q q1 c r h with ⟨-, rfl⟩ | ⟨k, w, -, hk, -, rfl⟩
  · exact hord
  · exact List.pairwise_cons.mpr ⟨lt_all_of_improves k q.solutions hord hk, hord⟩

end theorems

/-- The solution map of `query_with_solution` is ordered. -/
theorem query_with_solution_ordered : map_ordered query_with_solution.solutions := by
  unfold map_ordered
  decide

/-- The solution map of `query_with_two_solutions` is ordered. -/
theorem query_with_two_solutions_ordered :
    map_ordered query_with_two_solutions.solutions := by
  unfold map_ordered
  decide

/-- In `chain_graph` the predecessor chain of vertex 2 is `0, 1, 2`. -/
theorem chain_graph_predecessor_chain : is_predecessor_chain chain_graph 0 2 [0, 1, 2] := by
  simp [is_predecessor_chain, chain_graph]

/-- In `chain_graph` the in-edge chain of vertex 2 is `0, 1, 2`. -/
theorem chain_graph_in_edge_chain : is_in_edge_chain chain_graph 0 2 [0, 1, 2] := by
  simp [is_in_edge_chain, chain_graph]

/-- In `chain_graph` the predecessor chain of vertex 1 is `0, 1`. -/
theorem chain_graph_short_predecessor_chain : is_predecessor_chain chain_graph 0 1 [0, 1] := by
  simp [is_predecessor_chain, chain_graph]

/-- In `chain_graph` the in-edge chain of vertex 1 is `0, 1`. -/
theorem chain_graph_short_in_edge_chain : is_in_edge_chain chain_graph 0 1 [0, 1] := by
  simp [is_in_edge_chain, chain_graph]

/-! ## The properties -/

/-- C4: `keep_going()` of a point-to-point query is false exactly when the number of stored
solutions is at least `max_num_results`; a query constructed with `max_num_results = 0` answers
false from the start. -/
theorem keep_going_false_iff (q : path_planning_p2p_query C P) (aWorld : free_space C P)
    (aStartPos aGoalPos : P) :
    (q.keep_going = false ↔ q.solutions.length ≥ q.max_num_results) ∧
    (path_planning_p2p_query.mk_query aWorld aStartPos aGoalPos 0).keep_going = false := by
  constructor
  · simp [path_planning_p2p_query.keep_going]
  · simp [path_planning_p2p_query.keep_going, path_planning_p2p_query.mk_query]

section properties

variable [LinearOrderedAddCommMonoidWithTop C]

/-- C1: for every point-to-point query and every call of one of the four registration entry
points (single tree or joining point, basic or optimal graph, accepted or rejected), the value
of `get_best_solution_distance()` after the call is at most its value before the call. -/
theorem best_solution_distance_non_increasing (fuel : Nat)
    (q q1 : path_planning_p2p_query C P) (c : registration_call C P) (r : Option (List P))
    (h : c.run fuel q = some (r, q1)) :
    q1.get_best_solution_distance ≤ q.get_best_solution_distance := by
  rcases run_cases fuel q q1 c r h with ⟨-, rfl⟩ | ⟨k, w, -, hk, -, rfl⟩
  · exact le_refl _
  · cases hs : q.solutions with
    | nil => simp [path_planning_p2p_query.get_best_solution_distance, hs]
    | cons e rest =>
      obtain ⟨k0, v0⟩ := e
      rw [hs] at hk
      simp only [improves_on_best, decide_eq_true_eq] at hk
      simpa [path_planning_p2p_query.get_best_solution_distance, hs] using hk.le

/-- Witness of C1: an accepted call on a query that already holds a solution of cost 9 lowers
the best distance to 3. -/
theorem best_solution_distance_non_increasing_witness :
    (registration_call.solution_optimal 0 1 1 chain_graph).run 5
        query_with_solution
      = some (some [0, 10, 25],
          query_with_two_solutions) ∧
    path_planning_p2p_query.get_best_solution_distance
        query_with_two_solutions
      ≤ path_planning_p2p_query.get_best_solution_distance
        query_with_solution :=
  ⟨by rfl, best_solution_distance_non_increasing 5 _ _
    (registration_call.solution_optimal 0 1 1 chain_graph) (some [0, 10, 25]) (by rfl)⟩

/-- C2: a registration call returns the record `w` exactly when the solution map gained one
new entry, keyed by the total cost of the candidate and holding `w`; when the call returns the
null record the solution map is unchanged. -/
theorem registration_returns_record_iff_entry_gained (fuel : Nat)
    (q q1 : path_planning_p2p_query C P) (c : registration_call C P) (r : Option (List P))
    (hord : map_ordered q.solutions) (h : c.run fuel q = some (r, q1)) :
    (∀ w, r = some w ↔
      ∃ k, c.total_dist fuel q = some k ∧ gained_entry q.solutions q1.solutions k w) ∧
    (r = none → q1.solutions = q.solutions) := by
  rcases run_cases fuel q q1 c r h with ⟨rfl, rfl⟩ | ⟨k, w, hk, himp, rfl, rfl⟩
  · refine ⟨fun w => ⟨fun hw => (by cases hw), ?_⟩, fun _ => rfl⟩
    rintro ⟨k, -, -, hlen, -⟩
    simp at hlen
  · have hlt := lt_all_of_improves k q.solutions hord himp
    refine ⟨fun w1 => ⟨?_, ?_⟩, fun hr => by cases hr⟩
    · intro hw
      cases hw
      exact ⟨k, hk, fun e he => (hlt e he).ne', by simp, fun e => by simp⟩
    · rintro ⟨k1, hk1, hnew, -, hmem⟩
      rw [hk] at hk1
      cases hk1
      have h1 : (k, w) ∈ (k, w) :: q.solutions := List.mem_cons_self _ _
      rcases (hmem (k, w)).mp h1 with heq | hold
      · simp only [Prod.mk.injEq, true_and] at heq
        rw [heq]
      · exact absurd rfl (hnew _ hold)

/-- Witness of C2: the accepted call on `query_with_solution` adds the entry of cost 3. -/
theorem registration_returns_record_iff_entry_gained_witness :
    map_ordered query_with_solution.solutions ∧
    (registration_call.solution_optimal 0 1 1 chain_graph).run 5 query_with_solution
      = some (some [0, 10, 25],
          query_with_two_solutions) ∧
    ((∀ w, some [0, 10, 25] = some w ↔
      ∃ k, (registration_call.solution_optimal 0 1 1 chain_graph).total_dist 5
          query_with_solution = some k ∧
        gained_entry query_with_solution.solutions
          [(3, [0, 10, 25]), (9, [0, 10, 20, 25])] k w) ∧
    (some [0, 10, 25] = none →
      [(3, [0, 10, 25]), (9, [0, 10, 20, 25])] = query_with_solution.solutions)) :=
  ⟨query_with_solution_ordered, by rfl,
    registration_returns_record_iff_entry_gained 5 query_with_solution
      query_with_two_solutions
      (registration_call.solution_optimal 0 1 1 chain_graph) (some [0, 10, 25])
      query_with_solution_ordered (by rfl)⟩

/-- C3: `get_best_solution_distance()` of a point-to-point query is `+∞` when the solution map
is empty and otherwise the least key among the stored entries; the base `planning_query` always
answers `+∞`. -/
theorem best_solution_distance_is_least_key (q : path_planning_p2p_query C P)
    (b : planning_query C P) (hord : map_ordered q.solutions) :
    (q.solutions = [] → q.get_best_solution_distance = ⊤) ∧
    (q.solutions ≠ [] →
      (∃ e ∈ q.solutions, e.1 = q.get_best_solution_distance) ∧
      ∀ e ∈ q.solutions, q.get_best_solution_distance ≤ e.1) ∧
    b.get_best_solution_distance = ⊤ := by
  refine ⟨fun h => by simp [path_planning_p2p_query.get_best_solution_distance, h], ?_, rfl⟩
  intro hne
  cases hs : q.solutions with
  | nil => exact absurd hs hne
  | cons e0 rest =>
    obtain ⟨k0, v0⟩ := e0
    rw [hs] at hord
    have hb : q.get_best_solution_distance = k0 := by
      simp [path_planning_p2p_query.get_best_solution_distance, hs]
    rw [hb]
    refine ⟨⟨(k0, v0), List.mem_cons_self _ _, rfl⟩, ?_⟩
    intro e he
    rcases List.mem_cons.mp he with rfl | he
    · exact le_refl _
    · exact ((List.pairwise_cons.mp hord).1 e he).le

/-- Witness of C3: on `query_with_two_solutions` the best distance is the least of the keys 3
and 9. -/
theorem best_solution_distance_is_least_key_witness :
    map_ordered query_with_two_solutions.solutions ∧
    (query_with_two_solutions.solutions = [] →
      query_with_two_solutions.get_best_solution_distance = ⊤) ∧
    (query_with_two_solutions.solutions ≠ [] →
      (∃ e ∈ query_with_two_solutions.solutions,
        e.1 = query_with_two_solutions.get_best_solution_distance) ∧
      ∀ e ∈ query_with_two_solutions.solutions,
        query_with_two_solutions.get_best_solution_distance ≤ e.1) ∧
    planning_query.get_best_solution_distance
      (planning_query.mk (line_space false) : planning_query (WithTop ℕ) ℕ) = ⊤ :=
  ⟨query_with_two_solutions_ordered,
    best_solution_distance_is_least_key query_with_two_solutions ⟨line_space false⟩
      query_with_two_solutions_ordered⟩

/-- Counterexample to C5 as stated: a query constructed for one result holds two solutions
after two accepted registration calls. -/
theorem solutions_exceed_max_num_results :
    (run_calls 5 (line_query false 1)
        [registration_call.solution_optimal 0 2 5 chain_graph,
          registration_call.solution_optimal 0 1 1 chain_graph]).map
      (fun q => (q.max_num_results, q.solutions.length)) = some (1, 2) := by
  decide

/-- C5, amended: when the solution map of a query holds at most `max_num_results` entries and
every registration call is issued only while `keep_going()` answers true, the number of entries
never exceeds `max_num_results`, whatever the sequence of calls. -/
theorem solutions_bounded_while_keep_going (fuel : Nat) (cs : List (registration_call C P))
    (q q1 : path_planning_p2p_query C P)
    (hq : q.solutions.length ≤ q.max_num_results)
    (h : run_calls_while_keep_going fuel q cs = some q1) :
    q1.solutions.length ≤ q.max_num_results := by
  induction cs generalizing q with
  | nil =>
    simp only [run_calls_while_keep_going, Option.some.injEq] at h
    rw [← h]; exact hq
  | cons c cs ih =>
    simp only [run_calls_while_keep_going] at h
    split at h
    · rename_i hk
      simp only [path_planning_p2p_query.keep_going, gt_iff_lt, decide_eq_true_eq] at hk
      split at h
      · cases h
      · rename_i r q2 hrun
        obtain ⟨hmax, hlen⟩ := run_keeps_max_and_adds_at_most_one fuel q q2 c r hrun
        rw [← hmax]
        exact ih q2 (by omega) h
    · simp only [Option.some.injEq] at h
      rw [← h]; exact hq

/-- Witness of C5, amended: on a query for one result the second call is not issued. -/
theorem solutions_bounded_while_keep_going_witness :
    (line_query false 1).solutions.length ≤ (line_query false 1).max_num_results ∧
    run_calls_while_keep_going 5 (line_query false 1)
        [registration_call.solution_optimal 0 2 5 chain_graph,
          registration_call.solution_optimal 0 1 1 chain_graph]
      = some query_with_solution ∧
    (path_planning_p2p_query.solutions
        query_with_solution).length
      ≤ (line_query false 1).max_num_results :=
  ⟨by decide, by rfl,
    solutions_bounded_while_keep_going 5
      [registration_call.solution_optimal 0 2 5 chain_graph,
        registration_call.solution_optimal 0 1 1 chain_graph]
      (line_query false 1) query_with_solution
      (by decide) (by rfl)⟩

/-- C6: an accepted joining-point registration on two optimal motion graphs stores the
solution under the total cost `distance_accum1[join1] + joining_distance +
distance_accum2[join2]`, which then is the best solution distance. -/
theorem optimal_joining_point_cost (fuel : Nat) (q q1 : path_planning_p2p_query C P)
    (start_node goal_node join1_node join2_node : Nat) (joining_distance : C)
    (g1 g2 : any_graph C P) (w : List P)
    (h : q.register_joining_point_from_optimal_mg fuel start_node goal_node join1_node
      join2_node joining_distance g1 g2 = some (some w, q1)) :
    q1.solutions = map_assign
      (g1.distance_accum join1_node + joining_distance + g2.distance_accum join2_node) w
      q.solutions ∧
    (g1.distance_accum join1_node + joining_distance + g2.distance_accum join2_node, w)
      ∈ q1.solutions ∧
    q1.get_best_solution_distance =
      g1.distance_accum join1_node + joining_distance + g2.distance_accum join2_node := by
  obtain ⟨out, ho, hr, hq⟩ := commit_eq_some q q1 _ _ h
  rw [add_right_comm]
  have key : out = ⟨some w,
        (g1.distance_accum join1_node + g2.distance_accum join2_node + joining_distance, w)
          :: q.solutions⟩ ∧
      improves_on_best
        (g1.distance_accum join1_node + g2.distance_accum join2_node + joining_distance)
        q.solutions = true := by
    split at ho
    · rcases optimal2_cases_st fuel q.space g1 g2 start_node goal_node join1_node join2_node
        joining_distance q.solutions out ho with rfl | ⟨w1, w2, -, -, -, h2, rfl⟩
      · cases hr
      · cases hr; exact ⟨rfl, h2⟩
    · rcases optimal2_cases_ns fuel g1 g2 start_node goal_node join1_node join2_node
        joining_distance q.solutions out ho with rfl | ⟨w1, w2, -, -, -, h2, rfl⟩
      · cases hr
      · cases hr; exact ⟨rfl, h2⟩
  obtain ⟨rfl, h2⟩ := key
  subst hq
  refine ⟨(map_assign_of_improves _ _ _ h2).symm, List.mem_cons_self _ _, ?_⟩
  simp [path_planning_p2p_query.get_best_solution_distance]

/-- Witness of C6: joining the chain to vertex 2 with the chain to vertex 1 over a distance of
7 is stored under `4 + 7 + 2`. -/
theorem optimal_joining_point_cost_witness :
    (line_query false 1).register_joining_point_from_optimal_mg 5 0 0 2 1 7 chain_graph
        chain_graph = some (some [0, 10, 20, 10, 0], query_after_joining) ∧
    (query_after_joining.solutions =
        map_assign (chain_graph.distance_accum 2 + 7 + chain_graph.distance_accum 1)
          [0, 10, 20, 10, 0] (line_query false 1).solutions ∧
      (chain_graph.distance_accum 2 + 7 + chain_graph.distance_accum 1, [0, 10, 20, 10, 0])
        ∈ query_after_joining.solutions ∧
      query_after_joining.get_best_solution_distance =
        chain_graph.distance_accum 2 + 7 + chain_graph.distance_accum 1) :=
  ⟨by rfl, optimal_joining_point_cost 5 (line_query false 1) query_after_joining 0 0 2 1 7
    chain_graph chain_graph [0, 10, 20, 10, 0] (by rfl)⟩

/-- C7: an accepted single-tree registration on an optimal motion graph stores the solution
under the total cost `distance_accum[goal_node] + goal_distance`, which then is the best
solution distance. -/
theorem optimal_single_tree_cost (fuel : Nat) (q q1 : path_planning_p2p_query C P)
    (start_node goal_node : Nat) (goal_distance : C) (g : any_graph C P) (w : List P)
    (h : q.register_solution_from_optimal_mg fuel start_node goal_node goal_distance g
      = some (some w, q1)) :
    q1.solutions = map_assign (g.distance_accum goal_node + goal_distance) w q.solutions ∧
    (g.distance_accum goal_node + goal_distance, w) ∈ q1.solutions ∧
    q1.get_best_solution_distance = g.distance_accum goal_node + goal_distance := by
  obtain ⟨out, ho, hr, hq⟩ := commit_eq_some q q1 _ _ h
  have key : out = ⟨some w, (g.distance_accum goal_node + goal_distance, w) :: q.solutions⟩ ∧
      improves_on_best (g.distance_accum goal_node + goal_distance) q.solutions = true := by
    split at ho
    · rcases optimal_cases_st fuel q.space g start_node goal_node q.goal_pos goal_distance
        q.solutions out ho with rfl | ⟨w1, -, -, h2, rfl⟩
      · cases hr
      · cases hr; exact ⟨rfl, h2⟩
    · rcases optimal_cases_ns fuel g start_node goal_node q.goal_pos goal_distance
        q.solutions out ho with rfl | ⟨w1, -, -, h2, rfl⟩
      · cases hr
      · cases hr; exact ⟨rfl, h2⟩
  obtain ⟨rfl, h2⟩ := key
  subst hq
  refine ⟨(map_assign_of_improves _ _ _ h2).symm, List.mem_cons_self _ _, ?_⟩
  simp [path_planning_p2p_query.get_best_solution_distance]

/-- Witness of C7: the chain to vertex 2 with goal distance 5 is stored under `4 + 5`. -/
theorem optimal_single_tree_cost_witness :
    (line_query false 1).register_solution_from_optimal_mg 5 0 2 5 chain_graph
      = some (some [0, 10, 20, 25], query_with_solution) ∧
    (query_with_solution.solutions =
        map_assign (chain_graph.distance_accum 2 + 5) [0, 10, 20, 25]
          (line_query false 1).solutions ∧
      (chain_graph.distance_accum 2 + 5, [0, 10, 20, 25]) ∈ query_with_solution.solutions ∧
      query_with_solution.get_best_solution_distance = chain_graph.distance_accum 2 + 5) :=
  ⟨by rfl, optimal_single_tree_cost 5 (line_query false 1) query_with_solution 0 2 5
    chain_graph [0, 10, 20, 25] (by rfl)⟩

/-- C8: in a space that is not steerable, when the predecessor chain of `goal_node` is
`start_node = v0, ..., vk = goal_node`, a single-tree registration returns once the fuel covers
the chain, and an accepted one produces the waypoints `pos v0, ..., pos vk`, followed by
`goal_pos` exactly when `goal_distance > 0`; the first waypoint is the position of
`start_node`. This holds for the optimal graph (chain of recorded predecessors) and for the
basic graph (chain of first in-edges). -/
theorem non_steerable_single_tree_waypoints (q : path_planning_p2p_query C P)
    (hq : q.space.is_steerable_space = false) (g : any_graph C P) (start_node goal_node : Nat)
    (goal_distance : C) (vs : List Nat) :
    (is_predecessor_chain g start_node goal_node vs →
      (∀ fuel, vs.length ≤ fuel →
        (q.register_solution_from_optimal_mg fuel start_node goal_node goal_distance
          g).isSome = true) ∧
      ∀ fuel w q1,
        q.register_solution_from_optimal_mg fuel start_node goal_node goal_distance g
          = some (some w, q1) →
        w = vs.map g.position ++ (if 0 < goal_distance then [q.goal_pos] else []) ∧
          w.head? = some (g.position start_node)) ∧
    (is_in_edge_chain g start_node goal_node vs →
      (∀ fuel, vs.length ≤ fuel →
        (q.register_solution_from_basic_mg fuel start_node goal_node goal_distance
          g).isSome = true) ∧
      ∀ fuel w q1,
        q.register_solution_from_basic_mg fuel start_node goal_node goal_distance g
          = some (some w, q1) →
        w = vs.map g.position ++ (if 0 < goal_distance then [q.goal_pos] else []) ∧
          w.head? = some (g.position start_node)) := by
  constructor
  · rintro ⟨hh, hl, hc⟩
    obtain ⟨rh, rl, rc⟩ := chain_reverse_data _ _ _ vs hh hl hc
    have hwalk := fun fuel => optimal_walk_along_chain g start_node vs.reverse goal_node
      (if 0 < goal_distance then [q.goal_pos] else []) fuel rh rl rc
    simp only [List.reverse_reverse, List.length_reverse] at hwalk
    constructor
    · intro fuel hf
      simp only [path_planning_p2p_query.register_solution_from_optimal_mg, hq,
        Bool.false_eq_true, if_false, path_planning_p2p_query.commit,
        non_steerable.register_optimal_solution_path_impl, non_steerable.goal_waypoints,
        hwalk fuel, hf, if_true]
      split <;> simp
    · intro fuel w q1 h
      obtain ⟨out, ho, hr, -⟩ := commit_eq_some q q1 _ _ h
      simp only [hq, Bool.false_eq_true, if_false] at ho
      rcases optimal_cases_ns fuel g start_node goal_node q.goal_pos goal_distance
        q.solutions out ho with rfl | ⟨w1, hw1, -, -, rfl⟩
      · cases hr
      · cases hr
        simp only [non_steerable.goal_waypoints, hwalk fuel] at hw1
        split at hw1
        · simp only [Option.some.injEq, Prod.mk.injEq, true_and] at hw1
          subst hw1
          exact ⟨rfl, head_map_append _ _ _ _ hh⟩
        · cases hw1
  · rintro ⟨hh, hl, hc⟩
    obtain ⟨rh, rl, rc⟩ := chain_reverse_data _ _ _ vs hh hl hc
    have hwalk := fun fuel => basic_walk_along_chain q.space g start_node vs.reverse goal_node
      goal_distance (if 0 < goal_distance then [q.goal_pos] else []) fuel rh rl rc
    simp only [List.reverse_reverse, List.length_reverse] at hwalk
    constructor
    · intro fuel hf
      obtain ⟨k1, hk1⟩ := hwalk fuel
      simp only [path_planning_p2p_query.register_solution_from_basic_mg, hq,
        Bool.false_eq_true, if_false, path_planning_p2p_query.commit,
        non_steerable.register_basic_solution_path_impl, non_steerable.goal_waypoints,
        hk1, hf, if_true]
      split <;> simp
    · intro fuel w q1 h
      obtain ⟨out, ho, hr, -⟩ := commit_eq_some q q1 _ _ h
      simp only [hq, Bool.false_eq_true, if_false] at ho
      obtain ⟨n, k, w1, hw1, hcase⟩ := basic_cases_ns fuel q.space g start_node goal_node
        q.goal_pos goal_distance q.solutions out ho
      rcases hcase with rfl | ⟨-, -, rfl⟩
      · cases hr
      · cases hr
        obtain ⟨k1, hk1⟩ := hwalk fuel
        simp only [non_steerable.goal_waypoints, hk1] at hw1
        split at hw1
        · simp only [Option.some.injEq, Prod.mk.injEq] at hw1
          obtain ⟨-, -, hw⟩ := hw1
          subst hw
          exact ⟨rfl, head_map_append _ _ _ _ hh⟩
        · cases hw1

/-- Witness of C8: the chain `0, 1, 2` of `chain_graph` with goal distance 5 gives the
waypoints `0, 10, 20, 25`, from the optimal and from the basic registration. -/
theorem non_steerable_single_tree_waypoints_witness :
    (line_query false 1).space.is_steerable_space = false ∧
    is_predecessor_chain chain_graph 0 2 [0, 1, 2] ∧
    is_in_edge_chain chain_graph 0 2 [0, 1, 2] ∧
    (line_query false 1).register_solution_from_optimal_mg 5 0 2 5 chain_graph
      = some (some [0, 10, 20, 25], query_with_solution) ∧
    (line_query false 1).register_solution_from_basic_mg 5 0 2 5 chain_graph
      = some (some [0, 10, 20, 25], query_with_basic_solution) ∧
    ([0, 10, 20, 25] = [0, 1, 2].map chain_graph.position ++
        (if (0 : WithTop ℕ) < 5 then [(line_query false 1).goal_pos] else []) ∧
      [0, 10, 20, 25].head? = some (chain_graph.position 0)) ∧
    ([0, 10, 20, 25] = [0, 1, 2].map chain_graph.position ++
        (if (0 : WithTop ℕ) < 5 then [(line_query false 1).goal_pos] else []) ∧
      [0, 10, 20, 25].head? = some (chain_graph.position 0)) :=
  ⟨rfl, chain_graph_predecessor_chain, chain_graph_in_edge_chain, by rfl, by rfl,
    ((non_steerable_single_tree_waypoints (line_query false 1) rfl chain_graph 0 2 5
      [0, 1, 2]).1 chain_graph_predecessor_chain).2 5 [0, 10, 20, 25] query_with_solution
      (by rfl),
    ((non_steerable_single_tree_waypoints (line_query false 1) rfl chain_graph 0 2 5
      [0, 1, 2]).2 chain_graph_in_edge_chain).2 5 [0, 10, 20, 25] query_with_basic_solution
      (by rfl)⟩

/-- C9: in a space that is not steerable, when the chain of `join1_node` in the first tree is
`start_node = a0, ..., am` and the chain of `join2_node` in the second tree is
`goal_node = b0, ..., bn`, a joining-point registration returns once the fuel covers both
chains, and an accepted one produces the waypoints `pos1 a0, ..., pos1 am, pos2 bn, ...,
pos2 b0`. This holds for the optimal graphs and for the basic graphs. -/
theorem non_steerable_joining_waypoints (q : path_planning_p2p_query C P)
    (hq : q.space.is_steerable_space = false) (g1 g2 : any_graph C P)
    (start_node goal_node join1_node join2_node : Nat) (joining_distance : C)
    (as bs : List Nat) :
    (is_predecessor_chain g1 start_node join1_node as →
      is_predecessor_chain g2 goal_node join2_node bs →
      (∀ fuel, as.length ≤ fuel → bs.length ≤ fuel →
        (q.register_joining_point_from_optimal_mg fuel start_node goal_node join1_node
          join2_node joining_distance g1 g2).isSome = true) ∧
      ∀ fuel w q1,
        q.register_joining_point_from_optimal_mg fuel start_node goal_node join1_node
          join2_node joining_distance g1 g2 = some (some w, q1) →
        w = as.map g1.position ++ bs.reverse.map g2.position) ∧
    (is_in_edge_chain g1 start_node join1_node as →
      is_in_edge_chain g2 goal_node join2_node bs →
      (∀ fuel, as.length ≤ fuel → bs.length ≤ fuel →
        (q.register_joining_point_from_basic_mg fuel start_node goal_node join1_node
          join2_node joining_distance g1 g2).isSome = true) ∧
      ∀ fuel w q1,
        q.register_joining_point_from_basic_mg fuel start_node goal_node join1_node
          join2_node joining_distance g1 g2 = some (some w, q1) →
        w = as.map g1.position ++ bs.reverse.map g2.position) := by
  constructor
  · rintro ⟨ah, al, ac⟩ ⟨bh, bl, bc⟩
    obtain ⟨rah, ral, rac⟩ := chain_reverse_data _ _ _ as ah al ac
    obtain ⟨rbh, rbl, rbc⟩ := chain_reverse_data _ _ _ bs bh bl bc
    have hwalk1 := fun fuel => optimal_walk_along_chain g1 start_node as.reverse join1_node
      [] fuel rah ral rac
    have hwalk2 := fun front fuel => optimal_walk_back_along_chain g2 goal_node bs.reverse
      join2_node front fuel rbh rbl rbc
    simp only [List.reverse_reverse, List.length_reverse, List.append_nil] at hwalk1 hwalk2
    constructor
    · intro fuel hf1 hf2
      simp only [path_planning_p2p_query.register_joining_point_from_optimal_mg, hq,
        Bool.false_eq_true, if_false, path_planning_p2p_query.commit,
        non_steerable.register_optimal_solution_path_impl2, hwalk1 fuel, hwalk2 _ fuel,
        hf1, hf2, if_true]
      split <;> simp
    · intro fuel w q1 h
      obtain ⟨out, ho, hr, -⟩ := commit_eq_some q q1 _ _ h
      simp only [hq, Bool.false_eq_true, if_false] at ho
      rcases optimal2_cases_ns fuel g1 g2 start_node goal_node join1_node join2_node
        joining_distance q.solutions out ho with rfl | ⟨w1, w2, hw1, hw2, -, -, rfl⟩
      · cases hr
      · cases hr
        rw [hwalk1 fuel] at hw1
        rw [hwalk2 _ fuel] at hw2
        split at hw1
        · simp only [Option.some.injEq, Prod.mk.injEq, true_and] at hw1
          subst hw1
          split at hw2
          · simp only [Option.some.injEq, Prod.mk.injEq, true_and] at hw2
            exact hw2.symm
          · cases hw2
        · cases hw1
  · rintro ⟨ah, al, ac⟩ ⟨bh, bl, bc⟩
    obtain ⟨rah, ral, rac⟩ := chain_reverse_data _ _ _ as ah al ac
    obtain ⟨rbh, rbl, rbc⟩ := chain_reverse_data _ _ _ bs bh bl bc
    have hwalk1 := fun fuel => basic_walk_along_chain q.space g1 start_node as.reverse
      join1_node joining_distance [] fuel rah ral rac
    have hwalk2 := fun k front fuel => basic_walk_back_along_chain q.space g2 goal_node
      bs.reverse join2_node k front fuel rbh rbl rbc
    simp only [List.reverse_reverse, List.length_reverse, List.append_nil] at hwalk1 hwalk2
    constructor
    · intro fuel hf1 hf2
      obtain ⟨k1, hk1⟩ := hwalk1 fuel
      obtain ⟨k2, hk2⟩ := hwalk2 k1 (as.map g1.position) fuel
      simp only [path_planning_p2p_query.register_joining_point_from_basic_mg, hq,
        Bool.false_eq_true, if_false, path_planning_p2p_query.commit,
        non_steerable.register_basic_solution_path_impl2, hk1, hk2, hf1, hf2, if_true]
      split <;> simp
    · intro fuel w q1 h
      obtain ⟨out, ho, hr, -⟩ := commit_eq_some q q1 _ _ h
      simp only [hq, Bool.false_eq_true, if_false] at ho
      obtain ⟨n1, k1, w1, n2, k, w2, hw1, hw2, hcase⟩ := basic2_cases_ns fuel q.space g1 g2
        start_node goal_node join1_node join2_node joining_distance q.solutions out ho
      rcases hcase with rfl | ⟨-, -, -, rfl⟩
      · cases hr
      · cases hr
        obtain ⟨k3, hk3⟩ := hwalk1 fuel
        rw [hk3] at hw1
        split at hw1
        · simp only [Option.some.injEq, Prod.mk.injEq] at hw1
          obtain ⟨-, -, hw⟩ := hw1
          subst hw
          obtain ⟨k4, hk4⟩ := hwalk2 k1 (as.map g1.position) fuel
          rw [hk4] at hw2
          split at hw2
          · simp only [Option.some.injEq, Prod.mk.injEq] at hw2
            exact hw2.2.2.symm
          · cases hw2
        · cases hw1

/-- Witness of C9: joining the chain `0, 1, 2` with the chain `0, 1` gives the waypoints
`0, 10, 20, 10, 0`, from the optimal and from the basic registration. -/
theorem non_steerable_joining_waypoints_witness :
    (line_query false 1).space.is_steerable_space = false ∧
    is_predecessor_chain chain_graph 0 2 [0, 1, 2] ∧
    is_predecessor_chain chain_graph 0 1 [0, 1] ∧
    is_in_edge_chain chain_graph 0 2 [0, 1, 2] ∧
    is_in_edge_chain chain_graph 0 1 [0, 1] ∧
    (line_query false 1).register_joining_point_from_optimal_mg 5 0 0 2 1 7 chain_graph
        chain_graph = some (some [0, 10, 20, 10, 0], query_after_joining) ∧
    (line_query false 1).register_joining_point_from_basic_mg 5 0 0 2 1 7 chain_graph
        chain_graph = some (some [0, 10, 20, 10, 0], query_after_basic_joining) ∧
    [0, 10, 20, 10, 0] =
      [0, 1, 2].map chain_graph.position ++ [0, 1].reverse.map chain_graph.position ∧
    [0, 10, 20, 10, 0] =
      [0, 1, 2].map chain_graph.position ++ [0, 1].reverse.map chain_graph.position :=
  ⟨rfl, chain_graph_predecessor_chain, chain_graph_short_predecessor_chain,
    chain_graph_in_edge_chain, chain_graph_short_in_edge_chain, by rfl, by rfl,
    ((non_steerable_joining_waypoints (line_query false 1) rfl chain_graph chain_graph 0 0 2 1
      7 [0, 1, 2] [0, 1]).1 chain_graph_predecessor_chain
      chain_graph_short_predecessor_chain).2 5 [0, 10, 20, 10, 0]
      query_after_joining (by rfl),
    ((non_steerable_joining_waypoints (line_query false 1) rfl chain_graph chain_graph 0 0 2 1
      7 [0, 1, 2] [0, 1]).2 chain_graph_in_edge_chain
      chain_graph_short_in_edge_chain).2 5 [0, 10, 20, 10, 0]
      query_after_basic_joining (by rfl)⟩

/-- C10: in a steerable space, for every tree edge `u → v` traversed by an accepted single-tree
registration, the waypoints of the steer record of the edge after its begin, up to and
including its end, stand in the output in the order of the record, in one block right between
`pos u` and `pos v`; an edge whose record is empty (begin and end coincide) contributes the two
end positions only. This holds for the optimal and for the basic graph. -/
theorem steer_records_spliced_between_end_points (fuel : Nat)
    (q q1 : path_planning_p2p_query C P) (hq : q.space.is_steerable_space = true)
    (g : any_graph C P) (start_node goal_node : Nat) (goal_distance : C) (w : List P) :
    (q.register_solution_from_optimal_mg fuel start_node goal_node goal_distance g
        = some (some w, q1) →
      ∀ x ∈ steerable.optimal_traversed g start_node fuel goal_node,
        spliced_between g w x ∧
        ((g.steer_record x.2.1).length ≤ 1 →
          ∃ front back, w = front ++ g.position x.1 :: g.position x.2.2 :: back)) ∧
    (q.register_solution_from_basic_mg fuel start_node goal_node goal_distance g
        = some (some w, q1) →
      ∀ x ∈ steerable.basic_traversed g start_node fuel goal_node,
        spliced_between g w x ∧
        ((g.steer_record x.2.1).length ≤ 1 →
          ∃ front back, w = front ++ g.position x.1 :: g.position x.2.2 :: back)) := by
  have hempty : ∀ x : Nat × Nat × Nat, spliced_between g w x →
      (g.steer_record x.2.1).length ≤ 1 →
      ∃ front back, w = front ++ g.position x.1 :: g.position x.2.2 :: back := by
    rintro x ⟨front, back, hw⟩ hlen
    have ht : (g.steer_record x.2.1).tail = [] := by
      apply List.eq_nil_of_length_eq_zero
      simp only [List.length_tail]
      omega
    rw [ht] at hw
    exact ⟨front, back, by simpa using hw⟩
  constructor
  · intro h x hx
    obtain ⟨out, ho, hr, -⟩ := commit_eq_some q q1 _ _ h
    simp only [hq, if_true] at ho
    rcases optimal_cases_st fuel q.space g start_node goal_node q.goal_pos goal_distance
      q.solutions out ho with rfl | ⟨w1, hw1, -, -, rfl⟩
    · cases hr
    · cases hr
      have := (optimal_walk_splices g start_node fuel goal_node _ _ _ hw1).2 x hx
      exact ⟨this, hempty x this⟩
  · intro h x hx
    obtain ⟨out, ho, hr, -⟩ := commit_eq_some q q1 _ _ h
    simp only [hq, if_true] at ho
    obtain ⟨n, k, w1, hw1, hcase⟩ := basic_cases_st fuel q.space g start_node goal_node
      q.goal_pos goal_distance q.solutions out ho
    rcases hcase with rfl | ⟨-, -, rfl⟩
    · cases hr
    · cases hr
      have := (basic_walk_splices q.space g start_node fuel goal_node _ _ _ _ _ hw1).2 x hx
      exact ⟨this, hempty x this⟩

/-- Witness of C10: the record `10, 13, 16, 20` of the edge `1 → 2` of `chain_graph` stands
between the positions 10 and 20 in the output of the optimal and of the basic registration. -/
theorem steer_records_spliced_between_end_points_witness :
    (line_query true 1).space.is_steerable_space = true ∧
    (line_query true 1).register_solution_from_optimal_mg 5 0 2 5 chain_graph
      = some (some steered_waypoints, query_after_steering) ∧
    (line_query true 1).register_solution_from_basic_mg 5 0 2 5 chain_graph
      = some (some steered_waypoints, query_after_basic_steering) ∧
    (1, 1, 2) ∈ steerable.optimal_traversed chain_graph 0 5 2 ∧
    (1, 1, 2) ∈ steerable.basic_traversed chain_graph 0 5 2 ∧
    (spliced_between chain_graph steered_waypoints (1, 1, 2) ∧
      ((chain_graph.steer_record 1).length ≤ 1 →
        ∃ front back, steered_waypoints =
          front ++ chain_graph.position 1 :: chain_graph.position 2 :: back)) ∧
    (spliced_between chain_graph steered_waypoints (1, 1, 2) ∧
      ((chain_graph.steer_record 1).length ≤ 1 →
        ∃ front back, steered_waypoints =
          front ++ chain_graph.position 1 :: chain_graph.position 2 :: back)) :=
  ⟨rfl, by rfl, by rfl, by decide, by decide,
    (steer_records_spliced_between_end_points 5 (line_query true 1) query_after_steering rfl
      chain_graph 0 2 5 steered_waypoints).1 (by rfl) (1, 1, 2) (by decide),
    (steer_records_spliced_between_end_points 5 (line_query true 1) query_after_basic_steering
      rfl chain_graph 0 2 5 steered_waypoints).2 (by rfl) (1, 1, 2) (by decide)⟩

end properties

/-! ## Walks that end at another root -/

section other_root

variable [LinearOrderedAddCommMonoidWithTop C]

/-- Where the walk `non_steerable.basic_walk` ends when the in-edges form the list `rs` (listed from
the vertex the walk starts at). -/
theorem basic_walk_end_ns (space : free_space C P) (g : any_graph C P) (stop e0 : Nat)
    (rs : List Nat) :
    ∀ (t : Nat) (k : C) (w : List P) (fuel : Nat), rs.head? = some t → rs.getLast? = some e0 →
      List.Chain' (fun v u => (g.in_edges v).head?.map g.source = some u ∧ v ≠ stop) rs →
      (e0 = stop ∨ g.in_edges e0 = []) →
      ∃ k1 w1, non_steerable.basic_walk space g stop fuel t k w =
        if rs.length ≤ fuel then some (e0, k1, w1) else none := by
  induction rs with
  | nil => intro t k w fuel h; cases h
  | cons t0 rs1 ih =>
    intro t k w fuel hh hl hc hend
    simp only [List.head?_cons, Option.some.injEq] at hh
    subst hh
    cases rs1 with
    | nil =>
      simp only [List.getLast?_singleton, Option.some.injEq] at hl
      subst hl
      refine ⟨k, w, ?_⟩
      cases fuel with
      | zero => simp [non_steerable.basic_walk]
      | succ n =>
        simp only [non_steerable.basic_walk]
        rcases hend with hs | hroot
        · split <;> simp [hs]
        · simp [hroot]
    | cons u rs2 =>
      obtain ⟨⟨hp, hne⟩, hc1⟩ := List.chain'_cons.mp hc
      cases fuel with
      | zero => exact ⟨k, w, by simp [non_steerable.basic_walk]⟩
      | succ n =>
        have hl1 : (u :: rs2).getLast? = some e0 := by
          rw [List.getLast?_cons_cons] at hl; exact hl
        cases hi : g.in_edges t0 with
        | nil => simp [hi] at hp
        | cons e es =>
          simp only [hi, List.head?_cons, Option.map_some', Option.some.injEq] at hp
          obtain ⟨k1, w1, hk1⟩ := ih u (k + space.distance_metric (g.position u) (g.position t0)) (g.position u :: w) n rfl hl1 hc1 hend
          refine ⟨k1, w1, ?_⟩
          simp only [non_steerable.basic_walk, hi, hne, if_false, hp, hk1]
          simp [Nat.succ_le_succ_iff]

/-- Where the walk `non_steerable.basic_walk_back` ends when the in-edges form the list `rs` (listed from
the vertex the walk starts at). -/
theorem basic_walk_back_end_ns (space : free_space C P) (g : any_graph C P) (stop e0 : Nat)
    (rs : List Nat) :
    ∀ (t : Nat) (k : C) (w : List P) (fuel : Nat), rs.head? = some t → rs.getLast? = some e0 →
      List.Chain' (fun v u => (g.in_edges v).head?.map g.source = some u ∧ v ≠ stop) rs →
      (e0 = stop ∨ g.in_edges e0 = []) →
      ∃ k1 w1, non_steerable.basic_walk_back space g stop fuel t k w =
        if rs.length ≤ fuel then some (e0, k1, w1) else none := by
  induction rs with
  | nil => intro t k w fuel h; cases h
  | cons t0 rs1 ih =>
    intro t k w fuel hh hl hc hend
    simp only [List.head?_cons, Option.some.injEq] at hh
    subst hh
    cases rs1 with
    | nil =>
      simp only [List.getLast?_singleton, Option.some.injEq] at hl
      subst hl
      refine ⟨k, w, ?_⟩
      cases fuel with
      | zero => simp [non_steerable.basic_walk_back]
      | succ n =>
        simp only [non_steerable.basic_walk_back]
        rcases hend with hs | hroot
        · split <;> simp [hs]
        · simp [hroot]
    | cons u rs2 =>
      obtain ⟨⟨hp, hne⟩, hc1⟩ := List.chain'_cons.mp hc
      cases fuel with
      | zero => exact ⟨k, w, by simp [non_steerable.basic_walk_back]⟩
      | succ n =>
        have hl1 : (u :: rs2).getLast? = some e0 := by
          rw [List.getLast?_cons_cons] at hl; exact hl
        cases hi : g.in_edges t0 with
        | nil => simp [hi] at hp
        | cons e es =>
          simp only [hi, List.head?_cons, Option.map_some', Option.some.injEq] at hp
          obtain ⟨k1, w1, hk1⟩ := ih u (k + space.distance_metric (g.position t0) (g.position u)) (w ++ [g.position u]) n rfl hl1 hc1 hend
          refine ⟨k1, w1, ?_⟩
          simp only [non_steerable.basic_walk_back, hi, hne, if_false, hp, hk1]
          simp [Nat.succ_le_succ_iff]

/-- Where the walk `steerable.basic_walk` ends when the in-edges form the list `rs` (listed from
the vertex the walk starts at). -/
theorem basic_walk_end_st (space : free_space C P) (g : any_graph C P) (stop e0 : Nat)
    (rs : List Nat) :
    ∀ (t : Nat) (k : C) (w : List P) (fuel : Nat), rs.head? = some t → rs.getLast? = some e0 →
      List.Chain' (fun v u => (g.in_edges v).head?.map g.source = some u ∧ v ≠ stop) rs →
      (e0 = stop ∨ g.in_edges e0 = []) →
      ∃ k1 w1, steerable.basic_walk space g stop fuel t k w =
        if rs.length ≤ fuel then some (e0, k1, w1) else none := by
  induction rs with
  | nil => intro t k w fuel h; cases h
  | cons t0 rs1 ih =>
    intro t k w fuel hh hl hc hend
    simp only [List.head?_cons, Option.some.injEq] at hh
    subst hh
    cases rs1 with
    | nil =>
      simp only [List.getLast?_singleton, Option.some.injEq] at hl
      subst hl
      refine ⟨k, w, ?_⟩
      cases fuel with
      | zero => simp [steerable.basic_walk]
      | succ n =>
        simp only [steerable.basic_walk]
        rcases hend with hs | hroot
        · split <;> simp [hs]
        · simp [hroot]
    | cons u rs2 =>
      obtain ⟨⟨hp, hne⟩, hc1⟩ := List.chain'_cons.mp hc
      cases fuel with
      | zero => exact ⟨k, w, by simp [steerable.basic_walk]⟩
      | succ n =>
        have hl1 : (u :: rs2).getLast? = some e0 := by
          rw [List.getLast?_cons_cons] at hl; exact hl
        cases hi : g.in_edges t0 with
        | nil => simp [hi] at hp
        | cons e es =>
          simp only [hi, List.head?_cons, Option.map_some', Option.some.injEq] at hp
          obtain ⟨k1, w1, hk1⟩ := ih u (k + space.distance_metric (g.position u) (g.position t0)) (g.position u :: push_front_steer_record (g.steer_record e) w) n rfl hl1 hc1 hend
          refine ⟨k1, w1, ?_⟩
          simp only [steerable.basic_walk, hi, hne, if_false, hp, hk1]
          simp [Nat.succ_le_succ_iff]

/-- Where the walk `steerable.basic_walk_back` ends when the in-edges form the list `rs` (listed from
the vertex the walk starts at). -/
theorem basic_walk_back_end_st (space : free_space C P) (g : any_graph C P) (stop e0 : Nat)
    (rs : List Nat) :
    ∀ (t : Nat) (k : C) (w : List P) (fuel : Nat), rs.head? = some t → rs.getLast? = some e0 →
      List.Chain' (fun v u => (g.in_edges v).head?.map g.source = some u ∧ v ≠ stop) rs →
      (e0 = stop ∨ g.in_edges e0 = []) →
      ∃ k1 w1, steerable.basic_walk_back space g stop fuel t k w =
        if rs.length ≤ fuel then some (e0, k1, w1) else none := by
  induction rs with
  | nil => intro t k w fuel h; cases h
  | cons t0 rs1 ih =>
    intro t k w fuel hh hl hc hend
    simp only [List.head?_cons, Option.some.injEq] at hh
    subst hh
    cases rs1 with
    | nil =>
      simp only [List.getLast?_singleton, Option.some.injEq] at hl
      subst hl
      refine ⟨k, w, ?_⟩
      cases fuel with
      | zero => simp [steerable.basic_walk_back]
      | succ n =>
        simp only [steerable.basic_walk_back]
        rcases hend with hs | hroot
        · split <;> simp [hs]
        · simp [hroot]
    | cons u rs2 =>
      obtain ⟨⟨hp, hne⟩, hc1⟩ := List.chain'_cons.mp hc
      cases fuel with
      | zero => exact ⟨k, w, by simp [steerable.basic_walk_back]⟩
      | succ n =>
        have hl1 : (u :: rs2).getLast? = some e0 := by
          rw [List.getLast?_cons_cons] at hl; exact hl
        cases hi : g.in_edges t0 with
        | nil => simp [hi] at hp
        | cons e es =>
          simp only [hi, List.head?_cons, Option.map_some', Option.some.injEq] at hp
          obtain ⟨k1, w1, hk1⟩ := ih u (k + space.distance_metric (g.position u) (g.position t0)) (push_back_steer_record (g.steer_record e) w ++ [g.position u]) n rfl hl1 hc1 hend
          refine ⟨k1, w1, ?_⟩
          simp only [steerable.basic_walk_back, hi, hne, if_false, hp, hk1]
          simp [Nat.succ_le_succ_iff]

end other_root

/-- The reversed list of an in-edge walk, as the walk lemmas want it. -/
theorem in_edge_walk_reverse_data (g : any_graph C P) (stop node e0 : Nat) (vs : List Nat)
    (h : in_edge_walk_ends g stop node e0 vs) :
    vs.reverse.head? = some node ∧ vs.reverse.getLast? = some e0 ∧
      List.Chain' (fun v u => (g.in_edges v).head?.map g.source = some u ∧ v ≠ stop)
        vs.reverse ∧
      (e0 = stop ∨ g.in_edges e0 = []) := by
  obtain ⟨hh, hl, hc, hend⟩ := h
  obtain ⟨rh, rl, rc⟩ := chain_reverse_data _ _ _ vs hh hl hc
  exact ⟨rh, rl, rc, hend⟩

/-- In `forest_graph` the walk of recorded predecessors that looks for vertex 0 never leaves
the root 3 of the other tree. -/
theorem optimal_walk_stuck_at_other_root (fuel : Nat) :
    ∀ w : List ℕ, non_steerable.optimal_walk forest_graph 0 fuel 3 w = none := by
  induction fuel with
  | zero => intro w; rfl
  | succ n ih =>
    intro w
    have h3 : forest_graph.predecessor 3 = 3 := by decide
    simp only [non_steerable.optimal_walk, h3]
    simpa using ih _

/-! ## The properties, continued -/

section registration_properties

variable [LinearOrderedAddCommMonoidWithTop C]

/-- C11: in a basic motion graph, when the in-edge walk from `goal_node` ends at a root other
than `start_node`, the single-tree registration returns (once the fuel covers the walk) the
null record and leaves the query as it was; the same holds for the joining registration when
the walk of either join vertex ends at a root other than the one expected. Nothing is stored. -/
theorem basic_registration_rejects_other_root (q : path_planning_p2p_query C P)
    (g g1 g2 : any_graph C P) (start_node goal_node join1_node join2_node : Nat) (d : C)
    (r e1 e2 : Nat) (vs as bs : List Nat) :
    (in_edge_walk_ends g start_node goal_node r vs → r ≠ start_node →
      (∀ fuel, vs.length ≤ fuel →
        q.register_solution_from_basic_mg fuel start_node goal_node d g = some (none, q)) ∧
      ∀ fuel res q1,
        q.register_solution_from_basic_mg fuel start_node goal_node d g = some (res, q1) →
        res = none ∧ q1 = q) ∧
    (in_edge_walk_ends g1 start_node join1_node e1 as →
      in_edge_walk_ends g2 goal_node join2_node e2 bs → (e1 ≠ start_node ∨ e2 ≠ goal_node) →
      (∀ fuel, as.length ≤ fuel → bs.length ≤ fuel →
        q.register_joining_point_from_basic_mg fuel start_node goal_node join1_node
          join2_node d g1 g2 = some (none, q)) ∧
      ∀ fuel res q1,
        q.register_joining_point_from_basic_mg fuel start_node goal_node join1_node
          join2_node d g1 g2 = some (res, q1) →
        res = none ∧ q1 = q) := by
  constructor
  · intro hwalk hr
    obtain ⟨rh, rl, rc, hend⟩ := in_edge_walk_reverse_data g _ _ _ vs hwalk
    have key : ∀ fuel, q.register_solution_from_basic_mg fuel start_node goal_node d g =
        if vs.length ≤ fuel then some (none, q) else none := by
      intro fuel
      simp only [path_planning_p2p_query.register_solution_from_basic_mg]
      split
      · obtain ⟨k1, w1, hk1⟩ := basic_walk_end_st q.space g start_node r vs.reverse goal_node d
          (steerable.goal_waypoints q.space g goal_node q.goal_pos d) fuel rh rl rc hend
        simp only [List.length_reverse] at hk1
        by_cases hf : vs.length ≤ fuel
        · simp only [steerable.register_basic_solution_path_impl, hk1, hf, if_true]
          simp [path_planning_p2p_query.commit, hr]
        · simp [steerable.register_basic_solution_path_impl, hk1, hf, path_planning_p2p_query.commit]
      · obtain ⟨k1, w1, hk1⟩ := basic_walk_end_ns q.space g start_node r vs.reverse goal_node d
          (non_steerable.goal_waypoints g goal_node q.goal_pos d) fuel rh rl rc hend
        simp only [List.length_reverse] at hk1
        by_cases hf : vs.length ≤ fuel
        · simp only [non_steerable.register_basic_solution_path_impl, hk1, hf, if_true]
          simp [path_planning_p2p_query.commit, hr]
        · simp [non_steerable.register_basic_solution_path_impl, hk1, hf, path_planning_p2p_query.commit]
    refine ⟨fun fuel hf => by rw [key fuel, if_pos hf], fun fuel res q1 h => ?_⟩
    rw [key fuel] at h
    split at h
    · simp only [Option.some.injEq, Prod.mk.injEq] at h
      exact ⟨h.1.symm, h.2.symm⟩
    · cases h
  · intro hwalk1 hwalk2 hr
    obtain ⟨ah, al, ac, aend⟩ := in_edge_walk_reverse_data g1 _ _ _ as hwalk1
    obtain ⟨bh, bl, bc, bend⟩ := in_edge_walk_reverse_data g2 _ _ _ bs hwalk2
    have hrej : ¬ (e1 = start_node ∧ e2 = goal_node ∧ True) := by tauto
    have key : ∀ fuel, q.register_joining_point_from_basic_mg fuel start_node goal_node
        join1_node join2_node d g1 g2 =
        if as.length ≤ fuel ∧ bs.length ≤ fuel then some (none, q) else none := by
      intro fuel
      simp only [path_planning_p2p_query.register_joining_point_from_basic_mg]
      split
      · obtain ⟨k1, w1, hk1⟩ := basic_walk_end_st q.space g1 start_node e1 as.reverse
          join1_node d (steerable.join_waypoints q.space g1 g2 join1_node join2_node d) fuel
          ah al ac aend
        obtain ⟨k2, w2, hk2⟩ := basic_walk_back_end_st q.space g2 goal_node e2 bs.reverse
          join2_node k1 (w1 ++ [g2.position join2_node]) fuel bh bl bc bend
        simp only [List.length_reverse] at hk1 hk2
        simp only [steerable.register_basic_solution_path_impl2, hk1]
        by_cases ha : as.length ≤ fuel
        · simp only [ha, if_true, hk2]
          by_cases hb : bs.length ≤ fuel
          · simp only [hb, if_true, and_self]
            rcases hr with h1 | h2
            · simp [path_planning_p2p_query.commit, h1]
            · simp [path_planning_p2p_query.commit, h2]
          · simp [hb, path_planning_p2p_query.commit]
        · simp [ha, path_planning_p2p_query.commit]
      · obtain ⟨k1, w1, hk1⟩ := basic_walk_end_ns q.space g1 start_node e1 as.reverse
          join1_node d [g1.position join1_node] fuel ah al ac aend
        obtain ⟨k2, w2, hk2⟩ := basic_walk_back_end_ns q.space g2 goal_node e2 bs.reverse
          join2_node k1 (w1 ++ [g2.position join2_node]) fuel bh bl bc bend
        simp only [List.length_reverse] at hk1 hk2
        simp only [non_steerable.register_basic_solution_path_impl2, hk1]
        by_cases ha : as.length ≤ fuel
        · simp only [ha, if_true, hk2]
          by_cases hb : bs.length ≤ fuel
          · simp only [hb, if_true, and_self]
            rcases hr with h1 | h2
            · simp [path_planning_p2p_query.commit, h1]
            · simp [path_planning_p2p_query.commit, h2]
          · simp [hb, path_planning_p2p_query.commit]
        · simp [ha, path_planning_p2p_query.commit]
    refine ⟨fun fuel hf1 hf2 => by rw [key fuel, if_pos ⟨hf1, hf2⟩], fun fuel res q1 h => ?_⟩
    rw [key fuel] at h
    split at h
    · simp only [Option.some.injEq, Prod.mk.injEq] at h
      exact ⟨h.1.symm, h.2.symm⟩
    · cases h

/-- In `forest_graph` the in-edge walk from vertex 5 that looks for vertex 0 ends at root 3. -/
theorem forest_graph_walk_ends_at_other_root :
    in_edge_walk_ends forest_graph 0 5 3 [3, 4, 5] := by
  simp [in_edge_walk_ends, forest_graph]

/-- In `chain_graph` the in-edge walk from vertex 1 ends at vertex 0. -/
theorem chain_graph_walk_ends_at_root : in_edge_walk_ends chain_graph 0 1 0 [0, 1] := by
  simp [in_edge_walk_ends, chain_graph]

/-- Witness of C11: in `forest_graph` the walk from vertex 5 ends at root 3, not at the start
node 0, and both the single-tree and the joining registration return the null record and leave
`query_with_solution` as it was. -/
theorem basic_registration_rejects_other_root_witness :
    in_edge_walk_ends forest_graph 0 5 3 [3, 4, 5] ∧ (3 : Nat) ≠ 0 ∧
    in_edge_walk_ends chain_graph 0 1 0 [0, 1] ∧
    query_with_solution.register_solution_from_basic_mg 3 0 5 1 forest_graph
      = some (none, query_with_solution) ∧
    query_with_solution.register_joining_point_from_basic_mg 3 0 0 5 1 1 forest_graph
      chain_graph = some (none, query_with_solution) :=
  ⟨forest_graph_walk_ends_at_other_root, by decide, chain_graph_walk_ends_at_root,
    ((basic_registration_rejects_other_root query_with_solution forest_graph forest_graph
      chain_graph 0 5 5 1 1 3 3 0 [3, 4, 5] [3, 4, 5] [0, 1]).1
      forest_graph_walk_ends_at_other_root (by decide)).1 3 (by decide),
    ((basic_registration_rejects_other_root query_with_solution forest_graph forest_graph
      chain_graph 0 0 5 1 1 3 3 0 [3, 4, 5] [3, 4, 5] [0, 1]).2
      forest_graph_walk_ends_at_other_root chain_graph_walk_ends_at_root
      (Or.inl (by decide))).1 3 (by decide) (by decide)⟩

end registration_properties

/-- C12 fails on the code: on `forest_graph` with `start_node = 0` and `goal_node = 5` (total
cost `4 + 5`, finite and improving on an empty solution map, predecessor chain `5, 4, 3, 3, ...`
without vertex 0) the optimal registration for a space that is not steerable does not return,
whatever the fuel: its predecessor walk does not end. -/
theorem optimal_registration_diverges_on_broken_chain (fuel : Nat) :
    (line_query false 1).register_solution_from_optimal_mg fuel 0 5 5 forest_graph = none := by
  have h5 : forest_graph.predecessor 5 = 4 := by decide
  have h4 : forest_graph.predecessor 4 = 3 := by decide
  have hacc : ¬ (¬ (forest_graph.distance_accum 5 + 5 < (⊤ : WithTop ℕ)) ∨
      no_better_than_best (forest_graph.distance_accum 5 + 5)
        (line_query false 1).solutions = true) := by decide
  have hwalk : ∀ w : List ℕ, non_steerable.optimal_walk forest_graph 0 fuel 5 w = none := by
    intro w
    cases fuel with
    | zero => rfl
    | succ n =>
      cases n with
      | zero => simp [non_steerable.optimal_walk]
      | succ m =>
        cases m with
        | zero => simp [non_steerable.optimal_walk, h5]
        | succ k =>
          simp only [non_steerable.optimal_walk, h5, h4]
          simpa using optimal_walk_stuck_at_other_root k _
  have hns : (line_query false 1).space.is_steerable_space = false := rfl
  simp only [path_planning_p2p_query.register_solution_from_optimal_mg, hns,
    Bool.false_eq_true, if_false, non_steerable.register_optimal_solution_path_impl, hacc,
    hwalk, path_planning_p2p_query.commit, Option.map_none']

/-- The steerable overload at the same input: its walk breaks off at the root 3, which has no
in-edge, and the call returns the null record. -/
theorem steerable_registration_returns_on_broken_chain :
    (line_query true 1).register_solution_from_optimal_mg 5 0 5 5 forest_graph
      = some (none, line_query true 1) := by
  rfl


section frame_properties

variable [LinearOrderedAddCommMonoidWithTop C]

/-- A call changes nothing in the query but the solution map. -/
theorem run_same_but_solutions (fuel : Nat) (q q1 : path_planning_p2p_query C P)
    (c : registration_call C P) (r : Option (List P)) (h : c.run fuel q = some (r, q1)) :
    same_but_solutions q q1 := by
  rcases run_cases fuel q q1 c r h with ⟨-, rfl⟩ | ⟨k, w, -, -, -, rfl⟩
  · exact ⟨rfl, rfl, rfl, rfl⟩
  · exact ⟨rfl, rfl, rfl, rfl⟩

/-- C13: each of the four registration entry points hands the motion graph(s) back as it
received them (positions, predecessors, accumulated distances, edges and steer records
included) and changes nothing in the query but its solution map. -/
theorem registration_leaves_graphs_unchanged (fuel : Nat) (q q1 : path_planning_p2p_query C P)
    (start_node goal_node join1_node join2_node : Nat) (d : C) (g g1 g2 ga gb : any_graph C P)
    (r : Option (List P)) :
    (q.register_solution_optimal fuel start_node goal_node d g = some (r, q1, ga) →
      ga = g ∧ same_but_solutions q q1) ∧
    (q.register_solution_basic fuel start_node goal_node d g = some (r, q1, ga) →
      ga = g ∧ same_but_solutions q q1) ∧
    (q.register_joining_point_optimal fuel start_node goal_node join1_node join2_node d g1 g2
        = some (r, q1, ga, gb) →
      ga = g1 ∧ gb = g2 ∧ same_but_solutions q q1) ∧
    (q.register_joining_point_basic fuel start_node goal_node join1_node join2_node d g1 g2
        = some (r, q1, ga, gb) →
      ga = g1 ∧ gb = g2 ∧ same_but_solutions q q1) := by
  refine ⟨?_, ?_, ?_, ?_⟩
  · intro h
    simp only [path_planning_p2p_query.register_solution_optimal, Option.map_eq_some',
      Prod.mk.injEq] at h
    obtain ⟨⟨r0, q0⟩, hrun, hr, hq, hg⟩ := h
    simp only at hr hq
    subst hr; subst hq
    exact ⟨hg.symm, run_same_but_solutions fuel q q0
      (registration_call.solution_optimal start_node goal_node d g) r0 hrun⟩
  · intro h
    simp only [path_planning_p2p_query.register_solution_basic, Option.map_eq_some',
      Prod.mk.injEq] at h
    obtain ⟨⟨r0, q0⟩, hrun, hr, hq, hg⟩ := h
    simp only at hr hq
    subst hr; subst hq
    exact ⟨hg.symm, run_same_but_solutions fuel q q0
      (registration_call.solution_basic start_node goal_node d g) r0 hrun⟩
  · intro h
    simp only [path_planning_p2p_query.register_joining_point_optimal, Option.map_eq_some',
      Prod.mk.injEq] at h
    obtain ⟨⟨r0, q0⟩, hrun, hr, hq, hg1, hg2⟩ := h
    simp only at hr hq
    subst hr; subst hq
    exact ⟨hg1.symm, hg2.symm, run_same_but_solutions fuel q q0
      (registration_call.joining_point_optimal start_node goal_node join1_node join2_node d
        g1 g2) r0 hrun⟩
  · intro h
    simp only [path_planning_p2p_query.register_joining_point_basic, Option.map_eq_some',
      Prod.mk.injEq] at h
    obtain ⟨⟨r0, q0⟩, hrun, hr, hq, hg1, hg2⟩ := h
    simp only at hr hq
    subst hr; subst hq
    exact ⟨hg1.symm, hg2.symm, run_same_but_solutions fuel q q0
      (registration_call.joining_point_basic start_node goal_node join1_node join2_node d
        g1 g2) r0 hrun⟩

/-- Witness of C13: the accepted registration of the chain `0 → 1 → 2` hands `chain_graph`
back and changes only the solution map of the query. -/
theorem registration_leaves_graphs_unchanged_witness :
    (line_query false 1).register_solution_optimal 5 0 2 5 chain_graph
      = some (some [0, 10, 20, 25], query_with_solution, chain_graph) ∧
    (chain_graph = chain_graph ∧ same_but_solutions (line_query false 1) query_with_solution) :=
  ⟨by rfl, (registration_leaves_graphs_unchanged 5 (line_query false 1) query_with_solution
    0 2 0 0 5 chain_graph chain_graph chain_graph chain_graph chain_graph
    (some [0, 10, 20, 25])).1 (by rfl)⟩

/-- C14: after `reset_solution_records()` the solution map is empty,
`get_best_solution_distance()` is `+∞`, `keep_going()` is true exactly when
`max_num_results > 0`, and `start_pos`, `goal_pos` and `max_num_results` are as before. -/
theorem reset_solution_records_clears (q : path_planning_p2p_query C P) :
    q.reset_solution_records.solutions = [] ∧
    q.reset_solution_records.get_best_solution_distance = ⊤ ∧
    (q.reset_solution_records.keep_going = true ↔ q.max_num_results > 0) ∧
    q.reset_solution_records.start_pos = q.start_pos ∧
    q.reset_solution_records.goal_pos = q.goal_pos ∧
    q.reset_solution_records.max_num_results = q.max_num_results := by
  refine ⟨rfl, ?_, ?_, rfl, rfl, rfl⟩
  · simp [path_planning_p2p_query.reset_solution_records,
      path_planning_p2p_query.get_best_solution_distance]
  · simp [path_planning_p2p_query.reset_solution_records,
      path_planning_p2p_query.keep_going]
end frame_properties

/-! ## The planner front end -/

/-- The generator `dispatched_make_call_to_planner` picks is bidirectional as asked and
prunes exactly when the pruning flag is set. -/
theorem dispatched_generator (K : option_constants) (CallBidir : Bool) (method_flags : Nat) :
    (dispatched_make_call_to_planner K CallBidir method_flags).is_bidirectional = CallBidir ∧
    ((dispatched_make_call_to_planner K CallBidir method_flags).is_branch_and_bound = true ↔
      method_flags &&& K.USE_BRANCH_AND_BOUND_PRUNING_FLAG ≠ 0) := by
  cases CallBidir <;>
    by_cases hf : method_flags &&& K.USE_BRANCH_AND_BOUND_PRUNING_FLAG = 0 <;>
    simp [dispatched_make_call_to_planner, hf, planner_generator.is_bidirectional,
      planner_generator.is_branch_and_bound]

section front_end_theorems

variable [LinearOrderedAddCommMonoidWithTop C]

/-- Every generator call of `solve_planning_query_impl` is a `make_call_to_planner` with the
dimensionality of the planner and the heuristic from the start position of the query. -/
theorem mem_solve_planning_query_impl (K : option_constants) (planner : rrtstar_planner C P)
    (IsBidirPlanner : Bool) (aQuery : any_planning_query C P) (inv : planner_invocation C P)
    (h : inv ∈ planner.solve_planning_query_impl K IsBidirPlanner aQuery) :
    ∃ factory, inv = make_call_to_planner K planner IsBidirPlanner factory
      planner.space_dimensionality (aQuery.get_heuristic_to_goal aQuery.get_start_position)
      aQuery := by
  simp only [rrtstar_planner.solve_planning_query_impl] at h
  split_ifs at h <;>
    first
    | exact absurd h (List.not_mem_nil _)
    | exact ⟨_, List.mem_singleton.mp h⟩

/-- The number of generator calls of `solve_planning_query_impl`. -/
theorem length_solve_planning_query_impl (K : option_constants) (planner : rrtstar_planner C P)
    (IsBidirPlanner : Bool) (aQuery : any_planning_query C P) [Decidable
      (supported_combination K planner.m_data_structure_flags)] :
    (planner.solve_planning_query_impl K IsBidirPlanner aQuery).length =
      if supported_combination K planner.m_data_structure_flags then 1 else 0 := by
  simp only [rrtstar_planner.solve_planning_query_impl, supported_combination]
  split_ifs <;> simp_all


/-- C15, amended: `solve_planning_query` calls exactly one planner generator when the
data-structure flags select a combination of storage and nearest-neighbor method that has a
branch in `solve_planning_query_impl`; for every other value of the flags it returns without
calling a generator (and without an error). It never calls more than one. -/
theorem solve_planning_query_runs_one_planner_iff_supported (K : option_constants)
    (planner : rrtstar_planner C P) (aQuery : any_planning_query C P) :
    ((planner.solve_planning_query K aQuery).length = 1 ↔
      supported_combination K planner.m_data_structure_flags) ∧
    (¬ supported_combination K planner.m_data_structure_flags →
      planner.solve_planning_query K aQuery = []) ∧
    (planner.solve_planning_query K aQuery).length ≤ 1 := by
  classical
  have hlen : ∀ b, (planner.solve_planning_query_impl K b aQuery).length =
      if supported_combination K planner.m_data_structure_flags then 1 else 0 :=
    fun b => length_solve_planning_query_impl K planner b aQuery
  have hsolve : (planner.solve_planning_query K aQuery).length =
      if supported_combination K planner.m_data_structure_flags then 1 else 0 := by
    simp only [rrtstar_planner.solve_planning_query]
    split <;> exact hlen _
  refine ⟨?_, ?_, ?_⟩
  · rw [hsolve]
    split <;> simp_all
  · intro hns
    rw [if_neg hns] at hsolve
    exact List.eq_nil_of_length_eq_zero hsolve
  · rw [hsolve]
    split <;> simp

/-- With the sample constants the data-structure flags 4 (adjacency list, `DVP_BF2_TREE_KNN`)
select a combination that has a branch. -/
theorem sample_flags_supported :
    supported_combination sample_constants (line_planner 4 3).m_data_structure_flags := by
  simp only [supported_combination, sample_constants, line_planner]
  decide

/-- Witness of C15, amended: with the data-structure flags 4 exactly one generator is
called. -/
theorem solve_planning_query_runs_one_planner_iff_supported_witness :
    supported_combination sample_constants (line_planner 4 3).m_data_structure_flags ∧
    ((line_planner 4 3).solve_planning_query sample_constants
      (line_query false 1).as_planning_query).length = 1 :=
  ⟨sample_flags_supported,
    (solve_planning_query_runs_one_planner_iff_supported sample_constants (line_planner 4 3)
      (line_query false 1).as_planning_query).1.mpr sample_flags_supported⟩

/-- C16: whenever `solve_planning_query` calls a generator, it is a bidirectional one exactly
when the planning-method flags masked by `PLANNING_DIRECTIONALITY_MASK` differ from
`UNIDIRECTIONAL_PLANNING` and the free space is reversible, and a branch-and-bound one
exactly when the flags have `USE_BRANCH_AND_BOUND_PRUNING_FLAG` set. -/
theorem planner_variant_determined_by_flags (K : option_constants)
    (planner : rrtstar_planner C P) (aQuery : any_planning_query C P)
    (inv : planner_invocation C P) (h : inv ∈ planner.solve_planning_query K aQuery) :
    (inv.generator.is_bidirectional = true ↔
      (planner.m_planning_method_flags &&& K.PLANNING_DIRECTIONALITY_MASK
          ≠ K.UNIDIRECTIONAL_PLANNING ∧ planner.is_reversible_space = true)) ∧
    (inv.generator.is_branch_and_bound = true ↔
      planner.m_planning_method_flags &&& K.USE_BRANCH_AND_BOUND_PRUNING_FLAG ≠ 0) := by
  have hgen := fun b f => dispatched_generator K b f
  simp only [rrtstar_planner.solve_planning_query] at h
  split at h
  · rename_i hd
    obtain ⟨factory, rfl⟩ := mem_solve_planning_query_impl K planner false aQuery inv h
    simp only [make_call_to_planner, Bool.false_and, hgen]
    simp [hd]
  · rename_i hd
    obtain ⟨factory, rfl⟩ := mem_solve_planning_query_impl K planner true aQuery inv h
    simp only [make_call_to_planner, Bool.true_and, hgen]
    simp [hd]

/-- C17: in every branch of `solve_planning_query_impl` the neighborhood selector handed to
the generator is constructed with the dimensionality of the space and with the radius cap
three times `get_heuristic_to_goal(get_start_position())` of the query being solved. -/
theorem selector_gets_dimension_and_heuristic_cap (K : option_constants)
    (planner : rrtstar_planner C P) (IsBidirPlanner : Bool) (aQuery : any_planning_query C P)
    (inv : planner_invocation C P)
    (h : inv ∈ planner.solve_planning_query_impl K IsBidirPlanner aQuery) :
    inv.space_dim = planner.space_dimensionality ∧
    inv.max_radius = 3 • aQuery.get_heuristic_to_goal aQuery.get_start_position := by
  obtain ⟨factory, rfl⟩ := mem_solve_planning_query_impl K planner IsBidirPlanner aQuery inv h
  exact ⟨rfl, rfl⟩

end front_end_theorems

/-- Counterexample to C15 as stated: with the sample constants (both build switches on) and
the data-structure flags `DVP_ADJ_LIST_MOTION_GRAPH | LINEAR_SEARCH_KNN`, the call of
`solve_planning_query` returns without having called any generator. -/
theorem solve_planning_query_runs_no_planner :
    (line_planner 1 0).solve_planning_query sample_constants
      (line_query false 1).as_planning_query = [] := by
  rfl

/-- Counterexample to C18 as stated: two queries with the same start position, one of them a
point-to-point query, give different vertex sets and different visitor goal nodes. -/
theorem init_motion_graph_depends_on_query_variant :
    other_query.get_start_position
      = (line_query false 1).as_planning_query.get_start_position ∧
    (init_motion_graph [] planning_visitor.fresh other_query).1 = [0] ∧
    (init_motion_graph [] planning_visitor.fresh
      (line_query false 1).as_planning_query).1 = [0, 25] ∧
    (init_motion_graph [] planning_visitor.fresh other_query).2.m_goal_node = none ∧
    (init_motion_graph [] planning_visitor.fresh
      (line_query false 1).as_planning_query).2.m_goal_node = some 1 :=
  ⟨rfl, rfl, rfl, rfl, rfl⟩

/-- C18, amended: `init_motion_graph` depends on the query only through its start position
and, for a point-to-point query, its goal position: two queries with the same start position
that are both no point-to-point queries, or both point-to-point queries with the same goal
position, give the same vertices and the same visitor state. -/
theorem init_motion_graph_depends_on_start_and_goal (motion_graph : List P)
    (vis : planning_visitor) (q1 q2 : any_planning_query C P)
    (hs : q1.get_start_position = q2.get_start_position)
    (hg : q1.castTo_p2p.map (fun p => p.goal_pos) = q2.castTo_p2p.map (fun p => p.goal_pos)) :
    init_motion_graph motion_graph vis q1 = init_motion_graph motion_graph vis q2 := by
  cases h1 : q1.castTo_p2p with
  | none =>
    cases h2 : q2.castTo_p2p with
    | none => simp [init_motion_graph, h1, h2, hs]
    | some p2 => simp [h1, h2] at hg
  | some p1 =>
    cases h2 : q2.castTo_p2p with
    | none => simp [h1, h2] at hg
    | some p2 =>
      simp only [h1, h2, Option.map_some', Option.some.injEq] at hg
      simp [init_motion_graph, h1, h2, hs, hg]

/-- Witness of C18, amended: two point-to-point queries from 0 to 25 that differ in the space
and in the number of results wanted. -/
theorem init_motion_graph_depends_on_start_and_goal_witness :
    (line_query false 1).as_planning_query.get_start_position
      = (line_query true 3).as_planning_query.get_start_position ∧
    (line_query false 1).as_planning_query.castTo_p2p.map (fun p => p.goal_pos)
      = (line_query true 3).as_planning_query.castTo_p2p.map (fun p => p.goal_pos) ∧
    init_motion_graph [] planning_visitor.fresh (line_query false 1).as_planning_query
      = init_motion_graph [] planning_visitor.fresh (line_query true 3).as_planning_query :=
  ⟨rfl, rfl, init_motion_graph_depends_on_start_and_goal [] planning_visitor.fresh
    (line_query false 1).as_planning_query (line_query true 3).as_planning_query rfl rfl⟩

/-- Witness of C16: with the planning-method flags 3 (bidirectional, pruning) in a reversible
space the generator called is `generate_bnb_rrt_star_bidir`. -/
theorem planner_variant_determined_by_flags_witness :
    (∃ inv, inv ∈ (line_planner 4 3).solve_planning_query sample_constants
        (line_query false 1).as_planning_query ∧
      inv.generator = planner_generator.generate_bnb_rrt_star_bidir) ∧
    ∀ inv ∈ (line_planner 4 3).solve_planning_query sample_constants
        (line_query false 1).as_planning_query,
      (inv.generator.is_bidirectional = true ↔
        ((line_planner 4 3).m_planning_method_flags
            &&& sample_constants.PLANNING_DIRECTIONALITY_MASK
            ≠ sample_constants.UNIDIRECTIONAL_PLANNING ∧
          (line_planner 4 3).is_reversible_space = true)) ∧
      (inv.generator.is_branch_and_bound = true ↔
        (line_planner 4 3).m_planning_method_flags
          &&& sample_constants.USE_BRANCH_AND_BOUND_PRUNING_FLAG ≠ 0) :=
  ⟨⟨_, List.mem_singleton.mpr rfl, rfl⟩,
    fun inv h => planner_variant_determined_by_flags sample_constants (line_planner 4 3)
      (line_query false 1).as_planning_query inv h⟩

/-- Witness of C17: on the line from 0 to 25 the selector gets dimension 1 and the cap 75. -/
theorem selector_gets_dimension_and_heuristic_cap_witness :
    (∃ inv, inv ∈ (line_planner 4 3).solve_planning_query_impl sample_constants true
        (line_query false 1).as_planning_query ∧ inv.space_dim = 1 ∧ inv.max_radius = 75) ∧
    ∀ inv ∈ (line_planner 4 3).solve_planning_query_impl sample_constants true
        (line_query false 1).as_planning_query,
      inv.space_dim = (line_planner 4 3).space_dimensionality ∧
      inv.max_radius = 3 • (line_query false 1).as_planning_query.get_heuristic_to_goal
        (line_query false 1).as_planning_query.get_start_position :=
  ⟨⟨_, List.mem_singleton.mpr rfl, rfl, by decide⟩,
    fun inv h => selector_gets_dimension_and_heuristic_cap sample_constants (line_planner 4 3)
      true (line_query false 1).as_planning_query inv h⟩


/-! ## Cubic Hermite interpolation -/

section interpolation_theorems
variable {K P0 P1 D0 D1 V : Type} [LinearOrderedField K]
variable [AddCommGroup D0] [Module K D0] [AddCommGroup D1] [Module K D1]
variable [AddCommGroup V] [Module K V]

/-- C19: `cubic_hermite_interpolate(a, b, t, space)` raises `singularity_error` exactly when
`|b.time - a.time|` is below the machine epsilon, whatever `t`; otherwise it returns a point
whose time is `t`. -/
theorem cubic_hermite_interpolate_singularity_iff (a b : temporal_point K P0 P1) (t : K)
    (space : differentiable_space K P0 P1 D0 D1) :
    (cubic_hermite_interpolate a b t space = Except.error interpolation_error.singularity_error
      ↔ |b.time - a.time| < numeric_limits_epsilon K) ∧
    (¬ |b.time - a.time| < numeric_limits_epsilon K →
      ∃ r, cubic_hermite_interpolate a b t space = Except.ok r ∧ r.time = t) := by
  constructor
  · constructor
    · intro h
      by_contra hn
      simp [cubic_hermite_interpolate, hn] at h
    · intro h
      simp [cubic_hermite_interpolate, h]
  · intro hn
    simp only [cubic_hermite_interpolate, hn, if_false]
    exact ⟨_, rfl, rfl⟩

/-- Witness of C19: between the sample points (time span 2) the interpolation returns a point
at the time asked for, and between a point and itself it raises the singularity error. -/
theorem cubic_hermite_interpolate_singularity_iff_witness :
    ¬ |sample_point_b.time - sample_point_a.time| < numeric_limits_epsilon ℚ ∧
    (∃ r, cubic_hermite_interpolate sample_point_a sample_point_b 1
        (vector_space_topology ℚ ℚ) = Except.ok r ∧ r.time = 1) ∧
    |sample_point_a.time - sample_point_a.time| < numeric_limits_epsilon ℚ ∧
    cubic_hermite_interpolate sample_point_a sample_point_a 1 (vector_space_topology ℚ ℚ)
      = Except.error interpolation_error.singularity_error :=
  ⟨by norm_num [sample_point_a, sample_point_b, numeric_limits_epsilon],
    (cubic_hermite_interpolate_singularity_iff sample_point_a sample_point_b 1
      (vector_space_topology ℚ ℚ)).2
      (by norm_num [sample_point_a, sample_point_b, numeric_limits_epsilon]),
    by norm_num [sample_point_a, numeric_limits_epsilon],
    (cubic_hermite_interpolate_singularity_iff sample_point_a sample_point_a 1
      (vector_space_topology ℚ ℚ)).1.mpr (by norm_num [sample_point_a, numeric_limits_epsilon])⟩

/-- The machine epsilon is positive. -/
theorem numeric_limits_epsilon_pos : 0 < numeric_limits_epsilon K := by
  unfold numeric_limits_epsilon
  positivity

/-- C20: in the vector-space topology, for `a` and `b` with a time span that is not
degenerate, the interpolation at `t = a.time` returns the position and velocity of `a`, and at
`t = b.time` those of `b`. -/
theorem cubic_hermite_interpolate_end_points (a b : temporal_point K V V)
    (h : ¬ |b.time - a.time| < numeric_limits_epsilon K) :
    cubic_hermite_interpolate a b a.time (vector_space_topology K V) = Except.ok a ∧
    cubic_hermite_interpolate a b b.time (vector_space_topology K V) = Except.ok b := by
  have hne : b.time - a.time ≠ 0 := by
    intro h0
    apply h
    rw [h0, abs_zero]
    exact numeric_limits_epsilon_pos
  obtain ⟨ta, pa, va⟩ := a
  obtain ⟨tb, pb, vb⟩ := b
  simp only at h hne
  constructor
  · simp only [cubic_hermite_interpolate, h, if_false, sub_self, zero_div,
      detail.cubic_hermite_interpolate_impl, vector_space_topology]
    simp
  · simp only [cubic_hermite_interpolate, h, if_false, div_self hne,
      detail.cubic_hermite_interpolate_impl, vector_space_topology]
    norm_num

/-- Witness of C20: the sample points at times 0 and 2 are reproduced at their own times. -/
theorem cubic_hermite_interpolate_end_points_witness :
    ¬ |sample_point_b.time - sample_point_a.time| < numeric_limits_epsilon ℚ ∧
    cubic_hermite_interpolate sample_point_a sample_point_b sample_point_a.time
      (vector_space_topology ℚ ℚ) = Except.ok sample_point_a ∧
    cubic_hermite_interpolate sample_point_a sample_point_b sample_point_b.time
      (vector_space_topology ℚ ℚ) = Except.ok sample_point_b :=
  ⟨by norm_num [sample_point_a, sample_point_b, numeric_limits_epsilon],
    cubic_hermite_interpolate_end_points sample_point_a sample_point_b
      (by norm_num [sample_point_a, sample_point_b, numeric_limits_epsilon])⟩

end interpolation_theorems

/-! ## The history of a solution set, and the basic against the optimal registrations -/

section history_theorems

variable [LinearOrderedAddCommMonoidWithTop C]

/-- The best distance after an entry was stored in front is the key of that entry. -/
theorem best_after_accept (q : path_planning_p2p_query C P) (k : C) (w : List P) :
    ({ q with solutions := (k, w) :: q.solutions } :
      path_planning_p2p_query C P).get_best_solution_distance = k := by
  simp [path_planning_p2p_query.get_best_solution_distance]

/-- On a solution set that is not empty the acceptance test compares with the best distance. -/
theorem lt_best_of_improves (q : path_planning_p2p_query C P) (k : C)
    (hne : q.solutions ≠ []) (h : improves_on_best k q.solutions = true) :
    k < q.get_best_solution_distance := by
  cases hs : q.solutions with
  | nil => exact absurd hs hne
  | cons e rest =>
    obtain ⟨k0, v0⟩ := e
    rw [hs] at h
    simp only [improves_on_best, decide_eq_true_eq] at h
    simpa [path_planning_p2p_query.get_best_solution_distance, hs] using h

/-- The accepted totals of a sequence of calls are strictly decreasing, and all below the best
distance the sequence started with. -/
theorem accepted_costs_decreasing (fuel : Nat) (cs : List (registration_call C P)) :
    ∀ (q : path_planning_p2p_query C P) (l : List C), accepted_costs fuel q cs = some l →
      l.Pairwise (fun a b => b < a) ∧
      (q.solutions ≠ [] → ∀ k ∈ l, k < q.get_best_solution_distance) := by
  induction cs with
  | nil =>
    intro q l h
    simp only [accepted_costs, Option.some.injEq] at h
    subst h
    exact ⟨List.Pairwise.nil, fun _ k hk => by cases hk⟩
  | cons c cs ih =>
    intro q l h
    unfold accepted_costs at h
    split at h
    · exact absurd h (by simp)
    · rename_i q1 hrun
      rcases run_cases fuel q q1 c none hrun with ⟨-, hq⟩ | ⟨k, w, -, -, hr, -⟩
      · rw [hq] at h
        exact ih q l h
      · cases hr
    · rename_i w q1 hrun
      rcases run_cases fuel q q1 c (some w) hrun with ⟨hr, -⟩ | ⟨k, w1, hk, himp, -, rfl⟩
      · cases hr
      · rw [hk] at h
        split at h
        · rename_i k1 l1 hk1 hl1
          simp only [Option.some.injEq] at hk1 h
          subst hk1
          subst h
          obtain ⟨hp, hb⟩ := ih _ l1 hl1
          have hb1 := hb (by simp)
          rw [best_after_accept] at hb1
          refine ⟨List.pairwise_cons.mpr ⟨hb1, hp⟩, ?_⟩
          intro hne k2 hk2
          have hlt := lt_best_of_improves q k hne himp
          rcases List.mem_cons.mp hk2 with rfl | hk2
          · exact hlt
          · exact lt_trans (hb1 k2 hk2) hlt
        · exact absurd h (by simp)

/-- C23: when a registration entry point (any of the four) accepts a candidate on a solution
set that is not empty, the total of the candidate is strictly below the best distance before the
call and is the best distance after it; hence the totals of the accepted calls of any sequence of
calls, in the order in which they were stored, are strictly decreasing. -/
theorem accepted_candidate_becomes_strict_best (fuel : Nat)
    (q q1 q0 : path_planning_p2p_query C P) (c : registration_call C P) (w : List P)
    (cs : List (registration_call C P)) (l : List C) :
    (c.run fuel q = some (some w, q1) → q.solutions ≠ [] →
      ∃ k, c.total_dist fuel q = some k ∧ k < q.get_best_solution_distance ∧
        q1.get_best_solution_distance = k) ∧
    (accepted_costs fuel q0 cs = some l → l.Pairwise (fun a b => b < a)) := by
  refine ⟨fun h hne => ?_, fun h => (accepted_costs_decreasing fuel cs q0 l h).1⟩
  rcases run_cases fuel q q1 c (some w) h with ⟨hr, -⟩ | ⟨k, w1, hk, himp, -, rfl⟩
  · cases hr
  · exact ⟨k, hk, lt_best_of_improves q k hne himp, best_after_accept q k w1⟩


/-- The basic walk down a cost-consistent chain adds up the difference of the accumulated
distances of its end points. -/
theorem basic_walk_along_consistent_chain (space : free_space C P) (g : any_graph C P) (s : Nat)
    (rs : List Nat) :
    ∀ (t : Nat) (k : C) (rest : List P) (fuel : Nat), rs.head? = some t → rs.getLast? = some s →
      List.Chain' (fun v u => g.predecessor v = u ∧
        (g.in_edges v).head?.map g.source = some u ∧ v ≠ s ∧
        g.distance_accum v
          = g.distance_accum u + space.distance_metric (g.position u) (g.position v)) rs →
      ∃ k1, k1 + g.distance_accum s = k + g.distance_accum t ∧
        non_steerable.basic_walk space g s fuel t k (g.position t :: rest) =
          if rs.length ≤ fuel then some (s, k1, rs.reverse.map g.position ++ rest) else none := by
  induction rs with
  | nil => intro t k rest fuel h; cases h
  | cons t0 rs1 ih =>
    intro t k rest fuel hh hl hc
    simp only [List.head?_cons, Option.some.injEq] at hh
    subst hh
    cases rs1 with
    | nil =>
      simp only [List.getLast?_singleton, Option.some.injEq] at hl
      subst hl
      refine ⟨k, rfl, ?_⟩
      cases fuel with
      | zero => simp [non_steerable.basic_walk]
      | succ n =>
        simp only [non_steerable.basic_walk]
        split <;> simp
    | cons u rs2 =>
      obtain ⟨⟨-, hp, hne, hacc⟩, hc1⟩ := List.chain'_cons.mp hc
      have hl1 : (u :: rs2).getLast? = some s := by
        rw [List.getLast?_cons_cons] at hl; exact hl
      cases hi : g.in_edges t0 with
      | nil => simp [hi] at hp
      | cons e es =>
        simp only [hi, List.head?_cons, Option.map_some', Option.some.injEq] at hp
        cases fuel with
        | zero =>
          obtain ⟨k1, hk1, -⟩ := ih u
            (k + space.distance_metric (g.position u) (g.position t0))
            (g.position t0 :: rest) 0 rfl hl1 hc1
          refine ⟨k1, ?_, by simp [non_steerable.basic_walk]⟩
          rw [hk1, hacc, add_assoc, add_comm (space.distance_metric _ _)]
        | succ n =>
          obtain ⟨k1, hk1, hw1⟩ := ih u
            (k + space.distance_metric (g.position u) (g.position t0))
            (g.position t0 :: rest) n rfl hl1 hc1
          refine ⟨k1, ?_, ?_⟩
          · rw [hk1, hacc, add_assoc, add_comm (space.distance_metric _ _)]
          · simp only [non_steerable.basic_walk, hi, hne, if_false, hp, hw1]
            simp [Nat.succ_le_succ_iff]

/-- C25, amended: in a space that is not steerable, on a chain of a cost-consistent tree that
leads from its root `start_node` (of cost zero) to `goal_node`, with a finite total cost and an
empty solution set, the basic and the optimal single-tree registrations return the same thing
for every fuel, and once the fuel covers the chain both accept and store the same waypoints under
the same total cost. -/
theorem basic_and_optimal_extraction_agree_from_root (q : path_planning_p2p_query C P)
    (g : any_graph C P) (start_node goal_node : Nat) (goal_distance : C) (vs : List Nat)
    (hq : q.space.is_steerable_space = false) (hempty : q.solutions = [])
    (hc : is_cost_consistent_chain q.space g start_node goal_node vs)
    (hfin : g.distance_accum goal_node + goal_distance < ⊤) :
    (∀ fuel, q.register_solution_from_basic_mg fuel start_node goal_node goal_distance g
      = q.register_solution_from_optimal_mg fuel start_node goal_node goal_distance g) ∧
    ∀ fuel, vs.length ≤ fuel →
      q.register_solution_from_optimal_mg fuel start_node goal_node goal_distance g
        = some (some (vs.map g.position ++ (if 0 < goal_distance then [q.goal_pos] else [])),
          { q with solutions := [(g.distance_accum goal_node + goal_distance,
            vs.map g.position ++ (if 0 < goal_distance then [q.goal_pos] else []))] }) := by
  obtain ⟨hh, hl, h0, hch⟩ := hc
  obtain ⟨rh, rl, rc⟩ := chain_reverse_data _ _ _ vs hh hl hch
  have hpc : List.Chain' (fun v u => g.predecessor v = u ∧ v ≠ start_node) vs.reverse :=
    rc.imp (fun _ _ h => ⟨h.1, h.2.2.1⟩)
  have hopt := fun fuel => optimal_walk_along_chain g start_node vs.reverse goal_node
    (if 0 < goal_distance then [q.goal_pos] else []) fuel rh rl hpc
  have hbas := fun fuel => basic_walk_along_consistent_chain q.space g start_node vs.reverse
    goal_node goal_distance (if 0 < goal_distance then [q.goal_pos] else []) fuel rh rl rc
  simp only [List.reverse_reverse, List.length_reverse] at hopt hbas
  have hO : ∀ fuel,
      q.register_solution_from_optimal_mg fuel start_node goal_node goal_distance g
        = if vs.length ≤ fuel then
          some (some (vs.map g.position ++ (if 0 < goal_distance then [q.goal_pos] else [])),
            { q with solutions := [(g.distance_accum goal_node + goal_distance,
              vs.map g.position ++ (if 0 < goal_distance then [q.goal_pos] else []))] })
          else none := by
    intro fuel
    by_cases hf : vs.length ≤ fuel <;>
    simp [path_planning_p2p_query.register_solution_from_optimal_mg, hq,
      path_planning_p2p_query.commit,
      non_steerable.register_optimal_solution_path_impl, non_steerable.goal_waypoints,
      hopt fuel, hempty, no_better_than_best, hfin, hf, map_assign]
  refine ⟨fun fuel => ?_, fun fuel hf => by rw [hO fuel, if_pos hf]⟩
  rw [hO fuel]
  obtain ⟨k1, hk1, hw⟩ := hbas fuel
  rw [h0, add_zero, add_comm] at hk1
  subst hk1
  by_cases hf : vs.length ≤ fuel <;>
  simp [path_planning_p2p_query.register_solution_from_basic_mg, hq,
    path_planning_p2p_query.commit,
    non_steerable.register_basic_solution_path_impl, non_steerable.goal_waypoints,
    hw, hempty, improves_on_best, hf, map_assign]

end history_theorems

/-- Witness of C23: on `query_with_solution` (best distance 9) the optimal registration of
vertex 1 with goal distance 1 is accepted with total 3, and the accepted totals of three calls on
a fresh query are 9 and 3. -/
theorem accepted_candidate_becomes_strict_best_witness :
    (registration_call.solution_optimal 0 1 1 chain_graph).run 5 query_with_solution
      = some (some [0, 10, 25], query_with_two_solutions) ∧
    query_with_solution.solutions ≠ [] ∧
    accepted_costs 5 (line_query false 1)
      [registration_call.solution_optimal 0 2 5 chain_graph,
        registration_call.solution_basic 0 2 5 chain_graph,
        registration_call.solution_optimal 0 1 1 chain_graph] = some [9, 3] ∧
    (∃ k, (registration_call.solution_optimal 0 1 1 chain_graph).total_dist 5
        query_with_solution = some k ∧ k < query_with_solution.get_best_solution_distance ∧
      query_with_two_solutions.get_best_solution_distance = k) ∧
    ([9, 3] : List (WithTop ℕ)).Pairwise (fun a b => b < a) :=
  ⟨by rfl, by decide, by rfl,
    (accepted_candidate_becomes_strict_best 5 query_with_solution query_with_two_solutions
      (line_query false 1) (registration_call.solution_optimal 0 1 1 chain_graph) [0, 10, 25]
      [registration_call.solution_optimal 0 2 5 chain_graph,
        registration_call.solution_basic 0 2 5 chain_graph,
        registration_call.solution_optimal 0 1 1 chain_graph] [9, 3]).1 (by rfl) (by decide),
    (accepted_candidate_becomes_strict_best 5 query_with_solution query_with_two_solutions
      (line_query false 1) (registration_call.solution_optimal 0 1 1 chain_graph) [0, 10, 25]
      [registration_call.solution_optimal 0 2 5 chain_graph,
        registration_call.solution_basic 0 2 5 chain_graph,
        registration_call.solution_optimal 0 1 1 chain_graph] [9, 3]).2 (by rfl)⟩

/-- C24, evaluated at the failing input: on a fresh query the basic registrations (single tree,
in both kinds of space, and joining point) accept a candidate whose distance argument is `+∞` and
store it under the key `+∞`, after which the best distance is still `+∞` and `keep_going()`
answers false; the optimal registration rejects the same candidate. -/
theorem basic_registration_stores_infinite_cost :
    ((line_query false 1).register_solution_from_basic_mg 5 0 2 ⊤ chain_graph).map
        (fun r => (r.1, r.2.solutions, r.2.get_best_solution_distance, r.2.keep_going))
      = some (some [0, 10, 20, 25], [(⊤, [0, 10, 20, 25])], ⊤, false) ∧
    ((line_query true 1).register_solution_from_basic_mg 5 0 2 ⊤ chain_graph).map
        (fun r => (r.1, r.2.solutions))
      = some (some steered_waypoints, [(⊤, steered_waypoints)]) ∧
    ((line_query false 1).register_joining_point_from_basic_mg 5 0 0 2 1 ⊤ chain_graph
        chain_graph).map (fun r => (r.1, r.2.solutions))
      = some (some [0, 10, 20, 10, 0], [(⊤, [0, 10, 20, 10, 0])]) ∧
    ((line_query false 1).register_solution_from_optimal_mg 5 0 2 ⊤ chain_graph).map
        (fun r => (r.1, r.2.solutions)) = some (none, []) := by
  refine ⟨?_, ?_, ?_, ?_⟩ <;> rfl

/-- The chain `0, 1, 2` of `metric_chain_graph` is cost-consistent for the distance of
`line_space`. -/
theorem metric_chain_graph_consistent :
    is_cost_consistent_chain (line_query false 1).space metric_chain_graph 0 2 [0, 1, 2] := by
  simp [is_cost_consistent_chain, metric_chain_graph, chain_graph, line_query, line_space,
    path_planning_p2p_query.mk_query]
  rfl

/-- Counterexample to C25 as stated: on the cost-consistent tree `metric_chain_graph`, from the
same empty solution set, the extraction from vertex 2 back to the start node 1 with goal distance
5 gets the total 15 from the basic registration and the total 25 from the optimal one; and back
to the root 0 with goal distance `+∞` the basic registration accepts while the optimal one
rejects. -/
theorem basic_and_optimal_extraction_differ :
    ((line_query false 1).register_solution_from_basic_mg 5 1 2 5 metric_chain_graph).map
        (fun r => (r.1, r.2.solutions)) = some (some [10, 20, 25], [(15, [10, 20, 25])]) ∧
    ((line_query false 1).register_solution_from_optimal_mg 5 1 2 5 metric_chain_graph).map
        (fun r => (r.1, r.2.solutions)) = some (some [10, 20, 25], [(25, [10, 20, 25])]) ∧
    ((line_query false 1).register_solution_from_basic_mg 5 0 2 ⊤ metric_chain_graph).map
        (fun r => (r.1, r.2.solutions))
      = some (some [0, 10, 20, 25], [(⊤, [0, 10, 20, 25])]) ∧
    ((line_query false 1).register_solution_from_optimal_mg 5 0 2 ⊤ metric_chain_graph).map
        (fun r => (r.1, r.2.solutions)) = some (none, []) := by
  refine ⟨?_, ?_, ?_, ?_⟩ <;> rfl

/-- Witness of C25, amended: on `metric_chain_graph` the chain `0, 1, 2` with goal distance 5
gives the waypoints `0, 10, 20, 25` under the total 25 from both registrations. -/
theorem basic_and_optimal_extraction_agree_from_root_witness :
    (line_query false 1).space.is_steerable_space = false ∧
    (line_query false 1).solutions = [] ∧
    is_cost_consistent_chain (line_query false 1).space metric_chain_graph 0 2 [0, 1, 2] ∧
    metric_chain_graph.distance_accum 2 + 5 < ⊤ ∧
    (line_query false 1).register_solution_from_basic_mg 5 0 2 5 metric_chain_graph
      = (line_query false 1).register_solution_from_optimal_mg 5 0 2 5 metric_chain_graph ∧
    (line_query false 1).register_solution_from_optimal_mg 5 0 2 5 metric_chain_graph
      = some (some ([0, 1, 2].map metric_chain_graph.position ++
          (if (0 : WithTop ℕ) < 5 then [(line_query false 1).goal_pos] else [])),
        { line_query false 1 with solutions := [(metric_chain_graph.distance_accum 2 + 5,
          [0, 1, 2].map metric_chain_graph.position ++
            (if (0 : WithTop ℕ) < 5 then [(line_query false 1).goal_pos] else []))] }) :=
  ⟨rfl, rfl, metric_chain_graph_consistent, by decide,
    (basic_and_optimal_extraction_agree_from_root (line_query false 1) metric_chain_graph 0 2 5
      [0, 1, 2] rfl rfl metric_chain_graph_consistent (by decide)).1 5,
    (basic_and_optimal_extraction_agree_from_root (line_query false 1) metric_chain_graph 0 2 5
      [0, 1, 2] rfl rfl metric_chain_graph_consistent (by decide)).2 5 (by decide)⟩

/-- C26, evaluated at the failing input: with the distance of `directed_space`, which is not
symmetric, the basic joining-point registration of the same trees and join vertices adds up the
total 33 in the steerable space and the total 23 in the space that is not steerable, and stores
the solution under these different keys: on the edge of the second tree the steerable overload
takes the distance from the parent to the child, the other overload from the child to the
parent. -/
theorem basic_joining_totals_differ_on_directed_distance :
    (registration_call.joining_point_basic 0 0 2 1 3 chain_graph chain_graph).total_dist 5
        (directed_query true 1) = some 33 ∧
    (registration_call.joining_point_basic 0 0 2 1 3 chain_graph chain_graph).total_dist 5
        (directed_query false 1) = some 23 ∧
    (((registration_call.joining_point_basic 0 0 2 1 3 chain_graph chain_graph).run 5
        (directed_query true 1)).map (fun r => r.2.solutions.map Prod.fst)) = some [33] ∧
    (((registration_call.joining_point_basic 0 0 2 1 3 chain_graph chain_graph).run 5
        (directed_query false 1)).map (fun r => r.2.solutions.map Prod.fst)) = some [23] := by
  refine ⟨?_, ?_, ?_, ?_⟩ <;> rfl

/-! ## The averaging of the end-effector outputs -/

section free_floater_theorems
variable {K R : Type} [LinearOrderedField K]

/-- The loop keeps a running mean: when a member of the frame is the mean of the `i` outputs
visited so far and a step maps it to `(i * x + out) / (i + 1)`, the member is in the end the mean
of all outputs. -/
theorem average_loop_mean {V : Type} [AddCommGroup V] [Module K V] (ops : rot_mat_2D_ops K R)
    (f : frame_2D K R → V)
    (hstep : ∀ i fr out, f (average_step ops i fr out)
      = (((i + 1 : Nat) : K))⁻¹ • ((i : K) • f fr + f out))
    (rest : List (frame_2D K R)) :
    ∀ (i : Nat) (fr : frame_2D K R) (S : V), 0 < i → f fr = ((i : K))⁻¹ • S →
      f (average_loop ops i fr rest)
        = (((i + rest.length : Nat) : K))⁻¹ • (S + (rest.map f).sum) := by
  induction rest with
  | nil =>
    intro i fr S _ hfr
    simpa [average_loop] using hfr
  | cons out rest ih =>
    intro i fr S hi hfr
    have hi0 : (i : K) ≠ 0 := Nat.cast_ne_zero.mpr (Nat.pos_iff_ne_zero.mp hi)
    have h1 : f (average_step ops i fr out) = (((i + 1 : Nat) : K))⁻¹ • (S + f out) := by
      rw [hstep, hfr, smul_smul, mul_inv_cancel₀ hi0, one_smul]
    have := ih (i + 1) (average_step ops i fr out) (S + f out) (Nat.succ_pos i) h1
    simp only [average_loop, List.length_cons, List.map_cons, List.sum_cons]
    have hn : i + 1 + rest.length = i + (rest.length + 1) := by omega
    rw [this, hn, add_assoc]

/-- C27: in exact arithmetic (a field of characteristic zero in place of `double`), for a
vector of end-effector outputs that is not empty, the averaging loop of `doInverseMotion`
returns a frame whose `Position`, `Velocity`, `AngVelocity`, `Acceleration` and
`AngAcceleration` are the arithmetic means of these members over all the outputs. -/
theorem doInverseMotion_averages_outputs (ops : rot_mat_2D_ops K R) (out0 : frame_2D K R)
    (rest : List (frame_2D K R)) :
    ∃ EE_fr, free_floater_2D_kinematics.doInverseMotion ops (out0 :: rest) = some EE_fr ∧
      EE_fr.Position = mean_of (fun x => x.Position) (out0 :: rest) ∧
      EE_fr.Velocity = mean_of (fun x => x.Velocity) (out0 :: rest) ∧
      EE_fr.AngVelocity = mean_of (fun x => x.AngVelocity) (out0 :: rest) ∧
      EE_fr.Acceleration = mean_of (fun x => x.Acceleration) (out0 :: rest) ∧
      EE_fr.AngAcceleration = mean_of (fun x => x.AngAcceleration) (out0 :: rest) := by
  refine ⟨_, rfl, ?_, ?_, ?_, ?_, ?_⟩
  all_goals
    unfold mean_of
    rw [List.length_cons, List.map_cons, List.sum_cons, add_comm rest.length 1]
    refine average_loop_mean ops _ ?_ rest 1 out0 _ Nat.one_pos (by simp)
    intro i fr out
    simp [average_step, div_eq_inv_mul, mul_comm]

end free_floater_theorems

/-! ## The velocity of the cubic Hermite interpolation -/

section derivative_theorems
variable {V : Type} [NormedAddCommGroup V] [NormedSpace ℝ V]

/-- C28: in the vector-space topology over the reals, for `a` and `b` with a time span that
is not degenerate and every time `t`, the interpolation returns a point, and the velocity
component of that point is the derivative at `t` of the position component of the interpolation
as a function of the time. -/
theorem cubic_hermite_velocity_is_derivative (a b : temporal_point ℝ V V) (t : ℝ)
    (h : ¬ |b.time - a.time| < numeric_limits_epsilon ℝ) :
    ∃ r, cubic_hermite_interpolate a b t (vector_space_topology ℝ V) = Except.ok r ∧
      HasDerivAt
        (fun s => position_or a.pt.1 (cubic_hermite_interpolate a b s (vector_space_topology ℝ V)))
        r.pt.2 t := by
  have hne : b.time - a.time ≠ 0 := by
    intro h0
    apply h
    rw [h0, abs_zero]
    exact numeric_limits_epsilon_pos
  obtain ⟨ta, pa, va⟩ := a
  obtain ⟨tb, pb, vb⟩ := b
  simp only at h hne
  simp only [cubic_hermite_interpolate, h, if_false, position_or]
  refine ⟨_, rfl, ?_⟩
  simp only [detail.cubic_hermite_interpolate_impl, vector_space_topology]
  have hτ : HasDerivAt (fun s : ℝ => (s - ta) / (tb - ta)) (1 / (tb - ta)) t :=
    ((hasDerivAt_id t).sub_const ta).div_const (tb - ta)
  have h2 := hτ.mul hτ
  have h3 := hτ.mul h2
  have hc1 := (h2.const_mul 3).sub (h3.const_mul 2)
  have hc2 := (hτ.sub (h2.mul_const 2)).add h3
  have hc3 := h3.sub h2
  have hpos := (((hc1.smul_const (pb - pa)).add (hc2.smul_const ((tb - ta) • va))).add
    (hc3.smul_const ((tb - ta) • vb))).const_add pa
  convert hpos using 1
  generalize (t - ta) / (tb - ta) = τ
  generalize tb - ta = d at hne
  match_scalars <;> field_simp <;> ring

end derivative_theorems

/-- Witness of C28: between the point (time 0, position 1, velocity 2) and the point (time 2,
position 5, velocity -1) on the real line, at the time 1. -/
theorem cubic_hermite_velocity_is_derivative_witness :
    ¬ |(2 : ℝ) - 0| < numeric_limits_epsilon ℝ ∧
    ∃ r, cubic_hermite_interpolate (⟨0, (1, 2)⟩ : temporal_point ℝ ℝ ℝ) ⟨2, (5, -1)⟩ 1
        (vector_space_topology ℝ ℝ) = Except.ok r ∧
      HasDerivAt
        (fun s => position_or (1 : ℝ)
          (cubic_hermite_interpolate (⟨0, (1, 2)⟩ : temporal_point ℝ ℝ ℝ) ⟨2, (5, -1)⟩ s
            (vector_space_topology ℝ ℝ)))
        r.pt.2 1 :=
  ⟨by norm_num [numeric_limits_epsilon],
    cubic_hermite_velocity_is_derivative ⟨0, (1, 2)⟩ ⟨2, (5, -1)⟩ 1
      (by norm_num [numeric_limits_epsilon])⟩

/-! ## Taking an address apart -/

/-- Without a colon in a string that is not empty, the port is extracted from the string
itself: the incremented `npos` is zero. -/
theorem split_address_without_colon (s : List Char) (hc : ':' ∉ s) (hne : s ≠ [])
    (hlen : s.length < 2 ^ 64) : split_address s = (s, extract_size_t s) := by
  have hfind : string_find s ':' = npos := by
    unfold string_find
    rw [List.indexOf_eq_length.mpr hc]
    simp
  have hpos : 0 < s.length := List.length_pos.mpr hne
  have hle : s.length ≤ npos := by unfold npos; omega
  simp only [split_address, hfind, string_substr, List.drop_zero]
  rw [List.take_of_length_le hle]
  have h0 : (npos + 1) % 2 ^ 64 = 0 := by decide
  rw [h0]
  simp [hpos]

/-- With nothing after the colon the port stays 17000. -/
theorem split_address_nothing_after_colon (addr : List Char) (hc : ':' ∉ addr)
    (hlen : addr.length + 1 < 2 ^ 64) : split_address (addr ++ [':']) = (addr, 17000) := by
  have hidx : (addr ++ [':']).indexOf ':' = addr.length := by
    rw [List.indexOf_append_of_not_mem hc]
    simp
  have hfind : string_find (addr ++ [':']) ':' = addr.length := by
    unfold string_find
    rw [hidx]
    simp
  have hmod : (addr.length + 1) % 2 ^ 64 = addr.length + 1 := Nat.mod_eq_of_lt hlen
  simp only [split_address, hfind, string_substr, List.drop_zero, hmod, List.length_append,
    List.length_singleton, lt_self_iff_false, if_false]
  simp

/-- C29, evaluated at the failing input: for the address `127.0.0.1`, which has no colon, the
recorder and the extractor take the whole string as address but the port 127 and not 17000: the
incremented `npos` is zero, so the port is extracted from the start of the string. For
`localhost` the port is 0. With a colon the parts are as expected: `10.0.0.7:5000` gives the
port 5000 and `10.0.0.7:` the port 17000. -/
theorem setFileName_without_colon_reads_port_from_address :
    udp_recorder.setFileName 0 "127.0.0.1" = ("127.0.0.1", 127) ∧
    udp_recorder.setFileName 3 "127.0.0.1" = ("127.0.0.1", 127) ∧
    udp_extractor.setFileName "127.0.0.1" = ("127.0.0.1", 127) ∧
    udp_extractor.setFileName "localhost" = ("localhost", 0) ∧
    udp_extractor.setFileName "10.0.0.7:5000" = ("10.0.0.7", 5000) ∧
    udp_extractor.setFileName "10.0.0.7:" = ("10.0.0.7", 17000) := by
  decide

/-! ## The filter step against prediction and update -/

section kalman_theorems
variable {T X U Z M Vc : Type} [Add T]

/-- When the output blocks at the predicted state do not differ between the time `t` and the
time one step later, the filter step is the prediction followed by the update. -/
theorem filter_step_eq_predict_update_of_same_blocks (ops : mat_ops M Vc)
    (sys : invariant_system T X U Z M Vc) (b_x : belief_state X M) (b_u : belief_state U M)
    (b_z : belief_state Z M) (t : T)
    (h : sys.get_output_function_blocks t (sys.get_next_state b_x.mean_state b_u.mean_state t)
        b_u.mean_state
      = sys.get_output_function_blocks (t + sys.get_time_step)
        (sys.get_next_state b_x.mean_state b_u.mean_state t) b_u.mean_state) :
    invariant_kalman_filter_step ops sys b_x b_u b_z t
      = invariant_kalman_update ops sys (invariant_kalman_predict ops sys b_x b_u t) b_u b_z t := by
  simp only [invariant_kalman_filter_step, invariant_kalman_update, invariant_kalman_predict, h]

end kalman_theorems

/-- C22, evaluated at the failing input: for `ramp_system`, whose output block depends on the
time, with the belief (mean 0, covariance 1), the input (0, covariance 0) and the measurement
(1, covariance 1) at time 0, `invariant_kalman_filter_step` leaves the mean 1/2 and the
covariance 1/2, while `invariant_kalman_predict` followed by `invariant_kalman_update` at the
same time leaves the mean 0 and the covariance 1: the update reads the output blocks at the
time `t`, the step at the time `t + get_time_step()`. -/
theorem filter_step_differs_from_predict_then_update :
    invariant_kalman_filter_step scalar_mat_ops ramp_system ⟨0, 1⟩ ⟨0, 0⟩ ⟨1, 1⟩ 0
      = ⟨1 / 2, 1 / 2⟩ ∧
    invariant_kalman_update scalar_mat_ops ramp_system
      (invariant_kalman_predict scalar_mat_ops ramp_system ⟨0, 1⟩ ⟨0, 0⟩ 0) ⟨0, 0⟩ ⟨1, 1⟩ 0
      = ⟨0, 1⟩ := by
  constructor <;>
  norm_num [invariant_kalman_filter_step, invariant_kalman_update, invariant_kalman_predict,
    scalar_mat_ops, ramp_system]

/-! ## The invariant of the growth loop -/

section tree_lemmas
variable {W : Type}

namespace rrt_tree

/-- The root is the vertex that reaches the root in no step. -/
theorem reaches_root_zero (t : rrt_tree W) (v : Nat) : t.reaches_root 0 v = true ↔ v = 0 := by
  simp [reaches_root]

/-- A chain of `n + 1` steps is a step to the predecessor and a chain of `n` steps. -/
theorem reaches_root_succ (t : rrt_tree W) (n v : Nat) :
    t.reaches_root (n + 1) v = true ↔
      ∃ u, t.predecessor v = some u ∧ t.reaches_root n u = true := by
  simp only [reaches_root]
  cases t.predecessor v with
  | none => simp
  | some u => simp

/-- The number of steps to the root is unique. -/
theorem reaches_root_unique (t : rrt_tree W) (h0 : t.predecessor 0 = none) :
    ∀ (a b v : Nat), t.reaches_root a v = true → t.reaches_root b v = true → a = b := by
  intro a
  induction a with
  | zero =>
    intro b v ha hb
    rw [reaches_root_zero] at ha
    subst ha
    cases b with
    | zero => rfl
    | succ b =>
      obtain ⟨u, hu, -⟩ := (reaches_root_succ t b 0).mp hb
      rw [h0] at hu
      cases hu
  | succ a ih =>
    intro b v ha hb
    obtain ⟨u, hu, hau⟩ := (reaches_root_succ t a v).mp ha
    cases b with
    | zero =>
      rw [reaches_root_zero] at hb
      subst hb
      rw [h0] at hu
      cases hu
    | succ b =>
      obtain ⟨u1, hu1, hbu⟩ := (reaches_root_succ t b v).mp hb
      rw [hu] at hu1
      cases hu1
      rw [ih b u hau hbu]

/-- The vertex `k` steps up a chain of `n` steps is a vertex with `n - k` steps to go. -/
theorem ancestor_of_reaches (t : rrt_tree W)
    (hcl : ∀ v u, v < t.num_vertices → t.predecessor v = some u → u < t.num_vertices) :
    ∀ (k n v : Nat), v < t.num_vertices → t.reaches_root n v = true → k ≤ n →
      ∃ x, t.ancestor k v = some x ∧ x < t.num_vertices ∧ t.reaches_root (n - k) x = true := by
  intro k
  induction k with
  | zero =>
    intro n v hv hr _
    exact ⟨v, rfl, hv, by simpa using hr⟩
  | succ k ih =>
    intro n v hv hr hk
    cases n with
    | zero => omega
    | succ n =>
      obtain ⟨u, hu, hru⟩ := (reaches_root_succ t n v).mp hr
      obtain ⟨x, hx, hxv, hxr⟩ := ih n u (hcl v u hv hu) hru (by omega)
      refine ⟨x, by simp [ancestor, hu, hx], hxv, ?_⟩
      rw [Nat.succ_sub_succ]
      exact hxr

/-- A chain to the root has fewer steps than the tree has vertices. -/
theorem reaches_root_lt (t : rrt_tree W) (h0 : t.predecessor 0 = none)
    (hcl : ∀ v u, v < t.num_vertices → t.predecessor v = some u → u < t.num_vertices)
    (n v : Nat) (hv : v < t.num_vertices) (hr : t.reaches_root n v = true) :
    n < t.num_vertices := by
  by_contra hlt
  have hle : t.num_vertices ≤ n := Nat.le_of_not_lt hlt
  have hmaps : ∀ k ∈ Finset.range (t.num_vertices + 1),
      (t.ancestor k v).getD 0 ∈ Finset.range t.num_vertices := by
    intro k hk
    rw [Finset.mem_range] at hk
    obtain ⟨x, hx, hxv, -⟩ := ancestor_of_reaches t hcl k n v hv hr (by omega)
    rw [hx, Finset.mem_range]
    exact hxv
  obtain ⟨i, hi, j, hj, hij, hf⟩ :=
    Finset.exists_ne_map_eq_of_card_lt_of_maps_to (by simp) hmaps
  rw [Finset.mem_range] at hi hj
  obtain ⟨x, hx, -, hxr⟩ := ancestor_of_reaches t hcl i n v hv hr (by omega)
  obtain ⟨y, hy, -, hyr⟩ := ancestor_of_reaches t hcl j n v hv hr (by omega)
  rw [hx, hy] at hf
  simp only [Option.getD_some] at hf
  subst hf
  have := reaches_root_unique t h0 _ _ _ hxr hyr
  omega

/-- Once the fuel covers the chain, more fuel does not change the subtree test. -/
theorem in_subtree_fuel (t : rrt_tree W) (h0 : t.predecessor 0 = none) (q : Nat) :
    ∀ (n fuel v : Nat), t.reaches_root n v = true → n ≤ fuel →
      t.in_subtree q fuel v = t.in_subtree q n v := by
  intro n
  induction n with
  | zero =>
    intro fuel v hr _
    rw [reaches_root_zero] at hr
    subst hr
    cases fuel with
    | zero => rfl
    | succ f => simp [in_subtree, h0]
  | succ n ih =>
    intro fuel v hr hf
    obtain ⟨u, hu, hru⟩ := (reaches_root_succ t n v).mp hr
    cases fuel with
    | zero => omega
    | succ f =>
      simp only [in_subtree, hu]
      rw [ih f u hru (by omega)]

/-- A chain that does not meet `q` is still a chain after the predecessor of `q` changed. -/
theorem reaches_root_of_not_in_subtree (t t1 : rrt_tree W) (q : Nat)
    (hp : ∀ v, v ≠ q → t1.predecessor v = t.predecessor v) :
    ∀ (n v : Nat), t.reaches_root n v = true → t.in_subtree q n v = false →
      t1.reaches_root n v = true := by
  intro n
  induction n with
  | zero =>
    intro v hr _
    rw [reaches_root_zero] at hr ⊢
    exact hr
  | succ n ih =>
    intro v hr hs
    obtain ⟨u, hu, hru⟩ := (reaches_root_succ t n v).mp hr
    simp only [in_subtree, hu, Bool.or_eq_false_iff, decide_eq_false_iff_not] at hs
    rw [reaches_root_succ]
    exact ⟨u, by rw [hp v hs.1, hu], ih u hru hs.2⟩

end rrt_tree

end tree_lemmas

section growth_theorems
variable {W : Type} [LinearOrderedAddCommGroup W]

namespace rrt_tree

/-- In a tree with the invariant no cost-to-come is negative. -/
theorem distance_accum_nonneg (t : rrt_tree W) (hinv : t.invariant) :
    ∀ (n v : Nat), v < t.num_vertices → t.reaches_root n v = true → 0 ≤ t.distance_accum v := by
  obtain ⟨-, -, hroot, -, hc⟩ := hinv
  intro n
  induction n with
  | zero =>
    intro v _ hr
    rw [reaches_root_zero] at hr
    subst hr
    rw [hroot]
  | succ n ih =>
    intro v hv hr
    obtain ⟨u, hu, hru⟩ := (reaches_root_succ t n v).mp hr
    obtain ⟨hul, hw, hacc⟩ := hc v u hv hu
    rw [hacc]
    exact add_nonneg (ih u hul hru) hw

/-- A vertex in the subtree of `q` costs at least as much as `q`. -/
theorem distance_accum_le_of_in_subtree (t : rrt_tree W) (hinv : t.invariant) (q : Nat) :
    ∀ (fuel v : Nat), v < t.num_vertices → t.in_subtree q fuel v = true →
      t.distance_accum q ≤ t.distance_accum v := by
  obtain ⟨-, -, -, -, hc⟩ := hinv
  intro fuel
  induction fuel with
  | zero =>
    intro v _ hs
    simp only [in_subtree, decide_eq_true_eq] at hs
    rw [hs]
  | succ f ih =>
    intro v hv hs
    simp only [in_subtree, Bool.or_eq_true, decide_eq_true_eq] at hs
    rcases hs with hs | hs
    · rw [hs]
    · cases hu : t.predecessor v with
      | none => simp [hu] at hs
      | some u =>
        simp only [hu] at hs
        obtain ⟨hul, hw, hacc⟩ := hc v u hv hu
        rw [hacc]
        exact le_trans (ih u hul hs) (le_add_of_nonneg_right hw)

/-- INSERT keeps the invariant. -/
theorem insert_vertex_invariant (t : rrt_tree W) (hinv : t.invariant) (p : Nat) (w : W)
    (hp : p < t.num_vertices) (hw : 0 ≤ w) : (t.insert_vertex p w).invariant := by
  obtain ⟨hpos, h0, hroot, hreach, hc⟩ := hinv
  have hne0 : (0 : Nat) ≠ t.num_vertices := by omega
  have hold : ∀ (n v : Nat), v < t.num_vertices → t.reaches_root n v = true →
      (t.insert_vertex p w).reaches_root n v = true := by
    intro n
    induction n with
    | zero =>
      intro v _ hr
      rw [reaches_root_zero] at hr ⊢
      exact hr
    | succ n ih =>
      intro v hv hr
      obtain ⟨u, hu, hru⟩ := (reaches_root_succ t n v).mp hr
      rw [reaches_root_succ]
      refine ⟨u, ?_, ih u (hc v u hv hu).1 hru⟩
      simp only [insert_vertex]
      rw [if_neg (by omega), hu]
  refine ⟨Nat.succ_pos _, ?_, ?_, ?_, ?_⟩
  · simp only [insert_vertex]
    rw [if_neg hne0, h0]
  · simp only [insert_vertex]
    rw [if_neg hne0, hroot]
  · intro v hv
    by_cases hvn : v = t.num_vertices
    · obtain ⟨n, hn⟩ := hreach p hp
      refine ⟨n + 1, ?_⟩
      rw [reaches_root_succ]
      exact ⟨p, by simp [insert_vertex, hvn], hold n p hp hn⟩
    · have hv1 : v < t.num_vertices := by
        simp only [insert_vertex] at hv
        omega
      obtain ⟨n, hn⟩ := hreach v hv1
      exact ⟨n, hold n v hv1 hn⟩
  · intro v u hv hu
    simp only [insert_vertex] at hv hu ⊢
    by_cases hvn : v = t.num_vertices
    · rw [if_pos hvn] at hu
      cases hu
      have hpn : p ≠ t.num_vertices := by omega
      rw [if_pos hvn, if_pos hvn, if_neg hpn]
      exact ⟨by omega, hw, rfl⟩
    · rw [if_neg hvn] at hu
      have hv1 : v < t.num_vertices := by omega
      obtain ⟨hul, hwv, hacc⟩ := hc v u hv1 hu
      have hun : u ≠ t.num_vertices := by omega
      rw [if_neg hvn, if_neg hvn, if_neg hun]
      exact ⟨by omega, hwv, hacc⟩

/-- REWIRE keeps the invariant. -/
theorem rewire_invariant (t : rrt_tree W) (hinv : t.invariant) (q nw : Nat) (w : W)
    (hnw : nw < t.num_vertices) (hw : 0 ≤ w) : (t.rewire q nw w).invariant := by
  unfold rewire
  split
  swap
  · exact hinv
  rename_i hlt
  have hinv0 := hinv
  obtain ⟨hpos, h0, hroot, hreach, hc⟩ := hinv
  have hcl : ∀ v u, v < t.num_vertices → t.predecessor v = some u → u < t.num_vertices :=
    fun v u hv hu => (hc v u hv hu).1
  obtain ⟨dn, hdn⟩ := hreach nw hnw
  have hnwnn : 0 ≤ t.distance_accum nw := distance_accum_nonneg t hinv0 dn nw hnw hdn
  have hq0 : q ≠ 0 := by
    intro hq0
    rw [hq0, hroot] at hlt
    exact absurd hlt (not_lt.mpr (add_nonneg hnwnn hw))
  have hnot : ∀ fuel, t.in_subtree q fuel nw = false := by
    intro fuel
    cases hs : t.in_subtree q fuel nw with
    | false => rfl
    | true =>
      have := distance_accum_le_of_in_subtree t hinv0 q fuel nw hnw hs
      exact absurd hlt (not_lt.mpr (le_trans this (le_add_of_nonneg_right hw)))
  have hroot_out : ∀ fuel, t.in_subtree q fuel 0 = false := by
    intro fuel
    cases fuel with
    | zero => simp [in_subtree, Ne.symm hq0]
    | succ f => simp [in_subtree, h0, Ne.symm hq0]
  simp only
  refine ⟨hpos, ?_, ?_, ?_, ?_⟩
  · simp only
    rw [if_neg (Ne.symm hq0), h0]
  · simp only
    rw [hroot_out, hroot]
    simp
  · have hnew : ∃ m, rrt_tree.reaches_root
        { t with
          predecessor := fun v => if v = q then some nw else t.predecessor v
          weight := fun v => if v = q then w else t.weight v
          distance_accum := fun v =>
            if t.in_subtree q t.num_vertices v = true then
              t.distance_accum v - (t.distance_accum q - (t.distance_accum nw + w))
            else t.distance_accum v } m nw = true :=
      ⟨dn, reaches_root_of_not_in_subtree t _ q (fun v hv => by simp [hv]) dn nw hdn (hnot dn)⟩
    obtain ⟨m, hm⟩ := hnew
    have hall : ∀ (n v : Nat), t.reaches_root n v = true → ∃ k, rrt_tree.reaches_root
        { t with
          predecessor := fun v => if v = q then some nw else t.predecessor v
          weight := fun v => if v = q then w else t.weight v
          distance_accum := fun v =>
            if t.in_subtree q t.num_vertices v = true then
              t.distance_accum v - (t.distance_accum q - (t.distance_accum nw + w))
            else t.distance_accum v } k v = true := by
      intro n
      induction n with
      | zero =>
        intro v hr
        rw [reaches_root_zero] at hr
        exact ⟨0, by rw [reaches_root_zero]; exact hr⟩
      | succ n ih =>
        intro v hr
        obtain ⟨u, hu, hru⟩ := (reaches_root_succ t n v).mp hr
        by_cases hvq : v = q
        · exact ⟨m + 1, by rw [reaches_root_succ]; exact ⟨nw, by simp [hvq], hm⟩⟩
        · obtain ⟨k, hk⟩ := ih u hru
          exact ⟨k + 1, by rw [reaches_root_succ]; exact ⟨u, by simp [hvq, hu], hk⟩⟩
    intro v hv
    obtain ⟨n, hn⟩ := hreach v hv
    exact hall n v hn
  · intro v u hv hu
    simp only at hv hu ⊢
    by_cases hvq : v = q
    · rw [if_pos hvq] at hu
      cases hu
      have hin : t.in_subtree q t.num_vertices v = true := by
        cases t.num_vertices with
        | zero => simp [in_subtree, hvq]
        | succ f => simp [in_subtree, hvq]
      rw [hin, hnot, if_pos hvq, hvq]
      refine ⟨hnw, hw, ?_⟩
      simp
    · rw [if_neg hvq] at hu
      obtain ⟨hul, hwv, hacc⟩ := hc v u hv hu
      obtain ⟨n, hn⟩ := hreach v hv
      have hnlt := reaches_root_lt t h0 hcl n v hv hn
      cases n with
      | zero =>
        rw [reaches_root_zero] at hn
        rw [hn, h0] at hu
        cases hu
      | succ n =>
        obtain ⟨u1, hu1, hru⟩ := (reaches_root_succ t n v).mp hn
        rw [hu] at hu1
        cases hu1
        have hsame : t.in_subtree q t.num_vertices v = t.in_subtree q t.num_vertices u := by
          rw [in_subtree_fuel t h0 q (n + 1) t.num_vertices v hn (by omega),
            in_subtree_fuel t h0 q n t.num_vertices u hru (by omega)]
          simp [in_subtree, hvq, hu]
        rw [hsame, if_neg hvq]
        refine ⟨hul, hwv, ?_⟩
        split
        · rw [hacc]
          abel
        · exact hacc

end rrt_tree

/-- An admissible operation of the growth loop keeps the invariant. -/
theorem growth_op_invariant (t : rrt_tree W) (hinv : t.invariant) (o : growth_op W)
    (h : o.admissible t = true) : (o.apply t).invariant := by
  cases o with
  | insert p w =>
    simp only [growth_op.admissible, Bool.and_eq_true, decide_eq_true_eq] at h
    exact rrt_tree.insert_vertex_invariant t hinv p w h.1 h.2
  | rewire q nw w =>
    simp only [growth_op.admissible, Bool.and_eq_true, decide_eq_true_eq] at h
    exact rrt_tree.rewire_invariant t hinv q nw w h.1.2 h.2

/-- A sequence of admissible operations keeps the invariant. -/
theorem run_growth_invariant (os : List (growth_op W)) :
    ∀ (t : rrt_tree W), t.invariant → growth_admissible t os = true →
      (run_growth t os).invariant := by
  induction os with
  | nil => intro t hinv _; exact hinv
  | cons o os ih =>
    intro t hinv h
    simp only [growth_admissible, Bool.and_eq_true] at h
    exact ih _ (growth_op_invariant t hinv o h.1) h.2

/-- The tree of the root alone has the invariant. -/
theorem root_only_invariant : (rrt_tree.root_only : rrt_tree W).invariant := by
  refine ⟨Nat.one_pos, rfl, rfl, ?_, ?_⟩
  · intro v hv
    exact ⟨0, by simp only [rrt_tree.root_only] at hv; simp [rrt_tree.reaches_root]; omega⟩
  · intro v u _ hu
    simp [rrt_tree.root_only] at hu

/-- C21: after any sequence of admissible INSERT and REWIRE operations on the tree the
planner starts from, every vertex of the tree reaches the root along its predecessor chain in
finitely many steps, the cost of the root is 0, and the cost-to-come of a vertex is that of its
predecessor plus the weight of the edge between them. -/
theorem growth_keeps_chain_and_costs (os : List (growth_op W))
    (h : growth_admissible (rrt_tree.root_only : rrt_tree W) os = true) (v : Nat)
    (hv : v < (run_growth (rrt_tree.root_only : rrt_tree W) os).num_vertices) :
    (∃ n, (run_growth (rrt_tree.root_only : rrt_tree W) os).reaches_root n v = true) ∧
    (run_growth (rrt_tree.root_only : rrt_tree W) os).distance_accum 0 = 0 ∧
    ∀ u, (run_growth (rrt_tree.root_only : rrt_tree W) os).predecessor v = some u →
      (run_growth (rrt_tree.root_only : rrt_tree W) os).distance_accum v
        = (run_growth (rrt_tree.root_only : rrt_tree W) os).distance_accum u
          + (run_growth (rrt_tree.root_only : rrt_tree W) os).weight v := by
  obtain ⟨-, -, hroot, hreach, hc⟩ := run_growth_invariant os _ root_only_invariant h
  exact ⟨hreach v hv, hroot, fun u hu => (hc v u hv hu).2.2⟩

end growth_theorems

/-- Witness of C21: after `sample_growth` vertex 2 hangs under vertex 1, which was re-parented
to vertex 3. -/
theorem growth_keeps_chain_and_costs_witness :
    growth_admissible (rrt_tree.root_only : rrt_tree ℤ) sample_growth = true ∧
    2 < (run_growth (rrt_tree.root_only : rrt_tree ℤ) sample_growth).num_vertices ∧
    (∃ n, (run_growth (rrt_tree.root_only : rrt_tree ℤ) sample_growth).reaches_root n 2
      = true) ∧
    (run_growth (rrt_tree.root_only : rrt_tree ℤ) sample_growth).distance_accum 0 = 0 ∧
    ∀ u, (run_growth (rrt_tree.root_only : rrt_tree ℤ) sample_growth).predecessor 2 = some u →
      (run_growth (rrt_tree.root_only : rrt_tree ℤ) sample_growth).distance_accum 2
        = (run_growth (rrt_tree.root_only : rrt_tree ℤ) sample_growth).distance_accum u
          + (run_growth (rrt_tree.root_only : rrt_tree ℤ) sample_growth).weight 2 :=
  ⟨by decide, by decide,
    growth_keeps_chain_and_costs sample_growth (by decide) 2 (by decide)⟩

/-- The tree after `sample_growth`: the predecessors and the costs of the vertices 1, 2, 3. -/
theorem sample_growth_result :
    [1, 2, 3].map (fun v =>
      ((run_growth (rrt_tree.root_only : rrt_tree ℤ) sample_growth).predecessor v,
        (run_growth (rrt_tree.root_only : rrt_tree ℤ) sample_growth).distance_accum v))
      = [(some 3, 4), (some 1, 9), (some 0, 3)] := by
  decide

end ReaK
